import Mathlib

/-!
Grid inventory engine: shallow embedding and verified properties.

Embedding of `shared/src/Inventory.cpp`, `shared/include/Inventory.hpp`,
`shared/include/Item.hpp`, `server/src/InventoryManager.cpp`,
`shared/include/NetworkMessage.hpp`, `shared/src/NetworkMessage.cpp`, and of the parts of
`server/src/Server.cpp`, `server/src/ItemRegistry.cpp`, `server/src/SharedStashManager.cpp`,
`client/src/ClientInventory.cpp` and `client/src/Client.cpp` that log clients in, place
items, answer split requests, take and decode snapshots and reassemble frames.

Conventions of the embedding:

* `int` coordinates are `Int` (signed overflow is undefined behaviour in the
  source and is not modelled); `uint32_t` quantities are `Nat`, with the
  conversions between `uint32_t` and `int` made explicit by `toInt32` and
  `toUInt32` wherever the source mixes the two types.
* `std::shared_ptr<Item>` is `Option Item` (`none` is the null pointer); the
  source never compares item pointers, only ids, so a reference is modelled
  by the definition it points to.
* `grid_` is a list of rows.  Indexing a vector outside its range is undefined
  behaviour in the source; here every function that indexes `grid_` returns an
  `Option`, and `none` stands for such an access.  `Inventory.WF` is the class
  invariant set up by the constructor (`height_` rows of `width_` slots), under
  which no function returns `none`.
* `Inventory*` arguments of the manager are identifiers into a `Heap` of
  stores, so that `sourceInv == destInv` is identifier equality.
* `InventoryManager::moveItem` is split along its source text into `moveItem`,
  `moveAfterHold`, `mergeOrNoSpace` and `mergeStacks`.
* `std::vector<uint8_t>` is a list of natural numbers, each below 256 (`IsBytes`); the
  conversions to `uint8_t` and `uint32_t` are explicit reductions modulo 256 and 2^32.
* `std::map` and `std::unordered_map` are lists of entries; an identity (`std::string` built
  from payload bytes) is the list of its bytes, and an item name is a `String` with one
  character per byte.
* Socket calls are not modelled: a handler returns the messages it hands to `sendMessage`,
  and the listener takes the results of its `recv` calls as a list.
-/

namespace inventory

/-! ## Data model (`Item.hpp`, `Inventory.hpp`) -/

/-- Grid coordinates: `struct GridPosition`. -/
structure GridPosition where
  x : Int
  y : Int
deriving DecidableEq, Repr

/-- Rectangular footprint: `struct ItemSize`. -/
structure ItemSize where
  width : Int
  height : Int
deriving DecidableEq, Repr

/-- Item definition: `class Item`. -/
structure Item where
  id : Nat
  name : String
  size : ItemSize
  stackLimit : Nat
  imagePath : String
deriving DecidableEq, Repr

/-- One grid cell: `struct InventorySlot`. -/
structure InventorySlot where
  item : Option Item
  stackCount : Nat
  position : GridPosition
  isOccupied : Bool
deriving DecidableEq, Repr

/-- Source: `bool isEmpty() const { return item == nullptr || stackCount == 0; }`. -/
def InventorySlot.isEmpty (s : InventorySlot) : Bool :=
  s.item.isNone || s.stackCount == 0

/-- The class `Inventory`: its dimensions and the vector of rows `grid_`. -/
structure Inventory where
  width_ : Int
  height_ : Int
  grid_ : List (List InventorySlot)
deriving DecidableEq, Repr

/-- The default-constructed slot with its `position` set, as the constructor leaves it. -/
def freshSlot (x y : Int) : InventorySlot :=
  { item := none, stackCount := 0, position := ⟨x, y⟩, isOccupied := false }

/-- Constructor `Inventory::Inventory(int width, int height)`. -/
def Inventory.new (width height : Int) : Inventory :=
  { width_ := width
    height_ := height
    grid_ := (List.range height.toNat).map fun (y : Nat) =>
      (List.range width.toNat).map fun (x : Nat) => freshSlot (x : Int) (y : Int) }

/-- Source: `Inventory::isPositionValid`. -/
def Inventory.isPositionValid (inv : Inventory) (pos : GridPosition) : Bool :=
  decide (pos.x ≥ 0) && decide (pos.x < inv.width_) && decide (pos.y ≥ 0) &&
    decide (pos.y < inv.height_)

/-- The expression `grid_[y][x]` read as a value; `none` when an index is outside its vector. -/
def Inventory.cell? (inv : Inventory) (x y : Int) : Option InventorySlot :=
  if 0 ≤ x ∧ 0 ≤ y then
    match inv.grid_[y.toNat]? with
    | some row => row[x.toNat]?
    | none => none
  else none

/-- Assignments to the fields of `grid_[y][x]`; `none` when an index is outside its vector. -/
def Inventory.modifyCell (inv : Inventory) (x y : Int) (f : InventorySlot → InventorySlot) :
    Option Inventory :=
  if 0 ≤ x ∧ 0 ≤ y then
    match inv.grid_[y.toNat]? with
    | some row =>
      match row[x.toNat]? with
      | some s => some { inv with grid_ := inv.grid_.set y.toNat (row.set x.toNat (f s)) }
      | none => none
    | none => none
  else none

/-- The values of `v` in `for (int v = start; v < start + len; ++v)`. -/
def loopRange (start len : Int) : List Int :=
  (List.range len.toNat).map fun (i : Nat) => start + (i : Int)

/-- Inner loop of `Inventory::isAreaOccupied` over the columns `xs` of row `y`. -/
def Inventory.isAreaOccupiedRow (inv : Inventory) (y : Int) : List Int → Option Bool
  | [] => some false
  | x :: xs =>
    if !inv.isPositionValid ⟨x, y⟩ then some true
    else
      match inv.cell? x y with
      | none => none
      | some s =>
        if !s.isEmpty || s.isOccupied then some true
        else inv.isAreaOccupiedRow y xs

/-- Outer loop of `Inventory::isAreaOccupied` over the rows `ys`. -/
def Inventory.isAreaOccupiedRows (inv : Inventory) (xs : List Int) : List Int → Option Bool
  | [] => some false
  | y :: ys =>
    match inv.isAreaOccupiedRow y xs with
    | none => none
    | some true => some true
    | some false => inv.isAreaOccupiedRows xs ys

/-- Source: `Inventory::isAreaOccupied`. -/
def Inventory.isAreaOccupied (inv : Inventory) (pos : GridPosition) (size : ItemSize) :
    Option Bool :=
  inv.isAreaOccupiedRows (loopRange pos.x size.width) (loopRange pos.y size.height)

/-- Source: `Inventory::canPlaceItem`. -/
def Inventory.canPlaceItem (inv : Inventory) (item : Item) (pos : GridPosition) : Option Bool :=
  (inv.isAreaOccupied pos item.size).map fun b => !b

/-- Two nested `for` loops (rows `ys` outside, columns `xs` inside) running `body x y`
on the store. -/
def Inventory.forEachCell (inv : Inventory) (xs ys : List Int)
    (body : Int → Int → Inventory → Option Inventory) : Option Inventory :=
  ys.foldlM (fun inv1 y => xs.foldlM (fun inv2 x => body x y inv2) inv1) inv

/-- Field assignments of the anchor branch of `occupyArea`. -/
def setAnchor (item : Option Item) (count : Nat) (s : InventorySlot) : InventorySlot :=
  { s with item := item, stackCount := count, isOccupied := false }

/-- Field assignments of the non-anchor branch of `occupyArea`. -/
def setCovered (s : InventorySlot) : InventorySlot :=
  { s with item := none, stackCount := 0, isOccupied := true }

/-- Field assignments of `clearArea` and `clear`. -/
def setCleared (s : InventorySlot) : InventorySlot :=
  { s with item := none, stackCount := 0, isOccupied := false }

/-- Source: `Inventory::occupyArea`. -/
def Inventory.occupyArea (inv : Inventory) (pos : GridPosition) (size : ItemSize)
    (item : Option Item) (count : Nat) : Option Inventory :=
  inv.forEachCell (loopRange pos.x size.width) (loopRange pos.y size.height) fun x y inv1 =>
    if x = pos.x ∧ y = pos.y then inv1.modifyCell x y (setAnchor item count)
    else inv1.modifyCell x y setCovered

/-- Source: `Inventory::clearArea`. -/
def Inventory.clearArea (inv : Inventory) (pos : GridPosition) (size : ItemSize) :
    Option Inventory :=
  inv.forEachCell (loopRange pos.x size.width) (loopRange pos.y size.height) fun x y inv1 =>
    if inv1.isPositionValid ⟨x, y⟩ then inv1.modifyCell x y setCleared
    else some inv1

/-- Source: `Inventory::placeItem`; the result is the returned flag and the store afterwards. -/
def Inventory.placeItem (inv : Inventory) (item : Option Item) (count : Nat)
    (pos : GridPosition) : Option (Bool × Inventory) :=
  match item with
  | none => some (false, inv)
  | some it =>
    if count = 0 ∨ count > it.stackLimit then some (false, inv)
    else
      match inv.canPlaceItem it pos with
      | none => none
      | some false => some (false, inv)
      | some true =>
        match inv.occupyArea pos it.size (some it) count with
        | none => none
        | some inv1 => some (true, inv1)

/-- Source: `Inventory::removeItem`; the result is the returned optional slot and the store
afterwards. -/
def Inventory.removeItem (inv : Inventory) (pos : GridPosition) :
    Option (Option InventorySlot × Inventory) :=
  if !inv.isPositionValid pos then some (none, inv)
  else
    match inv.cell? pos.x pos.y with
    | none => none
    | some slot =>
      if slot.isEmpty then some (none, inv)
      else
        match slot.item with
        | none => none
        | some it =>
          match inv.clearArea pos it.size with
          | none => none
          | some inv1 => some (some slot, inv1)

/-- Source: `Inventory::getSlot`; the inner `none` is the null pointer. -/
def Inventory.getSlot (inv : Inventory) (pos : GridPosition) : Option (Option InventorySlot) :=
  if !inv.isPositionValid pos then some none
  else
    match inv.cell? pos.x pos.y with
    | none => none
    | some s => some (some s)

/-- Source: `Inventory::clear`. -/
def Inventory.clear (inv : Inventory) : Option Inventory :=
  inv.forEachCell (loopRange 0 inv.width_) (loopRange 0 inv.height_) fun x y inv1 =>
    inv1.modifyCell x y setCleared

/-! ## The manager (`InventoryManager.cpp`) -/

/-- Source: `enum class OperationResult`. -/
inductive OperationResult where
  | SUCCESS
  | INVALID_SOURCE
  | INVALID_DESTINATION
  | ITEM_NOT_FOUND
  | NO_SPACE
  | INVALID_STACK_SIZE
  | CONCURRENT_MODIFICATION
deriving DecidableEq, Repr

/-- Identifier of a store object; two `Inventory*` are equal iff their identifiers are. -/
abbrev StoreId := Nat

/-- The store objects reachable through pointers. -/
abbrev Heap := StoreId → Inventory

/-- Conversion `uint32_t → int` (`static_cast<int>` and the implicit conversion): wraps
modulo 2^32 into the signed range. -/
def toInt32 (n : Nat) : Int :=
  if n % 4294967296 < 2147483648 then ((n % 4294967296 : Nat) : Int)
  else ((n % 4294967296 : Nat) : Int) - 4294967296

/-- Conversion of an integer result to `uint32_t`: reduction modulo 2^32. -/
def toUInt32 (i : Int) : Nat :=
  (i % 4294967296).toNat

/-- The test `overlaps` of `InventoryManager::moveItem` for two boxes of the same size. -/
def boxesOverlap (sourcePos destPos : GridPosition) (itemSize : ItemSize) : Bool :=
  let sourceEndX := sourcePos.x + itemSize.width - 1
  let sourceEndY := sourcePos.y + itemSize.height - 1
  let destEndX := destPos.x + itemSize.width - 1
  let destEndY := destPos.y + itemSize.height - 1
  !(decide (destEndX < sourcePos.x) || decide (destPos.x > sourceEndX) ||
    decide (destEndY < sourcePos.y) || decide (destPos.y > sourceEndY))

/-- Call of `placeItem` on the store `i` of the heap. -/
def Heap.placeItem (h : Heap) (i : StoreId) (item : Option Item) (count : Nat)
    (pos : GridPosition) : Option (Bool × Heap) :=
  match (h i).placeItem item count pos with
  | none => none
  | some (b, inv) => some (b, Function.update h i inv)

/-- Call of `removeItem` on the store `i` of the heap. -/
def Heap.removeItem (h : Heap) (i : StoreId) (pos : GridPosition) :
    Option (Option InventorySlot × Heap) :=
  match (h i).removeItem pos with
  | none => none
  | some (r, inv) => some (r, Function.update h i inv)

/-- The merge branch of `InventoryManager::moveItem` (source lines 108-142), entered with the
destination slot `destSlot` just read. -/
def mergeStacks (h : Heap) (src : StoreId) (sourcePos : GridPosition) (dst : StoreId)
    (destPos : GridPosition) (item : Item) (stackCount : Nat) (destSlot : InventorySlot) :
    Option (OperationResult × Heap) :=
  let availableSpace : Int :=
    toInt32 (toUInt32 ((item.stackLimit : Int) - (destSlot.stackCount : Int)))
  let amountToMove : Int := min (toInt32 stackCount) availableSpace
  match h.removeItem src sourcePos with
  | none => none
  | some (none, h1) => some (.CONCURRENT_MODIFICATION, h1)
  | some (some _, h1) =>
    match h1.removeItem dst destPos with
    | none => none
    | some (none, h2) =>
      match h2.placeItem src (some item) stackCount sourcePos with
      | none => none
      | some (_, h3) => some (.CONCURRENT_MODIFICATION, h3)
    | some (some destRemoved, h2) =>
      let newDestCount : Nat := toUInt32 ((destRemoved.stackCount : Int) + amountToMove)
      match h2.placeItem dst (some item) newDestCount destPos with
      | none => none
      | some (false, h3) =>
        match h3.placeItem src (some item) stackCount sourcePos with
        | none => none
        | some (_, h4) =>
          match h4.placeItem dst (some item) destRemoved.stackCount destPos with
          | none => none
          | some (_, h5) => some (.NO_SPACE, h5)
      | some (true, h3) =>
        let remaining : Nat := toUInt32 ((stackCount : Int) - amountToMove)
        if remaining > 0 then
          match h3.placeItem src (some item) remaining sourcePos with
          | none => none
          | some (_, h4) => some (.SUCCESS, h4)
        else some (.SUCCESS, h3)

/-- The branch of `InventoryManager::moveItem` taken when the item does not fit at the
destination, entered once a temporarily removed item has been put back (source lines
102-145): merge into a destination stack of the same id with spare capacity, else `NO_SPACE`. -/
def mergeOrNoSpace (h : Heap) (src : StoreId) (sourcePos : GridPosition) (dst : StoreId)
    (destPos : GridPosition) (item : Item) (stackCount : Nat) :
    Option (OperationResult × Heap) :=
  match (h dst).getSlot destPos with
  | none => none
  | some none => some (.NO_SPACE, h)
  | some (some destSlot) =>
    match destSlot.item with
    | none => some (.NO_SPACE, h)
    | some destItem =>
      if destItem.id = item.id ∧ destSlot.stackCount < item.stackLimit then
        mergeStacks h src sourcePos dst destPos item stackCount destSlot
      else some (.NO_SPACE, h)

/-- The part of `InventoryManager::moveItem` after the temporary hold (source lines 95-167);
`tempRemoved` is the optional slot of the same name. -/
def moveAfterHold (h : Heap) (src : StoreId) (sourcePos : GridPosition) (dst : StoreId)
    (destPos : GridPosition) (item : Item) (stackCount : Nat)
    (tempRemoved : Option InventorySlot) : Option (OperationResult × Heap) :=
  match (h dst).canPlaceItem item destPos with
  | none => none
  | some false =>
    match (if tempRemoved.isSome then h.placeItem src (some item) stackCount sourcePos
      else some (true, h)) with
    | none => none
    | some (_, h1) => mergeOrNoSpace h1 src sourcePos dst destPos item stackCount
  | some true =>
    match (if tempRemoved.isSome then some (tempRemoved, h)
      else h.removeItem src sourcePos) with
    | none => none
    | some (none, h1) => some (.CONCURRENT_MODIFICATION, h1)
    | some (some _, h1) =>
      match h1.placeItem dst (some item) stackCount destPos with
      | none => none
      | some (false, h2) =>
        match h2.placeItem src (some item) stackCount sourcePos with
        | none => none
        | some (_, h3) => some (.NO_SPACE, h3)
      | some (true, h2) => some (.SUCCESS, h2)

/-- Source: `InventoryManager::moveItem`.  A null `Inventory*` is `none`. -/
def moveItem (h : Heap) (sourceInv : Option StoreId) (sourcePos : GridPosition)
    (destInv : Option StoreId) (destPos : GridPosition) : Option (OperationResult × Heap) :=
  match sourceInv, destInv with
  | some src, some dst =>
    match (h src).getSlot sourcePos with
    | none => none
    | some none => some (.ITEM_NOT_FOUND, h)
    | some (some sourceSlot) =>
      match sourceSlot.item with
      | none => some (.ITEM_NOT_FOUND, h)
      | some item =>
        let stackCount := sourceSlot.stackCount
        let itemSize := item.size
        let sameInventory := decide (src = dst)
        let overlaps := sameInventory && boxesOverlap sourcePos destPos itemSize
        if overlaps then
          match h.removeItem src sourcePos with
          | none => none
          | some (none, h1) => some (.CONCURRENT_MODIFICATION, h1)
          | some (some removed, h1) =>
            moveAfterHold h1 src sourcePos dst destPos item stackCount (some removed)
        else moveAfterHold h src sourcePos dst destPos item stackCount none
  | _, _ => some (.INVALID_SOURCE, h)

/-- Source: `InventoryManager::splitStack`.  A null `Inventory*` is `none`. -/
def splitStack (h : Heap) (inventory : Option StoreId) (pos : GridPosition) (amount : Int)
    (destPos : GridPosition) : Option (OperationResult × Heap) :=
  match inventory with
  | none => some (.INVALID_SOURCE, h)
  | some i =>
    if amount ≤ 0 then some (.INVALID_STACK_SIZE, h)
    else
      match (h i).getSlot pos with
      | none => none
      | some none => some (.ITEM_NOT_FOUND, h)
      | some (some sourceSlot) =>
        match sourceSlot.item with
        | none => some (.ITEM_NOT_FOUND, h)
        | some item =>
          if toInt32 sourceSlot.stackCount ≤ amount then some (.INVALID_STACK_SIZE, h)
          else
            let originalCount := sourceSlot.stackCount
            match (h i).canPlaceItem item destPos with
            | none => none
            | some false => some (.NO_SPACE, h)
            | some true =>
              match h.removeItem i pos with
              | none => none
              | some (none, h1) => some (.CONCURRENT_MODIFICATION, h1)
              | some (some _, h1) =>
                match h1.placeItem i (some item) (toUInt32 amount) destPos with
                | none => none
                | some (false, h2) =>
                  match h2.placeItem i (some item) originalCount pos with
                  | none => none
                  | some (_, h3) => some (.NO_SPACE, h3)
                | some (true, h2) =>
                  let remaining : Nat := toUInt32 ((originalCount : Int) - amount)
                  match h2.placeItem i (some item) remaining pos with
                  | none => none
                  | some (false, h3) =>
                    match h3.removeItem i destPos with
                    | none => none
                    | some (_, h4) =>
                      match h4.placeItem i (some item) originalCount pos with
                      | none => none
                      | some (_, h5) => some (.NO_SPACE, h5)
                  | some (true, h3) => some (.SUCCESS, h3)


/-- Source: `Inventory::getAllItems`; the non-empty slots in row-major order. -/
def Inventory.getAllItems (inv : Inventory) : Option (List InventorySlot) :=
  (loopRange 0 inv.height_).foldlM (fun items y =>
    (loopRange 0 inv.width_).foldlM (fun items1 x =>
      match inv.cell? x y with
      | none => none
      | some slot => some (if !slot.isEmpty then items1 ++ [slot] else items1)) items) []

/-! ## The wire frame (`NetworkMessage.hpp`, `NetworkMessage.cpp`) -/

/-- Source: `enum class MessageType : uint8_t`.  The decoder converts any byte to a
`MessageType` (`static_cast<MessageType>(data[0])`), so a value of the type is its underlying
byte. -/
abbrev MessageType := Nat

/-- Enumerator `LOGIN_REQUEST = 1`. -/
def MessageType.LOGIN_REQUEST : MessageType := 1

/-- Enumerator `DISCONNECT = 2`. -/
def MessageType.DISCONNECT : MessageType := 2

/-- Enumerator `MOVE_ITEM_REQUEST = 10`. -/
def MessageType.MOVE_ITEM_REQUEST : MessageType := 10

/-- Enumerator `SPLIT_STACK_REQUEST = 11`. -/
def MessageType.SPLIT_STACK_REQUEST : MessageType := 11

/-- Enumerator `LOGIN_RESPONSE = 50`. -/
def MessageType.LOGIN_RESPONSE : MessageType := 50

/-- Enumerator `LOGIN_REJECTED = 51`. -/
def MessageType.LOGIN_REJECTED : MessageType := 51

/-- Enumerator `INVENTORY_FULL_SYNC = 52`. -/
def MessageType.INVENTORY_FULL_SYNC : MessageType := 52

/-- Enumerator `INVENTORY_UPDATE = 53`. -/
def MessageType.INVENTORY_UPDATE : MessageType := 53

/-- Enumerator `SHARED_STASH_UPDATE = 54`. -/
def MessageType.SHARED_STASH_UPDATE : MessageType := 54

/-- Enumerator `OPERATION_RESULT = 55`. -/
def MessageType.OPERATION_RESULT : MessageType := 55

/-- Enumerator `SERVER_SHUTDOWN = 56`. -/
def MessageType.SERVER_SHUTDOWN : MessageType := 56

/-- Enumerator `HEARTBEAT = 100`. -/
def MessageType.HEARTBEAT : MessageType := 100

/-- Source: `struct NetworkMessage`; `payload` is the `std::vector<uint8_t>`, one number
below 256 per byte. -/
structure NetworkMessage where
  type : MessageType
  payload : List Nat
deriving DecidableEq, Repr

/-- Default constructor `NetworkMessage() : type(MessageType::HEARTBEAT) {}`. -/
def NetworkMessage.default : NetworkMessage :=
  { type := MessageType.HEARTBEAT, payload := [] }

/-- Source: `NetworkMessage::serialize`.  `payload.size()` is converted to `uint32_t`, and
every value pushed is converted to `uint8_t`. -/
def NetworkMessage.serialize (m : NetworkMessage) : List Nat :=
  let payloadSize : Nat := m.payload.length % 4294967296
  [m.type % 256,
    ((payloadSize >>> 24) &&& 0xFF) % 256,
    ((payloadSize >>> 16) &&& 0xFF) % 256,
    ((payloadSize >>> 8) &&& 0xFF) % 256,
    (payloadSize &&& 0xFF) % 256] ++ m.payload

/-- Source: `NetworkMessage::deserialize`.  The sum `5 + payloadSize` is computed in
`uint32_t` and wraps modulo 2^32 before it is compared with `data.size()`.  The result is
`none` when the range handed to `payload.assign` ends beyond `data.end()`, which is a read
outside the buffer. -/
def NetworkMessage.deserialize (data : List Nat) : Option NetworkMessage :=
  match data with
  | d0 :: d1 :: d2 :: d3 :: d4 :: rest =>
    let payloadSize : Nat :=
      (((d1 <<< 24) % 4294967296) ||| ((d2 <<< 16) % 4294967296) |||
        ((d3 <<< 8) % 4294967296) ||| d4) % 4294967296
    if data.length ≥ (5 + payloadSize) % 4294967296 then
      if payloadSize ≤ rest.length then some { type := d0, payload := rest.take payloadSize }
      else none
    else some { type := d0, payload := [] }
  | _ => some NetworkMessage.default

/-! ## The server (`Server.cpp`, `ClientSession.hpp`, `InventoryManager.cpp`,
`SharedStashManager.cpp`, `ItemRegistry.cpp`) -/

/-- Source: `enum class LoginResult : uint8_t`, a value being its underlying byte. -/
abbrev LoginResult := Nat

/-- Enumerator `SUCCESS = 0`. -/
def LoginResult.SUCCESS : LoginResult := 0

/-- Enumerator `USERNAME_ALREADY_CONNECTED = 1`. -/
def LoginResult.USERNAME_ALREADY_CONNECTED : LoginResult := 1

/-- Enumerator `INVALID_USERNAME = 2`. -/
def LoginResult.INVALID_USERNAME : LoginResult := 2

/-- Enumerator `SERVER_FULL = 3`. -/
def LoginResult.SERVER_FULL : LoginResult := 3

/-- The conversion `static_cast<uint8_t>(result)` of an `OperationResult`: the position of
the enumerator in `enum class OperationResult`. -/
def OperationResult.toByte : OperationResult → Nat
  | .SUCCESS => 0
  | .INVALID_SOURCE => 1
  | .INVALID_DESTINATION => 2
  | .ITEM_NOT_FOUND => 3
  | .NO_SPACE => 4
  | .INVALID_STACK_SIZE => 5
  | .CONCURRENT_MODIFICATION => 6

/-- A map (`std::map`, `std::unordered_map`) held as a list of entries with distinct keys;
`mapFind` is `find`: the value stored under `k`, if any. -/
def mapFind {K V : Type} [DecidableEq K] : List (K × V) → K → Option V
  | [], _ => none
  | (k1, v) :: r, k => if k1 = k then some v else mapFind r k

/-- The call `erase(k)` on a map. -/
def mapErase {K V : Type} [DecidableEq K] (m : List (K × V)) (k : K) : List (K × V) :=
  m.filter fun p => !decide (p.1 = k)

/-- The assignment `m[k] = v` on a map whose entries are never traversed in order. -/
def mapAssign {K V : Type} [DecidableEq K] : List (K × V) → K → V → List (K × V)
  | [], k, v => [(k, v)]
  | (k1, v1) :: r, k, v => if k1 = k then (k, v) :: r else (k1, v1) :: mapAssign r k v

/-- Source: `class ClientSession`; the time stamp `lastActivity_` is not modelled.  A
`std::string` identity is the list of its bytes. -/
structure ClientSession where
  socket_ : Int
  username_ : List Nat
deriving DecidableEq, Repr

/-- The assignment `clients[k] = v` on the `std::map<int, ...>` of sessions, whose entries
are kept in increasing key order, the order in which the map is traversed. -/
def sessionAssign : List (Int × ClientSession) → Int → ClientSession →
    List (Int × ClientSession)
  | [], k, v => [(k, v)]
  | (k1, v1) :: r, k, v =>
    if k < k1 then (k, v) :: (k1, v1) :: r
    else if k = k1 then (k, v) :: r
    else (k1, v1) :: sessionAssign r k v

/-- Source: `class InventoryManager` with its `SharedStashManager`.  The `Inventory` objects
live in `heap`; the three shared stashes are the stores 0, 1 and 2, `personalInventories_`
maps an identity to its store, and `nextStore` is the identifier the next allocated store
receives. -/
structure InventoryManager where
  heap : Heap
  nextStore : StoreId
  personalInventories_ : List (List Nat × StoreId)

/-- Constructors `InventoryManager::InventoryManager` and
`SharedStashManager::SharedStashManager`: three 12x12 stashes, no personal store. -/
def InventoryManager.new : InventoryManager :=
  { heap := fun i => if i < 3 then Inventory.new 12 12 else Inventory.new 0 0
    nextStore := 3
    personalInventories_ := [] }

/-- Source: `InventoryManager::getOrCreatePersonalInventory`. -/
def InventoryManager.getOrCreatePersonalInventory (mgr : InventoryManager)
    (username : List Nat) : StoreId × InventoryManager :=
  match mapFind mgr.personalInventories_ username with
  | some ptr => (ptr, mgr)
  | none =>
    (mgr.nextStore,
      { heap := Function.update mgr.heap mgr.nextStore (Inventory.new 12 5)
        nextStore := mgr.nextStore + 1
        personalInventories_ := mapAssign mgr.personalInventories_ username mgr.nextStore })

/-- Source: `InventoryManager::getPersonalInventory`; `none` is the null pointer. -/
def InventoryManager.getPersonalInventory (mgr : InventoryManager) (username : List Nat) :
    Option StoreId :=
  mapFind mgr.personalInventories_ username

/-- Source: `InventoryManager::getSharedStash` and `SharedStashManager::getSharedStash`. -/
def InventoryManager.getSharedStash (_mgr : InventoryManager) (stashIndex : Int) :
    Option StoreId :=
  if stashIndex < 0 ∨ stashIndex > 2 then none
  else if stashIndex ≥ 0 ∧ stashIndex < 3 then some stashIndex.toNat
  else none

/-- Source: `class ItemRegistry`, the map `items_` from id to item definition. -/
structure ItemRegistry where
  items_ : List (Nat × Item)

/-- Source: `ItemRegistry::registerItem`. -/
def ItemRegistry.registerItem (r : ItemRegistry) (item : Item) : ItemRegistry :=
  { items_ := mapAssign r.items_ item.id item }

/-- Source: `ItemRegistry::initialize`. -/
def ItemRegistry.initialize (_r : ItemRegistry) : ItemRegistry :=
  [({ id := 1, name := "Chaos Orb", size := ⟨1, 1⟩, stackLimit := 20, imagePath := "" } : Item),
    { id := 2, name := "Divine Orb", size := ⟨1, 1⟩, stackLimit := 20, imagePath := "" },
    { id := 3, name := "Exalted Orb", size := ⟨1, 1⟩, stackLimit := 20, imagePath := "" },
    { id := 4, name := "Orb of Alteration", size := ⟨1, 1⟩, stackLimit := 20, imagePath := "" },
    { id := 5, name := "Scroll of Wisdom", size := ⟨1, 1⟩, stackLimit := 40, imagePath := "" },
    { id := 6, name := "Starforge", size := ⟨2, 4⟩, stackLimit := 1, imagePath := "" },
    { id := 7, name := "Voltaxic Rift", size := ⟨2, 4⟩, stackLimit := 1, imagePath := "" },
    { id := 8, name := "Starkonja", size := ⟨2, 2⟩, stackLimit := 1, imagePath := "" },
    { id := 9, name := "Facebreaker", size := ⟨2, 2⟩, stackLimit := 1, imagePath := "" },
    { id := 10, name := "Volls Protector", size := ⟨2, 3⟩, stackLimit := 1, imagePath := "" },
    { id := 11, name := "Blood Dance", size := ⟨2, 2⟩, stackLimit := 1, imagePath := "" },
    { id := 12, name := "Call of the Brotherhood", size := ⟨1, 1⟩, stackLimit := 1,
      imagePath := "" }].foldl ItemRegistry.registerItem { items_ := [] }

/-- Source: `ItemRegistry::getItem`; `none` is the null pointer. -/
def ItemRegistry.getItem (r : ItemRegistry) (id : Nat) : Option Item :=
  mapFind r.items_ id

/-- Conversion of an `int` to `uint8_t`: reduction modulo 256. -/
def toUInt8 (i : Int) : Nat :=
  (i % 256).toNat

/-- The four `push_back` calls that append a `uint32_t` value, most significant byte
first. -/
def pushUInt32 (v : Nat) : List Nat :=
  [(((v % 4294967296) >>> 24) &&& 0xFF) % 256, (((v % 4294967296) >>> 16) &&& 0xFF) % 256,
    (((v % 4294967296) >>> 8) &&& 0xFF) % 256, ((v % 4294967296) &&& 0xFF) % 256]

/-- The bytes of a `std::string` held as a `String` with one character per byte. -/
def stringBytes (s : String) : List Nat :=
  s.data.map fun c => c.toNat % 256

/-- The body of the loop of `ServerImpl::serializeInventory`: the record of one slot. -/
def serializeSlot (slot : InventorySlot) : List Nat :=
  match slot.item with
  | none => []
  | some item =>
    [toUInt8 slot.position.x, toUInt8 slot.position.y] ++ pushUInt32 item.id ++
      pushUInt32 slot.stackCount ++ [item.name.length % 256] ++ stringBytes item.name ++
      [toUInt8 item.size.width, toUInt8 item.size.height] ++ pushUInt32 item.stackLimit

/-- Source: `ServerImpl::serializeInventory`; the argument `none` is the null pointer, the
result `none` an index outside `grid_` in `getAllItems`. -/
def serializeInventory (inventory : Option Inventory) : Option (List Nat) :=
  match inventory with
  | none => some []
  | some inv =>
    match inv.getAllItems with
    | none => none
    | some items =>
      let itemCount : Nat := items.length % 65536
      some ([toUInt8 inv.width_, toUInt8 inv.height_, ((itemCount >>> 8) &&& 0xFF) % 256,
        (itemCount &&& 0xFF) % 256] ++ (items.map serializeSlot).flatten)

/-- Source: `class ServerImpl`: the sessions by socket, the reverse index from identity to
socket, and the inventory manager. -/
structure ServerImpl where
  clients : List (Int × ClientSession)
  usernameToSocket : List (List Nat × Int)
  inventoryManager : InventoryManager

/-- The messages handed to `sendMessage`, each with its socket, in the order of the calls. -/
abbrev Sent := List (Int × NetworkMessage)

/-- A server without connections, as constructed by `ServerImpl::ServerImpl`. -/
def ServerImpl.new : ServerImpl :=
  { clients := [], usernameToSocket := [], inventoryManager := InventoryManager.new }

/-- Source: `ServerImpl::acceptClient`, `clientSocket` being the result of `accept`. -/
def acceptClient (srv : ServerImpl) (clientSocket : Int) : ServerImpl :=
  if clientSocket < 0 then srv
  else
    { srv with
      clients := sessionAssign srv.clients clientSocket
        { socket_ := clientSocket, username_ := [] } }

/-- Source: `ServerImpl::disconnectClientNoLock` (and `disconnectClient`, which takes the
lock and calls it). -/
def disconnectClientNoLock (srv : ServerImpl) (clientSocket : Int) : ServerImpl :=
  let username : List Nat :=
    match mapFind srv.clients clientSocket with
    | some session => session.username_
    | none => []
  { srv with
    clients := mapErase srv.clients clientSocket
    usernameToSocket :=
      if !username.isEmpty then mapErase srv.usernameToSocket username
      else srv.usernameToSocket }

/-- The message `SHARED_STASH_UPDATE` for the stash `i`: its index followed by its
snapshot. -/
def stashSyncMessage (mgr : InventoryManager) (i : Int) : Option (Option NetworkMessage) :=
  match mgr.getSharedStash i with
  | none => some none
  | some stash =>
    match serializeInventory (some (mgr.heap stash)) with
    | none => none
    | some stashData =>
      some (some { type := MessageType.SHARED_STASH_UPDATE, payload := [toUInt8 i] ++ stashData })

/-- The branch `LOGIN_REQUEST` of `ServerImpl::handleClient` (source lines 312-389); the
result is `none` when `clients[clientSocket]` holds no session, a null pointer. -/
def handleLoginRequest (srv : ServerImpl) (clientSocket : Int) (msg : NetworkMessage) :
    Option (ServerImpl × Sent) :=
  let username : List Nat := msg.payload
  if username.isEmpty ∨ username.length > 32 then
    some (disconnectClientNoLock srv clientSocket,
      [(clientSocket,
        { type := MessageType.LOGIN_REJECTED, payload := [LoginResult.INVALID_USERNAME % 256] })])
  else
    let alreadyConnected : Bool :=
      srv.clients.any fun p => decide (p.2.username_ = username) && decide (p.1 ≠ clientSocket)
    if alreadyConnected then
      some (disconnectClientNoLock srv clientSocket,
        [(clientSocket,
          { type := MessageType.LOGIN_REJECTED
            payload := [LoginResult.USERNAME_ALREADY_CONNECTED % 256] })])
    else
      match mapFind srv.clients clientSocket with
      | none => none
      | some session =>
        let clients1 :=
          sessionAssign srv.clients clientSocket { session with username_ := username }
        let usernameToSocket1 := mapAssign srv.usernameToSocket username clientSocket
        let (inventory, mgr1) := srv.inventoryManager.getOrCreatePersonalInventory username
        match serializeInventory (some (mgr1.heap inventory)) with
        | none => none
        | some data =>
          match stashSyncMessage mgr1 0, stashSyncMessage mgr1 1, stashSyncMessage mgr1 2 with
          | some s0, some s1, some s2 =>
            some ({ clients := clients1, usernameToSocket := usernameToSocket1,
                    inventoryManager := mgr1 },
              [(clientSocket,
                  ({ type := MessageType.LOGIN_RESPONSE, payload := [LoginResult.SUCCESS % 256] } :
                    NetworkMessage)),
                (clientSocket, { type := MessageType.INVENTORY_FULL_SYNC, payload := data })] ++
                ([s0, s1, s2].filterMap id).map fun m => (clientSocket, m))
          | _, _, _ => none

/-- The inventory selected by a request's container byte: 0 is the personal store of
`username`, 1 to 3 are the shared stashes 0 to 2, any other value selects none. -/
def InventoryManager.selectInventory (mgr : InventoryManager) (username : List Nat)
    (invType : Nat) : Option StoreId :=
  if invType = 0 then mgr.getPersonalInventory username
  else if invType ≥ 1 ∧ invType ≤ 3 then mgr.getSharedStash ((invType : Int) - 1)
  else none

/-- The loop `for (const auto &[sock, session] : clients) sendMessage(sock, msg)`. -/
def broadcast (clients : List (Int × ClientSession)) (msg : NetworkMessage) : Sent :=
  clients.map fun p => (p.1, msg)

/-- A read `payload[i]`; `none` when `i` is not below `payload.size()`. -/
def payloadAt (payload : List Nat) (i : Nat) : Option Nat :=
  payload[i]?

/-- The value assembled from four bytes by shifts and bitwise or, as a `uint32_t`. -/
def readUInt32 (b0 b1 b2 b3 : Nat) : Nat :=
  (((b0 <<< 24) % 4294967296) ||| ((b1 <<< 16) % 4294967296) |||
    ((b2 <<< 8) % 4294967296) ||| b3) % 4294967296

/-- Source: `ServerImpl::handleSplitStackRequest`.  The result is `none` when
`clients[clientSocket]` holds no session, when a byte is read at an index that is not below
`payload.size()`, or when a store operation leaves its grid. -/
def handleSplitStackRequest (srv : ServerImpl) (clientSocket : Int) (msg : NetworkMessage) :
    Option (ServerImpl × Sent) :=
  if msg.payload.length < 8 then some (srv, [])
  else
    match mapFind srv.clients clientSocket with
    | none => none
    | some session =>
      let username := session.username_
      if username.isEmpty then some (srv, [])
      else
        match payloadAt msg.payload 0, payloadAt msg.payload 1, payloadAt msg.payload 2,
          payloadAt msg.payload 3, payloadAt msg.payload 4, payloadAt msg.payload 5,
          payloadAt msg.payload 6, payloadAt msg.payload 7, payloadAt msg.payload 8 with
        | some invType, some p1, some p2, some p3, some p4, some p5, some p6, some p7,
            some p8 =>
          let sourcePos : GridPosition := ⟨(p1 : Int), (p2 : Int)⟩
          let amount : Nat := readUInt32 p3 p4 p5 p6
          let destPos : GridPosition := ⟨(p7 : Int), (p8 : Int)⟩
          let inventory := srv.inventoryManager.selectInventory username invType
          match splitStack srv.inventoryManager.heap inventory sourcePos (toInt32 amount)
            destPos with
          | none => none
          | some (result, heap1) =>
            let mgr1 : InventoryManager := { srv.inventoryManager with heap := heap1 }
            let srv1 : ServerImpl := { srv with inventoryManager := mgr1 }
            let response : NetworkMessage :=
              { type := MessageType.OPERATION_RESULT, payload := [result.toByte % 256] }
            if result = .SUCCESS then
              if invType = 0 then
                match serializeInventory
                  ((mgr1.getPersonalInventory username).map fun i => mgr1.heap i) with
                | none => none
                | some data =>
                  some (srv1,
                    [(clientSocket, response),
                      (clientSocket,
                        { type := MessageType.INVENTORY_FULL_SYNC, payload := data })])
              else if invType ≥ 1 ∧ invType ≤ 3 then
                let stashIndex : Int := (invType : Int) - 1
                match serializeInventory
                  ((mgr1.getSharedStash stashIndex).map fun i => mgr1.heap i) with
                | none => none
                | some stashData =>
                  some (srv1,
                    [(clientSocket, response)] ++
                      broadcast srv1.clients
                        { type := MessageType.SHARED_STASH_UPDATE
                          payload := [toUInt8 stashIndex] ++ stashData })
              else some (srv1, [(clientSocket, response)])
            else some (srv1, [(clientSocket, response)])
        | _, _, _, _, _, _, _, _, _ => none

/-- The grid positions in the order of the two loops of `Server::giveItem`: rows from the
top, and inside a row the columns from the left. -/
def scanOrder (inv : Inventory) : List GridPosition :=
  (loopRange 0 inv.height_).flatMap fun y => (loopRange 0 inv.width_).map fun x => ⟨x, y⟩

/-- The two loops of `Server::giveItem` over the positions still to visit: the position at
which the item was placed, if any, and the heap afterwards. -/
def giveItemScan (h : Heap) (i : StoreId) (item : Item) (count : Nat) :
    List GridPosition → Option (Option GridPosition × Heap)
  | [] => some (none, h)
  | pos :: rest =>
    match (h i).canPlaceItem item pos with
    | none => none
    | some false => giveItemScan h i item count rest
    | some true =>
      match h.placeItem i (some item) count pos with
      | none => none
      | some (true, h1) => some (some pos, h1)
      | some (false, h1) => giveItemScan h1 i item count rest

/-- Source: `Server::giveItem`; the result is the returned flag, the server afterwards and
the messages sent. -/
def giveItem (srv : ServerImpl) (registry : ItemRegistry) (username : List Nat)
    (itemId count : Nat) : Option (Bool × ServerImpl × Sent) :=
  match registry.getItem itemId with
  | none => some (false, srv, [])
  | some item =>
    match srv.inventoryManager.getPersonalInventory username with
    | none => some (false, srv, [])
    | some inventory =>
      match giveItemScan srv.inventoryManager.heap inventory item count
        (scanOrder (srv.inventoryManager.heap inventory)) with
      | none => none
      | some (none, heap1) =>
        some (false, { srv with inventoryManager := { srv.inventoryManager with heap := heap1 } },
          [])
      | some (some _, heap1) =>
        let srv1 : ServerImpl :=
          { srv with inventoryManager := { srv.inventoryManager with heap := heap1 } }
        match mapFind srv.usernameToSocket username with
        | none => some (true, srv1, [])
        | some socket =>
          match serializeInventory (some (heap1 inventory)) with
          | none => none
          | some data =>
            some (true, srv1,
              [(socket, { type := MessageType.INVENTORY_FULL_SYNC, payload := data })])

/-! ## The client (`ClientInventory.cpp`, `Client.cpp`) -/

/-- Source: `class ClientInventory`. -/
structure ClientInventory where
  width_ : Int
  height_ : Int
  items_ : List InventorySlot
deriving DecidableEq, Repr

/-- The `std::string` built from a range of bytes, held with one character per byte. -/
def bytesToString (bytes : List Nat) : String :=
  String.mk (bytes.map Char.ofNat)

/-- The loop of `ClientInventory::updateFromSyncData` with `n` records still to read from
`data`, the bytes from `offset` on; `items` is `items_`.  Each test `offset + k > data.size()`
is the test that fewer than `k` bytes remain. -/
def parseSyncItems : Nat → List Nat → List InventorySlot → Bool × List InventorySlot
  | 0, _, items => (true, items)
  | n + 1, data, items =>
    match data with
    | x :: y :: r1 =>
      match r1 with
      | i0 :: i1 :: i2 :: i3 :: r2 =>
        match r2 with
        | c0 :: c1 :: c2 :: c3 :: r3 =>
          match r3 with
          | nameLen :: r4 =>
            if r4.length < nameLen then (false, items)
            else
              let name := bytesToString (r4.take nameLen)
              match r4.drop nameLen with
              | sizeW :: sizeH :: r5 =>
                match r5 with
                | l0 :: l1 :: l2 :: l3 :: r6 =>
                  let item : Item :=
                    { id := readUInt32 i0 i1 i2 i3, name := name
                      size := ⟨(sizeW : Int), (sizeH : Int)⟩
                      stackLimit := readUInt32 l0 l1 l2 l3, imagePath := "" }
                  let slot : InventorySlot :=
                    { item := some item, stackCount := readUInt32 c0 c1 c2 c3
                      position := ⟨(x : Int), (y : Int)⟩, isOccupied := false }
                  parseSyncItems n r6 (items ++ [slot])
                | _ => (false, items)
              | _ => (false, items)
          | _ => (false, items)
        | _ => (false, items)
      | _ => (false, items)
    | _ => (false, items)

/-- Source: `ClientInventory::updateFromSyncData`; the result is the returned flag and the
object afterwards. -/
def ClientInventory.updateFromSyncData (c : ClientInventory) (data : List Nat) :
    Bool × ClientInventory :=
  match data with
  | _width :: _height :: d2 :: d3 :: rest =>
    let itemCount : Nat := ((d2 <<< 8) ||| d3) % 65536
    let r := parseSyncItems itemCount rest []
    (r.1, { c with items_ := r.2 })
  | _ => (false, c)

/-- The state of `Client::messageListener`: the fields `connected_` and `receiveBuffer_`,
the results of the `recv` calls still to come (`incoming`, an empty list being a closed
connection), and the messages passed to the handlers so far (`handled`). -/
structure ListenerState where
  connected_ : Bool
  receiveBuffer_ : List Nat
  incoming : List (List Nat)
  handled : List NetworkMessage
deriving DecidableEq, Repr

/-- The inner loop `while (receiveBuffer_.size() >= 5)` of `Client::messageListener`, run
for at most `fuel` rounds; the result is `none` when the rounds do not suffice or when
`deserialize` reads outside its buffer.  The sum `5 + payloadSize` is computed in `uint32_t`
before it becomes the `size_t` value `totalMessageSize`. -/
def processBuffer : Nat → ListenerState → Option ListenerState
  | 0, _ => none
  | fuel + 1, st =>
    match st.receiveBuffer_ with
    | _ :: b1 :: b2 :: b3 :: b4 :: _ =>
      let payloadSize : Nat := readUInt32 b1 b2 b3 b4
      let totalMessageSize : Nat := (5 + payloadSize) % 4294967296
      if st.receiveBuffer_.length < totalMessageSize then some st
      else
        match NetworkMessage.deserialize (st.receiveBuffer_.take totalMessageSize) with
        | none => none
        | some msg =>
          let st1 : ListenerState :=
            { st with
              receiveBuffer_ := st.receiveBuffer_.drop totalMessageSize
              handled := st.handled ++ [msg] }
          if msg.type = MessageType.SERVER_SHUTDOWN then some { st1 with connected_ := false }
          else processBuffer fuel st1
    | _ => some st

/-- One round of the outer loop of `Client::messageListener` (the socket being open): a
`recv` when fewer than 5 bytes are buffered, then the inner loop. -/
def listenerRound (st : ListenerState) : Option ListenerState :=
  if !st.connected_ then some st
  else if st.receiveBuffer_.length ≥ 5 then
    processBuffer (st.receiveBuffer_.length + 1) st
  else
    match st.incoming with
    | [] => some { st with connected_ := false }
    | bytes :: rest =>
      if bytes.isEmpty then some { st with connected_ := false, incoming := rest }
      else
        let st1 : ListenerState :=
          { st with receiveBuffer_ := st.receiveBuffer_ ++ bytes, incoming := rest }
        processBuffer (st1.receiveBuffer_.length + 1) st1

/-- The first `n` rounds of the outer loop of `Client::messageListener`. -/
def listenerRounds : Nat → ListenerState → Option ListenerState
  | 0, st => some st
  | n + 1, st =>
    match listenerRound st with
    | none => none
    | some st1 => listenerRounds n st1

/-! ## Specification vocabulary -/

/-- The pair `(x, y)` lies in the box of size `size` anchored at `pos`. -/
def inRect (pos : GridPosition) (size : ItemSize) (x y : Int) : Prop :=
  pos.x ≤ x ∧ x < pos.x + size.width ∧ pos.y ≤ y ∧ y < pos.y + size.height

instance (pos : GridPosition) (size : ItemSize) (x y : Int) : Decidable (inRect pos size x y) := by
  unfold inRect; infer_instance

/-- Apply `f x y` to the slot stored at every coordinate `(x, y)` of the grid. -/
def Inventory.mapCells (inv : Inventory) (f : Int → Int → InventorySlot → InventorySlot) :
    Inventory :=
  { inv with
    grid_ := inv.grid_.mapIdx fun y row => row.mapIdx fun x s => f (x : Int) (y : Int) s }

/-- Class invariant of `Inventory` set up by the constructor: `grid_` has `height_` rows of
`width_` slots, and every slot records its own coordinates. -/
structure Inventory.WF (inv : Inventory) : Prop where
  width_nonneg : 0 ≤ inv.width_
  height_nonneg : 0 ≤ inv.height_
  rows : inv.grid_.length = inv.height_.toNat
  cols : ∀ row ∈ inv.grid_, row.length = inv.width_.toNat
  pos : ∀ x y s, inv.cell? x y = some s → s.position = ⟨x, y⟩

/-- Effect of `occupyArea` on the slot at `(x, y)`. -/
def occupyFn (pos : GridPosition) (size : ItemSize) (item : Option Item) (count : Nat)
    (x y : Int) (s : InventorySlot) : InventorySlot :=
  if inRect pos size x y then
    if x = pos.x ∧ y = pos.y then setAnchor item count s else setCovered s
  else s

/-- Effect of `clearArea` on the slot at `(x, y)`. -/
def clearFn (pos : GridPosition) (size : ItemSize) (x y : Int) (s : InventorySlot) :
    InventorySlot :=
  if inRect pos size x y then setCleared s else s

/-- The cell `(x, y)` exists, is empty and is not covered. -/
def CellFree (inv : Inventory) (x y : Int) : Prop :=
  ∃ s, inv.cell? x y = some s ∧ s.isEmpty = true ∧ s.isOccupied = false

/-- Every cell of the box of size `size` anchored at `pos` is inside the grid, empty and not
covered. -/
def AreaFree (inv : Inventory) (pos : GridPosition) (size : ItemSize) : Prop :=
  ∀ x y, inRect pos size x y → CellFree inv x y

/-- The coordinates `(x, y)` are inside the grid's width and height. -/
def Inventory.InBounds (inv : Inventory) (x y : Int) : Prop :=
  0 ≤ x ∧ x < inv.width_ ∧ 0 ≤ y ∧ y < inv.height_

/-- An anchor slot holds an item reference and a count of at least one. -/
def InventorySlot.IsAnchor (s : InventorySlot) : Prop :=
  ∃ it, s.item = some it ∧ 1 ≤ s.stackCount

/-- A 1x1 stackable item of the catalog (`ItemRegistry::initialize`, id 1). -/
def chaosOrb : Item :=
  { id := 1, name := "Chaos Orb", size := ⟨1, 1⟩, stackLimit := 20, imagePath := "" }

/-- A 2x2 item of the catalog (`ItemRegistry::initialize`, id 8). -/
def starkonja : Item :=
  { id := 8, name := "Starkonja", size := ⟨2, 2⟩, stackLimit := 1, imagePath := "" }

/-- A 3x2 store holding a 2x2 item anchored at (0,0). -/
def sampleStore : Inventory :=
  (Inventory.new 3 2).mapCells (occupyFn ⟨0, 0⟩ ⟨2, 2⟩ (some starkonja) 1)

/-- The grid invariants of a store (on top of the class invariant): stack counts of anchors
are between 1 and the stack limit and cells without an item have count 0; an anchor is not
covered, its footprint is at least 1x1, lies inside the grid and all its other cells are
covered cells without an item; every covered cell lies in the footprint of an anchor; and the
footprints of two different anchors share no cell. -/
structure Inventory.GridInv (inv : Inventory) : Prop where
  wf : inv.WF
  count : ∀ x y s it, inv.cell? x y = some s → s.item = some it →
    1 ≤ s.stackCount ∧ s.stackCount ≤ it.stackLimit
  noItem : ∀ x y s, inv.cell? x y = some s → s.item = none → s.stackCount = 0
  anchorFlag : ∀ x y s it, inv.cell? x y = some s → s.item = some it → s.isOccupied = false
  size : ∀ x y s it, inv.cell? x y = some s → s.item = some it →
    1 ≤ it.size.width ∧ 1 ≤ it.size.height
  inside : ∀ x y s it, inv.cell? x y = some s → s.item = some it →
    x + it.size.width ≤ inv.width_ ∧ y + it.size.height ≤ inv.height_
  footprint : ∀ x y s it, inv.cell? x y = some s → s.item = some it →
    ∀ x1 y1, inRect ⟨x, y⟩ it.size x1 y1 → ¬ (x1 = x ∧ y1 = y) →
      ∃ s1, inv.cell? x1 y1 = some s1 ∧ s1.item = none ∧ s1.isOccupied = true
  covered : ∀ x y s, inv.cell? x y = some s → s.isOccupied = true →
    ∃ ax ay sa ita, inv.cell? ax ay = some sa ∧ sa.item = some ita ∧
      inRect ⟨ax, ay⟩ ita.size x y
  disjoint : ∀ ax ay sa ita cx cy sc itc x y,
    inv.cell? ax ay = some sa → sa.item = some ita →
    inv.cell? cx cy = some sc → sc.item = some itc →
    inRect ⟨ax, ay⟩ ita.size x y → inRect ⟨cx, cy⟩ itc.size x y → ax = cx ∧ ay = cy

/-- Every store of the heap satisfies the grid invariants. -/
def HeapInv (h : Heap) : Prop :=
  ∀ i, (h i).GridInv

/-- One call of a mutating operation of `Inventory` or `InventoryManager` on the stores. -/
inductive Step : Heap → Heap → Prop
  | placeItem (h : Heap) (i : StoreId) (item : Option Item) (count : Nat) (pos : GridPosition)
      (b : Bool) (h1 : Heap) : h.placeItem i item count pos = some (b, h1) → Step h h1
  | removeItem (h : Heap) (i : StoreId) (pos : GridPosition) (r : Option InventorySlot)
      (h1 : Heap) : h.removeItem i pos = some (r, h1) → Step h h1
  | clear (h : Heap) (i : StoreId) (inv1 : Inventory) :
      (h i).clear = some inv1 → Step h (Function.update h i inv1)
  | moveItem (h : Heap) (src : StoreId) (sourcePos : GridPosition) (dst : StoreId)
      (destPos : GridPosition) (r : OperationResult) (h1 : Heap) :
      moveItem h (some src) sourcePos (some dst) destPos = some (r, h1) → Step h h1
  | splitStack (h : Heap) (i : StoreId) (pos : GridPosition) (amount : Int)
      (destPos : GridPosition) (r : OperationResult) (h1 : Heap) :
      splitStack h (some i) pos amount destPos = some (r, h1) → Step h h1

/-- The heaps reachable from `h0` by any sequence of operation calls. -/
inductive Reachable (h0 : Heap) : Heap → Prop
  | init : Reachable h0 h0
  | step (h h1 : Heap) : Reachable h0 h → Step h h1 → Reachable h0 h1

/-- A heap of freshly constructed stores, store `i` having dimensions `dims i`. -/
def freshHeap (dims : StoreId → Int × Int) : Heap :=
  fun i => Inventory.new (dims i).1 (dims i).2

/-- A heap in which every store is 3x2 and store 0 holds a 2x2 item anchored at (0,0). -/
def sampleHeap : Heap :=
  Function.update (freshHeap fun _ => (3, 2)) 0 sampleStore

/-- Item references of the two stores are catalog definitions keyed by id: references with
the same id are the same definition. -/
def SameCatalog (a b : Inventory) : Prop :=
  ∀ x y x1 y1 s s1 ia ib, a.cell? x y = some s → s.item = some ia →
    b.cell? x1 y1 = some s1 → s1.item = some ib → ia.id = ib.id → ia = ib

/-- Outcome of a manager call started on heap `h`: it returns, and either the result is
`SUCCESS`, or it is `NO_SPACE` or `ITEM_NOT_FOUND` and the heap is the one before the call. -/
def MoveOutcome (h : Heap) (res : Option (OperationResult × Heap)) : Prop :=
  ∃ r h1, res = some (r, h1) ∧
    (r = .SUCCESS ∨ ((r = .NO_SPACE ∨ r = .ITEM_NOT_FOUND) ∧ h1 = h))

/-- Total stack count of the anchors of a store that hold the item id `id`. -/
def Inventory.unitsOf (inv : Inventory) (id : Nat) : Option Nat :=
  inv.getAllItems.map fun items =>
    ((items.filter fun s => s.item.map (fun it => it.id) == some id).map
      fun s => s.stackCount).sum

/-- A 1x1 item whose stack limit is the largest `uint32_t` value (no item of the registry). -/
def hugeStackItem : Item :=
  { id := 1, name := "Chaos Orb", size := ⟨1, 1⟩, stackLimit := 4294967295, imagePath := "" }

/-- A 2x1 store holding 5 units of `hugeStackItem` at (0,0) and 1 unit at (1,0). -/
def hugeStackStore : Inventory :=
  ((Inventory.new 2 1).mapCells (occupyFn ⟨0, 0⟩ ⟨1, 1⟩ (some hugeStackItem) 5)).mapCells
    (occupyFn ⟨1, 0⟩ ⟨1, 1⟩ (some hugeStackItem) 1)

/-- A heap whose stores are all `hugeStackStore`. -/
def hugeStackHeap : Heap :=
  fun _ => hugeStackStore

/-- A 1x1 item with stack limit 3000000000 (no item of the registry). -/
def bulkItem : Item :=
  { id := 1, name := "Chaos Orb", size := ⟨1, 1⟩, stackLimit := 3000000000, imagePath := "" }

/-- A 2x1 store holding 2500000000 units of `bulkItem` at (0,0) and 2000000000 at (1,0). -/
def bulkStore : Inventory :=
  ((Inventory.new 2 1).mapCells (occupyFn ⟨0, 0⟩ ⟨1, 1⟩ (some bulkItem) 2500000000)).mapCells
    (occupyFn ⟨1, 0⟩ ⟨1, 1⟩ (some bulkItem) 2000000000)

/-- A heap whose stores are all `bulkStore`. -/
def bulkHeap : Heap :=
  fun _ => bulkStore

/-- A 2x1 item definition carrying the id 1 (the registry holds a 1x1 item under id 1). -/
def wideOrb : Item :=
  { id := 1, name := "Chaos Orb", size := ⟨2, 1⟩, stackLimit := 20, imagePath := "" }

/-- A heap in which store 0 is 2x1 and holds 5 units of the 2x1 definition of id 1 at (0,0),
and every other store is 1x1 and holds 3 units of the 1x1 definition of id 1 at (0,0). -/
def mixedHeap : Heap :=
  fun i =>
    if i = 0 then (Inventory.new 2 1).mapCells (occupyFn ⟨0, 0⟩ ⟨2, 1⟩ (some wideOrb) 5)
    else (Inventory.new 1 1).mapCells (occupyFn ⟨0, 0⟩ ⟨1, 1⟩ (some chaosOrb) 3)

/-- Replace the stack count of the slot at `pos`, leaving every other slot as it is. -/
def withCount (pos : GridPosition) (n : Nat) (x y : Int) (c : InventorySlot) : InventorySlot :=
  if x = pos.x ∧ y = pos.y then { c with stackCount := n } else c

/-- Effect of a merge on the slots of the source store: the anchor keeps the remainder `rem`
when it is positive, and the whole source footprint is cleared when it is 0. -/
def sourceAfterMerge (sourcePos : GridPosition) (size : ItemSize) (rem : Nat) :
    Int → Int → InventorySlot → InventorySlot :=
  if rem > 0 then withCount sourcePos rem else clearFn sourcePos size

/-- The heap after a merge that leaves `rem` units at the source and `newCount` units at the
destination. -/
def mergedHeap (h : Heap) (src : StoreId) (sourcePos : GridPosition) (dst : StoreId)
    (destPos : GridPosition) (size : ItemSize) (newCount rem : Nat) : Heap :=
  Function.update
    (Function.update h src ((h src).mapCells (sourceAfterMerge sourcePos size rem))) dst
    (((Function.update h src ((h src).mapCells (sourceAfterMerge sourcePos size rem))) dst).mapCells
      (withCount destPos newCount))

/-- A stackable 2x1 item (footprint of two cells, stack limit 5; no item of the registry). -/
def bundle : Item :=
  { id := 13, name := "Bundle", size := ⟨2, 1⟩, stackLimit := 5, imagePath := "" }

/-- A 4x1 store holding one `bundle` at (0,0) and one at (2,0). -/
def bundleStore : Inventory :=
  ((Inventory.new 4 1).mapCells (occupyFn ⟨0, 0⟩ ⟨2, 1⟩ (some bundle) 1)).mapCells
    (occupyFn ⟨2, 0⟩ ⟨2, 1⟩ (some bundle) 1)

/-- A heap whose stores are all `bundleStore`. -/
def bundleHeap : Heap :=
  fun _ => bundleStore

/-- Scenario B on a 3x1 store: 5 units of item 1 at (0,0) and 10 units at (1,0). -/
def scenarioBStore : Inventory :=
  ((Inventory.new 3 1).mapCells (occupyFn ⟨0, 0⟩ ⟨1, 1⟩ (some chaosOrb) 5)).mapCells
    (occupyFn ⟨1, 0⟩ ⟨1, 1⟩ (some chaosOrb) 10)

/-- A heap whose stores are all `scenarioBStore`. -/
def scenarioBHeap : Heap :=
  fun _ => scenarioBStore

/-- Value of a byte string read as a big-endian integer. -/
def beValue (bytes : List Nat) : Nat :=
  bytes.foldl (fun acc b => acc * 256 + b) 0

/-- The four bytes of `n`, most significant first. -/
def bigEndian32 (n : Nat) : List Nat :=
  [n / 16777216 % 256, n / 65536 % 256, n / 256 % 256, n % 256]

/-- Every element of the list is a byte value. -/
def IsBytes (l : List Nat) : Prop :=
  ∀ b ∈ l, b < 256

instance (l : List Nat) : Decidable (IsBytes l) := by
  unfold IsBytes; infer_instance

/-- A 3x1 store holding 5 units of item 1 at (0,0) and a full stack of 20 units at (1,0). -/
def fullStackStore : Inventory :=
  ((Inventory.new 3 1).mapCells (occupyFn ⟨0, 0⟩ ⟨1, 1⟩ (some chaosOrb) 5)).mapCells
    (occupyFn ⟨1, 0⟩ ⟨1, 1⟩ (some chaosOrb) 20)

/-- A heap whose stores are all `fullStackStore`. -/
def fullStackHeap : Heap :=
  fun _ => fullStackStore

/-- A 4x1 store holding 3 units of the 2x1 item `bundle` at (0,0). -/
def bundleStackStore : Inventory :=
  (Inventory.new 4 1).mapCells (occupyFn ⟨0, 0⟩ ⟨2, 1⟩ (some bundle) 3)

/-- A heap whose stores are all `bundleStackStore`. -/
def bundleStackHeap : Heap :=
  fun _ => bundleStackStore

/-- A 2x1 store holding 2500000000 units of `bulkItem` at (0,0). -/
def bulkSingleStore : Inventory :=
  (Inventory.new 2 1).mapCells (occupyFn ⟨0, 0⟩ ⟨1, 1⟩ (some bulkItem) 2500000000)

/-- A heap whose stores are all `bulkSingleStore`. -/
def bulkSingleHeap : Heap :=
  fun _ => bulkSingleStore

/-- The non-empty slots of a store in the order of `scanOrder`: what `getAllItems` collects. -/
def Inventory.anchorSlots (inv : Inventory) : List InventorySlot :=
  (scanOrder inv).filterMap fun pos =>
    match inv.cell? pos.x pos.y with
    | some slot => if !slot.isEmpty then some slot else none
    | none => none

/-- Invariant of the manager's stores: every store has the class invariant, the three
stashes are allocated, and every personal store is an allocated store other than a stash. -/
structure InventoryManager.WF (mgr : InventoryManager) : Prop where
  stores : ∀ i, (mgr.heap i).WF
  stashes : 3 ≤ mgr.nextStore
  allocated : ∀ u id, mapFind mgr.personalInventories_ u = some id →
    3 ≤ id ∧ id < mgr.nextStore

/-- The server after `acceptClient` of socket 5 and an accepted login of the identity `a`
(byte 97) on it. -/
def loggedInServer : ServerImpl :=
  { clients := [(5, ⟨5, [97]⟩)]
    usernameToSocket := [([97], 5)]
    inventoryManager := (InventoryManager.new.getOrCreatePersonalInventory [97]).2 }

/-- The slot the client builds from a record: the item definition without its image path,
the count and the position, not covered. -/
def syncedSlot (s : InventorySlot) : InventorySlot :=
  { item := s.item.map fun it => { it with imagePath := "" }
    stackCount := s.stackCount
    position := s.position
    isOccupied := false }

/-- The record `[x][y][itemId:4][stackCount:4][nameLength][name][footprintW][footprintH]
[stackMax:4]` of an anchor slot holding `it`, multi-byte integers big-endian. -/
def slotRecord (s : InventorySlot) (it : Item) : List Nat :=
  [s.position.x.toNat, s.position.y.toNat] ++ bigEndian32 it.id ++ bigEndian32 s.stackCount ++
    [it.name.length] ++ stringBytes it.name ++ [it.size.width.toNat, it.size.height.toNat] ++
    bigEndian32 it.stackLimit

/-- The record of a slot, empty for a slot without item. -/
def slotRecord? (s : InventorySlot) : List Nat :=
  match s.item with
  | none => []
  | some it => slotRecord s it

/-- The fields of an anchor slot fit the record: coordinates and footprint in one byte each,
id, count and stack limit in four bytes, and a name of at most 255 one-byte characters. -/
structure FitsRecord (s : InventorySlot) (it : Item) : Prop where
  x : 0 ≤ s.position.x ∧ s.position.x < 256
  y : 0 ≤ s.position.y ∧ s.position.y < 256
  id : it.id < 4294967296
  count : s.stackCount < 4294967296
  nameLength : it.name.length ≤ 255
  nameBytes : ∀ c ∈ it.name.data, c.toNat < 256
  width : 0 ≤ it.size.width ∧ it.size.width < 256
  height : 0 ≤ it.size.height ∧ it.size.height < 256
  limit : it.stackLimit < 4294967296

/-- The registry after `initialize`: the twelve catalog items. -/
def catalogRegistry : ItemRegistry :=
  ItemRegistry.initialize { items_ := [] }

/-! ## Units held by a store -/

theorem mem_loopRange {start len v : Int} :
    v ∈ loopRange start len ↔ start ≤ v ∧ v < start + len := by
  unfold loopRange
  simp only [List.mem_map, List.mem_range]
  constructor
  · rintro ⟨i, hi, rfl⟩
    omega
  · rintro ⟨h1, h2⟩
    refine ⟨(v - start).toNat, ?_, ?_⟩ <;> omega

theorem nodup_loopRange (start len : Int) : (loopRange start len).Nodup := by
  unfold loopRange
  refine (List.nodup_range _).map ?_
  intro a b hab
  simpa using hab

theorem cell?_mapCells (inv : Inventory) (f : Int → Int → InventorySlot → InventorySlot)
    (x y : Int) : (inv.mapCells f).cell? x y = (inv.cell? x y).map (f x y) := by
  unfold Inventory.cell? Inventory.mapCells
  by_cases hxy : 0 ≤ x ∧ 0 ≤ y
  · simp only [hxy, and_self, if_true, List.getElem?_mapIdx]
    cases hrow : inv.grid_[y.toNat]? with
    | none => simp
    | some row =>
      simp only [Option.map_some', List.getElem?_mapIdx, Int.toNat_of_nonneg hxy.1,
        Int.toNat_of_nonneg hxy.2]
  · simp [hxy]

theorem mapCells_width (inv : Inventory) (f) : (inv.mapCells f).width_ = inv.width_ := rfl

theorem mapCells_height (inv : Inventory) (f) : (inv.mapCells f).height_ = inv.height_ := rfl

theorem cell?_eq_some_iff {inv : Inventory} {x y : Int} {s : InventorySlot} :
    inv.cell? x y = some s ↔
      0 ≤ x ∧ 0 ≤ y ∧ ∃ row, inv.grid_[y.toNat]? = some row ∧ row[x.toNat]? = some s := by
  unfold Inventory.cell?
  by_cases hxy : 0 ≤ x ∧ 0 ≤ y
  · simp only [hxy, and_self, if_true, true_and]
    cases hrow : inv.grid_[y.toNat]? with
    | none => simp
    | some row => simp
  · simp only [hxy, if_false]
    constructor
    · intro h; cases h
    · rintro ⟨h1, h2, _⟩; exact absurd ⟨h1, h2⟩ hxy

theorem mapCells_congr (inv : Inventory) (f g : Int → Int → InventorySlot → InventorySlot)
    (hfg : ∀ x y s, inv.cell? x y = some s → f x y s = g x y s) :
    inv.mapCells f = inv.mapCells g := by
  unfold Inventory.mapCells
  congr 1
  apply List.ext_getElem?
  intro j
  simp only [List.getElem?_mapIdx]
  cases hrow : inv.grid_[j]? with
  | none => rfl
  | some row =>
    simp only [Option.map_some', Option.some.injEq]
    apply List.ext_getElem?
    intro i
    simp only [List.getElem?_mapIdx]
    cases hs : row[i]? with
    | none => rfl
    | some s =>
      simp only [Option.map_some', Option.some.injEq]
      apply hfg
      rw [cell?_eq_some_iff]
      exact ⟨Int.ofNat_nonneg i, Int.ofNat_nonneg j, row, by simpa using hrow, by simpa using hs⟩

theorem mapCells_mapCells (inv : Inventory) (f g : Int → Int → InventorySlot → InventorySlot) :
    (inv.mapCells f).mapCells g = inv.mapCells fun x y s => g x y (f x y s) := by
  unfold Inventory.mapCells
  congr 1
  apply List.ext_getElem?
  intro j
  simp only [List.getElem?_mapIdx, Option.map_map]
  congr 1
  funext row
  apply List.ext_getElem?
  intro i
  simp only [Function.comp, List.getElem?_mapIdx, Option.map_map]
  rfl

theorem mapCells_id (inv : Inventory) (f : Int → Int → InventorySlot → InventorySlot)
    (hf : ∀ x y s, inv.cell? x y = some s → f x y s = s) : inv.mapCells f = inv := by
  have h1 : inv.mapCells f = inv.mapCells fun _ _ s => s := mapCells_congr inv f _ hf
  rw [h1]
  unfold Inventory.mapCells
  cases inv with
  | mk w h g =>
    simp only [Inventory.mk.injEq, true_and]
    apply List.ext_getElem?
    intro j
    simp only [List.getElem?_mapIdx]
    cases hrow : g[j]? with
    | none => rfl
    | some row =>
      simp only [Option.map_some', Option.some.injEq]
      apply List.ext_getElem?
      intro i
      simp only [List.getElem?_mapIdx]
      cases row[i]? <;> rfl

theorem modifyCell_eq (inv : Inventory) (x y : Int) (g : InventorySlot → InventorySlot)
    (s : InventorySlot) (hs : inv.cell? x y = some s) :
    inv.modifyCell x y g =
      some (inv.mapCells fun x1 y1 s1 => if x1 = x ∧ y1 = y then g s1 else s1) := by
  obtain ⟨hx, hy, row, hrow, hcell⟩ := cell?_eq_some_iff.mp hs
  unfold Inventory.modifyCell Inventory.mapCells
  simp only [hx, hy, and_self, if_true, hrow, hcell, Option.some.injEq, Inventory.mk.injEq,
    true_and]
  apply List.ext_getElem?
  intro j
  simp only [List.getElem?_set, List.getElem?_mapIdx]
  by_cases hj : y.toNat = j
  · subst hj
    have hlen : y.toNat < inv.grid_.length := by
      rcases List.getElem?_eq_some_iff.mp hrow with ⟨h, _⟩
      exact h
    simp only [if_true, hlen, hrow, Option.map_some', Option.some.injEq]
    apply List.ext_getElem?
    intro i
    simp only [List.getElem?_set, List.getElem?_mapIdx, Int.toNat_of_nonneg hy, and_true]
    by_cases hi : x.toNat = i
    · subst hi
      have hlen2 : x.toNat < row.length := by
        rcases List.getElem?_eq_some_iff.mp hcell with ⟨h, _⟩
        exact h
      simp [hlen2, hcell, Int.toNat_of_nonneg hx]
    · have hne : ¬ ((i : Int) = x) := by omega
      simp only [hi, if_false, hne]
      cases row[i]? <;> rfl
  · simp only [hj, if_false]
    cases hrow2 : inv.grid_[j]? with
    | none => rfl
    | some row2 =>
      simp only [Option.map_some', Option.some.injEq]
      apply List.ext_getElem?
      intro i
      have hne : ¬ ((j : Int) = y) := by omega
      simp only [List.getElem?_mapIdx, hne, and_false, if_false]
      cases row2[i]? <;> rfl

/-! ### The write loops as bulk updates -/

theorem foldRow_eq (y : Int) (G : Inventory → Int → Int → Bool)
    (g : Int → Int → InventorySlot → InventorySlot)
    (hG : ∀ inv f x1 y1, G (Inventory.mapCells inv f) x1 y1 = G inv x1 y1) :
    ∀ (xs : List Int) (inv : Inventory), xs.Nodup →
      (∀ x ∈ xs, G inv x y = true → ∃ s, inv.cell? x y = some s) →
      xs.foldlM
          (fun inv2 x => if G inv2 x y = true then inv2.modifyCell x y (g x y) else some inv2)
          inv =
        some (inv.mapCells fun x1 y1 s =>
          if y1 = y ∧ x1 ∈ xs ∧ G inv x1 y1 = true then g x1 y1 s else s) := by
  intro xs
  induction xs with
  | nil =>
    intro inv _ _
    simp only [List.foldlM_nil, pure, Option.some.injEq]
    symm
    apply mapCells_id
    intro x1 y1 s _
    simp
  | cons x xs ih =>
    intro inv hnd hcells
    rw [List.nodup_cons] at hnd
    rw [List.foldlM_cons]
    by_cases hGx : G inv x y = true
    · obtain ⟨s0, hs0⟩ := hcells x (List.mem_cons_self _ _) hGx
      rw [if_pos hGx, modifyCell_eq inv x y (g x y) s0 hs0]
      simp only [bind, Option.bind]
      rw [ih _ hnd.2, mapCells_mapCells]
      · congr 1
        apply mapCells_congr
        intro x1 y1 s _
        simp only [hG, List.mem_cons]
        by_cases hx1 : x1 = x ∧ y1 = y
        · obtain ⟨rfl, rfl⟩ := hx1
          simp [hnd.1, hGx]
        · by_cases hy1 : y1 = y
          · have hne : x1 ≠ x := fun h => hx1 ⟨h, hy1⟩
            simp [hy1, hne]
          · simp [hy1]
      · intro x1 hx1 hG1
        rw [hG] at hG1
        obtain ⟨s1, hs1⟩ := hcells x1 (List.mem_cons_of_mem _ hx1) hG1
        rw [cell?_mapCells, hs1]
        exact ⟨_, rfl⟩
    · rw [if_neg hGx]
      simp only [bind, Option.bind]
      rw [ih _ hnd.2]
      · congr 1
        apply mapCells_congr
        intro x1 y1 s _
        simp only [List.mem_cons]
        by_cases hx1 : x1 = x ∧ y1 = y
        · obtain ⟨rfl, rfl⟩ := hx1
          simp [hnd.1, hGx]
        · by_cases hy1 : y1 = y
          · have hne : x1 ≠ x := fun h => hx1 ⟨h, hy1⟩
            simp [hy1, hne]
          · simp [hy1]
      · intro x1 hx1 hG1
        exact hcells x1 (List.mem_cons_of_mem _ hx1) hG1

theorem forEachCell_eq (G : Inventory → Int → Int → Bool)
    (g : Int → Int → InventorySlot → InventorySlot)
    (hG : ∀ inv f x1 y1, G (Inventory.mapCells inv f) x1 y1 = G inv x1 y1)
    (xs : List Int) (hxs : xs.Nodup) :
    ∀ (ys : List Int) (inv : Inventory), ys.Nodup →
      (∀ x ∈ xs, ∀ y ∈ ys, G inv x y = true → ∃ s, inv.cell? x y = some s) →
      inv.forEachCell xs ys
          (fun x y inv1 => if G inv1 x y = true then inv1.modifyCell x y (g x y) else some inv1) =
        some (inv.mapCells fun x1 y1 s =>
          if y1 ∈ ys ∧ x1 ∈ xs ∧ G inv x1 y1 = true then g x1 y1 s else s) := by
  intro ys
  induction ys with
  | nil =>
    intro inv _ _
    simp only [Inventory.forEachCell, List.foldlM_nil, pure, Option.some.injEq]
    symm
    apply mapCells_id
    intro x1 y1 s _
    simp
  | cons y ys ih =>
    intro inv hnd hcells
    rw [List.nodup_cons] at hnd
    unfold Inventory.forEachCell at ih ⊢
    rw [List.foldlM_cons]
    rw [foldRow_eq y G g hG xs inv hxs
      (fun x hx hGx => hcells x hx y (List.mem_cons_self _ _) hGx)]
    simp only [bind, Option.bind]
    rw [ih _ hnd.2, mapCells_mapCells]
    · congr 1
      apply mapCells_congr
      intro x1 y1 s _
      simp only [hG, List.mem_cons]
      by_cases hy1 : y1 = y
      · subst hy1
        simp [hnd.1]
      · simp [hy1]
    · intro x1 hx1 y1 hy1 hG1
      rw [hG] at hG1
      obtain ⟨s1, hs1⟩ := hcells x1 hx1 y1 (List.mem_cons_of_mem _ hy1) hG1
      rw [cell?_mapCells, hs1]
      exact ⟨_, rfl⟩

/-! ### The class invariant -/

theorem isPositionValid_iff (inv : Inventory) (pos : GridPosition) :
    inv.isPositionValid pos = true ↔
      0 ≤ pos.x ∧ pos.x < inv.width_ ∧ 0 ≤ pos.y ∧ pos.y < inv.height_ := by
  unfold Inventory.isPositionValid
  simp only [Bool.and_eq_true, decide_eq_true_eq, ge_iff_le]
  tauto

theorem isPositionValid_mk_iff (inv : Inventory) (x y : Int) :
    inv.isPositionValid ⟨x, y⟩ = true ↔ 0 ≤ x ∧ x < inv.width_ ∧ 0 ≤ y ∧ y < inv.height_ :=
  isPositionValid_iff inv ⟨x, y⟩

theorem isPositionValid_mapCells (inv : Inventory) (f) (pos : GridPosition) :
    (inv.mapCells f).isPositionValid pos = inv.isPositionValid pos := rfl

theorem Inventory.WF.valid_of_cell {inv : Inventory} (hwf : inv.WF) {x y : Int}
    {s : InventorySlot} (hs : inv.cell? x y = some s) :
    inv.isPositionValid ⟨x, y⟩ = true := by
  obtain ⟨hx, hy, row, hrow, hcell⟩ := cell?_eq_some_iff.mp hs
  rw [isPositionValid_mk_iff]
  obtain ⟨hlen, hget⟩ := List.getElem?_eq_some_iff.mp hrow
  obtain ⟨hlen2, _⟩ := List.getElem?_eq_some_iff.mp hcell
  have hmem : row ∈ inv.grid_ := by
    rw [← hget]; exact List.getElem_mem _
  have hc := hwf.cols row hmem
  have hr := hwf.rows
  have hw := hwf.width_nonneg
  have hh := hwf.height_nonneg
  refine ⟨hx, ?_, hy, ?_⟩ <;> omega

theorem Inventory.WF.cell_of_valid {inv : Inventory} (hwf : inv.WF) {x y : Int}
    (hv : inv.isPositionValid ⟨x, y⟩ = true) : ∃ s, inv.cell? x y = some s := by
  rw [isPositionValid_mk_iff] at hv
  obtain ⟨hx, hxw, hy, hyh⟩ := hv
  have hr := hwf.rows
  have hlen : y.toNat < inv.grid_.length := by omega
  have hmem : inv.grid_[y.toNat] ∈ inv.grid_ := List.getElem_mem _
  have hc := hwf.cols _ hmem
  have hlen2 : x.toNat < (inv.grid_[y.toNat]).length := by omega
  refine ⟨(inv.grid_[y.toNat])[x.toNat], ?_⟩
  rw [cell?_eq_some_iff]
  exact ⟨hx, hy, inv.grid_[y.toNat], List.getElem?_eq_getElem hlen,
    List.getElem?_eq_getElem hlen2⟩

theorem Inventory.WF.cell_none_of_invalid {inv : Inventory} (hwf : inv.WF) {x y : Int}
    (hv : inv.isPositionValid ⟨x, y⟩ ≠ true) : inv.cell? x y = none := by
  cases hc : inv.cell? x y with
  | none => rfl
  | some s => exact absurd (hwf.valid_of_cell hc) hv

theorem Inventory.WF.mapCells {inv : Inventory} (hwf : inv.WF)
    (f : Int → Int → InventorySlot → InventorySlot)
    (hf : ∀ x y s, (f x y s).position = s.position) : (inv.mapCells f).WF where
  width_nonneg := hwf.width_nonneg
  height_nonneg := hwf.height_nonneg
  rows := by
    show (List.mapIdx _ inv.grid_).length = _
    rw [List.length_mapIdx]; exact hwf.rows
  cols := by
    intro row hrow
    change row ∈ List.mapIdx _ inv.grid_ at hrow
    obtain ⟨j, hj⟩ := List.mem_iff_getElem?.mp hrow
    rw [List.getElem?_mapIdx] at hj
    cases hr : inv.grid_[j]? with
    | none => rw [hr] at hj; cases hj
    | some r =>
      rw [hr] at hj
      simp only [Option.map_some', Option.some.injEq] at hj
      rw [← hj, List.length_mapIdx]
      obtain ⟨hlen, hget⟩ := List.getElem?_eq_some_iff.mp hr
      exact hwf.cols r (by rw [← hget]; exact List.getElem_mem _)
  pos := by
    intro x y s hs
    rw [cell?_mapCells] at hs
    cases hc : inv.cell? x y with
    | none => rw [hc] at hs; cases hs
    | some s0 =>
      rw [hc] at hs
      simp only [Option.map_some', Option.some.injEq] at hs
      rw [← hs, hf]
      exact hwf.pos x y s0 hc

theorem Inventory.WF.of_new {w h : Int} (hw : 0 ≤ w) (hh : 0 ≤ h) : (Inventory.new w h).WF where
  width_nonneg := hw
  height_nonneg := hh
  rows := by simp [Inventory.new]
  cols := by
    intro row hrow
    simp only [Inventory.new, List.mem_map, List.mem_range] at hrow
    obtain ⟨y, _, rfl⟩ := hrow
    simp only [List.length_map, List.length_range]
    rfl
  pos := by
    intro x y s hs
    obtain ⟨hx, hy, row, hrow, hcell⟩ := cell?_eq_some_iff.mp hs
    simp only [Inventory.new, List.getElem?_map] at hrow
    cases hr : (List.range h.toNat)[y.toNat]? with
    | none => rw [hr] at hrow; cases hrow
    | some j =>
      rw [hr] at hrow
      simp only [Option.map_some', Option.some.injEq] at hrow
      subst hrow
      rw [List.getElem?_map] at hcell
      cases hc : (List.range w.toNat)[x.toNat]? with
      | none => rw [hc] at hcell; cases hcell
      | some i =>
        rw [hc] at hcell
        simp only [Option.map_some', Option.some.injEq] at hcell
        obtain ⟨hl1, hg1⟩ := List.getElem?_eq_some_iff.mp hr
        obtain ⟨hl2, hg2⟩ := List.getElem?_eq_some_iff.mp hc
        rw [List.getElem_range] at hg1 hg2
        subst hcell
        simp only [freshSlot, GridPosition.mk.injEq]
        omega

theorem cell?_new {w h x y : Int} {s : InventorySlot}
    (hs : (Inventory.new w h).cell? x y = some s) : s = freshSlot x y := by
  obtain ⟨hx, hy, row, hrow, hcell⟩ := cell?_eq_some_iff.mp hs
  simp only [Inventory.new, List.getElem?_map] at hrow
  cases hr : (List.range h.toNat)[y.toNat]? with
  | none => rw [hr] at hrow; cases hrow
  | some j =>
    rw [hr] at hrow
    simp only [Option.map_some', Option.some.injEq] at hrow
    subst hrow
    rw [List.getElem?_map] at hcell
    cases hc : (List.range w.toNat)[x.toNat]? with
    | none => rw [hc] at hcell; cases hcell
    | some i =>
      rw [hc] at hcell
      simp only [Option.map_some', Option.some.injEq] at hcell
      obtain ⟨hl1, hg1⟩ := List.getElem?_eq_some_iff.mp hr
      obtain ⟨hl2, hg2⟩ := List.getElem?_eq_some_iff.mp hc
      rw [List.getElem_range] at hg1 hg2
      subst hcell
      have e1 : (i : Int) = x := by omega
      have e2 : (j : Int) = y := by omega
      rw [e1, e2]

theorem occupyFn_position (pos size item count x y s) :
    (occupyFn pos size item count x y s).position = s.position := by
  unfold occupyFn setAnchor setCovered
  split
  · split <;> rfl
  · rfl

theorem clearFn_position (pos size x y s) : (clearFn pos size x y s).position = s.position := by
  unfold clearFn setCleared
  split <;> rfl

/-! ### The primitives on a well-formed store -/

theorem occupyArea_eq (inv : Inventory) (pos : GridPosition) (size : ItemSize)
    (item : Option Item) (count : Nat)
    (hcells : ∀ x y, inRect pos size x y → ∃ s, inv.cell? x y = some s) :
    inv.occupyArea pos size item count = some (inv.mapCells (occupyFn pos size item count)) := by
  unfold Inventory.occupyArea
  have hbody : (fun (x y : Int) (inv1 : Inventory) =>
      if x = pos.x ∧ y = pos.y then inv1.modifyCell x y (setAnchor item count)
      else inv1.modifyCell x y setCovered) =
      (fun (x y : Int) (inv1 : Inventory) =>
        if (fun (_ : Inventory) (_ _ : Int) => true) inv1 x y = true then
          inv1.modifyCell x y
            ((fun (x y : Int) => if x = pos.x ∧ y = pos.y then setAnchor item count
              else setCovered) x y)
        else some inv1) := by
    funext x y inv1
    simp only [if_true]
    split <;> rfl
  rw [hbody, forEachCell_eq (fun (_ : Inventory) (_ _ : Int) => true) _ (fun _ _ _ _ => rfl) _
    (nodup_loopRange _ _) _ _ (nodup_loopRange _ _)]
  · congr 1
    apply mapCells_congr
    intro x y s _
    simp only [mem_loopRange, and_true, occupyFn, inRect]
    by_cases h : pos.x ≤ x ∧ x < pos.x + size.width ∧ pos.y ≤ y ∧ y < pos.y + size.height
    · have h2 : (pos.y ≤ y ∧ y < pos.y + size.height) ∧ pos.x ≤ x ∧ x < pos.x + size.width := by
        tauto
      rw [if_pos h, if_pos h2]
      split <;> rfl
    · have h2 : ¬ ((pos.y ≤ y ∧ y < pos.y + size.height) ∧ pos.x ≤ x ∧ x < pos.x + size.width) := by
        tauto
      rw [if_neg h, if_neg h2]
  · intro x hx y hy _
    rw [mem_loopRange] at hx hy
    exact hcells x y ⟨hx.1, hx.2, hy.1, hy.2⟩

theorem clearArea_eq (inv : Inventory) (hwf : inv.WF) (pos : GridPosition) (size : ItemSize) :
    inv.clearArea pos size = some (inv.mapCells (clearFn pos size)) := by
  unfold Inventory.clearArea
  have h := forEachCell_eq (fun inv1 x y => inv1.isPositionValid ⟨x, y⟩)
    (fun _ _ => setCleared) (fun _ _ _ _ => rfl) (loopRange pos.x size.width)
    (nodup_loopRange _ _) (loopRange pos.y size.height) inv (nodup_loopRange _ _)
    (fun x _ y _ hv => hwf.cell_of_valid hv)
  rw [h]
  congr 1
  apply mapCells_congr
  intro x y s hs
  have hv := hwf.valid_of_cell hs
  simp only [mem_loopRange, hv, and_true, clearFn, inRect]
  by_cases h : pos.x ≤ x ∧ x < pos.x + size.width ∧ pos.y ≤ y ∧ y < pos.y + size.height
  · have h2 : (pos.y ≤ y ∧ y < pos.y + size.height) ∧ pos.x ≤ x ∧ x < pos.x + size.width := by
      tauto
    rw [if_pos h, if_pos h2]
  · have h2 : ¬ ((pos.y ≤ y ∧ y < pos.y + size.height) ∧ pos.x ≤ x ∧ x < pos.x + size.width) := by
      tauto
    rw [if_neg h, if_neg h2]

theorem clear_eq (inv : Inventory) (hwf : inv.WF) :
    inv.clear = some (inv.mapCells fun _ _ s => setCleared s) := by
  unfold Inventory.clear
  have hbody : (fun (x y : Int) (inv1 : Inventory) => inv1.modifyCell x y setCleared) =
      (fun (x y : Int) (inv1 : Inventory) =>
        if (fun (_ : Inventory) (_ _ : Int) => true) inv1 x y = true then
          inv1.modifyCell x y ((fun (_ _ : Int) => setCleared) x y)
        else some inv1) := by
    funext x y inv1
    simp only [if_true]
  rw [hbody, forEachCell_eq (fun (_ : Inventory) (_ _ : Int) => true) _ (fun _ _ _ _ => rfl) _
    (nodup_loopRange _ _) _ _ (nodup_loopRange _ _)]
  · congr 1
    apply mapCells_congr
    intro x y s hs
    have hv := (isPositionValid_mk_iff _ _ _).mp (hwf.valid_of_cell hs)
    simp only [mem_loopRange, and_true]
    rw [if_pos]
    constructor <;> constructor <;> omega
  · intro x hx y hy _
    rw [mem_loopRange] at hx hy
    apply hwf.cell_of_valid
    rw [isPositionValid_mk_iff]
    refine ⟨?_, ?_, ?_, ?_⟩ <;> omega

/-! ### The occupancy scan -/

theorem isAreaOccupiedRow_spec {inv : Inventory} (hwf : inv.WF) (y : Int) :
    ∀ xs : List Int, ∃ b, inv.isAreaOccupiedRow y xs = some b ∧
      (b = false ↔ ∀ x ∈ xs, CellFree inv x y) := by
  intro xs
  induction xs with
  | nil => exact ⟨false, rfl, by simp⟩
  | cons x xs ih =>
    obtain ⟨b, hb, hiff⟩ := ih
    unfold Inventory.isAreaOccupiedRow
    by_cases hv : inv.isPositionValid ⟨x, y⟩ = true
    · obtain ⟨s, hs⟩ := hwf.cell_of_valid hv
      simp only [hv, Bool.not_true, Bool.false_eq_true, if_false, hs]
      by_cases hblk : (!s.isEmpty || s.isOccupied) = true
      · refine ⟨true, by rw [if_pos hblk], ?_⟩
        simp only [Bool.true_eq_false, false_iff, List.mem_cons, not_forall]
        refine ⟨x, Or.inl rfl, ?_⟩
        rintro ⟨s1, hs1, he, ho⟩
        rw [hs] at hs1
        cases hs1
        simp [he, ho] at hblk
      · refine ⟨b, by rw [if_neg hblk]; exact hb, ?_⟩
        rw [hiff]
        constructor
        · intro h x1 hx1
          rcases List.mem_cons.mp hx1 with rfl | hx1
          · refine ⟨s, hs, ?_, ?_⟩
            · cases he : s.isEmpty <;> simp [he] at hblk ⊢
            · cases ho : s.isOccupied <;> simp [ho] at hblk ⊢
          · exact h x1 hx1
        · intro h x1 hx1
          exact h x1 (List.mem_cons_of_mem _ hx1)
    · have hv2 : inv.isPositionValid ⟨x, y⟩ = false := by
        cases h : inv.isPositionValid ⟨x, y⟩
        · rfl
        · exact absurd h hv
      simp only [hv2, Bool.not_false, if_true]
      refine ⟨true, rfl, ?_⟩
      simp only [Bool.true_eq_false, false_iff, List.mem_cons, not_forall]
      refine ⟨x, Or.inl rfl, ?_⟩
      rintro ⟨s1, hs1, _⟩
      rw [hwf.cell_none_of_invalid hv] at hs1
      cases hs1

theorem isAreaOccupiedRows_spec {inv : Inventory} (hwf : inv.WF) (xs : List Int) :
    ∀ ys : List Int, ∃ b, inv.isAreaOccupiedRows xs ys = some b ∧
      (b = false ↔ ∀ y ∈ ys, ∀ x ∈ xs, CellFree inv x y) := by
  intro ys
  induction ys with
  | nil => exact ⟨false, rfl, by simp⟩
  | cons y ys ih =>
    obtain ⟨b, hb, hiff⟩ := ih
    obtain ⟨b1, hb1, hiff1⟩ := isAreaOccupiedRow_spec hwf y xs
    unfold Inventory.isAreaOccupiedRows
    rw [hb1]
    cases b1 with
    | true =>
      refine ⟨true, rfl, ?_⟩
      simp only [Bool.true_eq_false, false_iff]
      intro h
      have := hiff1.mpr (h y (List.mem_cons_self _ _))
      cases this
    | false =>
      refine ⟨b, hb, ?_⟩
      rw [hiff]
      constructor
      · intro h y1 hy1
        rcases List.mem_cons.mp hy1 with rfl | hy1
        · exact hiff1.mp rfl
        · exact h y1 hy1
      · intro h y1 hy1
        exact h y1 (List.mem_cons_of_mem _ hy1)

theorem isAreaOccupied_spec {inv : Inventory} (hwf : inv.WF) (pos : GridPosition)
    (size : ItemSize) :
    ∃ b, inv.isAreaOccupied pos size = some b ∧ (b = false ↔ AreaFree inv pos size) := by
  obtain ⟨b, hb, hiff⟩ := isAreaOccupiedRows_spec hwf (loopRange pos.x size.width)
    (loopRange pos.y size.height)
  refine ⟨b, hb, ?_⟩
  rw [hiff]
  unfold AreaFree inRect
  simp only [mem_loopRange]
  constructor
  · intro h x y hxy
    exact h y ⟨hxy.2.2.1, hxy.2.2.2⟩ x ⟨hxy.1, hxy.2.1⟩
  · intro h y hy x hx
    exact h x y ⟨hx.1, hx.2, hy.1, hy.2⟩

theorem canPlaceItem_of_free {inv : Inventory} (hwf : inv.WF) (it : Item) (pos : GridPosition)
    (hfree : AreaFree inv pos it.size) : inv.canPlaceItem it pos = some true := by
  obtain ⟨b, hb, hiff⟩ := isAreaOccupied_spec hwf pos it.size
  unfold Inventory.canPlaceItem
  rw [hb, hiff.mpr hfree]
  rfl

theorem canPlaceItem_of_not_free {inv : Inventory} (hwf : inv.WF) (it : Item)
    (pos : GridPosition) (hfree : ¬ AreaFree inv pos it.size) :
    inv.canPlaceItem it pos = some false := by
  obtain ⟨b, hb, hiff⟩ := isAreaOccupied_spec hwf pos it.size
  unfold Inventory.canPlaceItem
  rw [hb]
  cases b with
  | true => rfl
  | false => exact absurd (hiff.mp rfl) hfree

theorem AreaFree.cells {inv : Inventory} {pos : GridPosition} {size : ItemSize}
    (h : AreaFree inv pos size) : ∀ x y, inRect pos size x y → ∃ s, inv.cell? x y = some s := by
  intro x y hxy
  obtain ⟨s, hs, _⟩ := h x y hxy
  exact ⟨s, hs⟩

theorem placeItem_ok {inv : Inventory} (hwf : inv.WF) (it : Item) (count : Nat)
    (pos : GridPosition) (hfree : AreaFree inv pos it.size) (h0 : count ≠ 0)
    (hlim : count ≤ it.stackLimit) :
    inv.placeItem (some it) count pos =
      some (true, inv.mapCells (occupyFn pos it.size (some it) count)) := by
  unfold Inventory.placeItem
  have hc : ¬ (count = 0 ∨ count > it.stackLimit) := by omega
  simp only [hc, if_false, canPlaceItem_of_free hwf it pos hfree,
    occupyArea_eq inv pos it.size (some it) count hfree.cells]

theorem placeItem_fail {inv : Inventory} (hwf : inv.WF) (it : Item) (count : Nat)
    (pos : GridPosition)
    (h : count = 0 ∨ count > it.stackLimit ∨ ¬ AreaFree inv pos it.size) :
    inv.placeItem (some it) count pos = some (false, inv) := by
  unfold Inventory.placeItem
  by_cases hc : count = 0 ∨ count > it.stackLimit
  · simp only [hc, if_true]
  · have hnf : ¬ AreaFree inv pos it.size := by tauto
    simp only [hc, if_false, canPlaceItem_of_not_free hwf it pos hnf]

theorem removeItem_ok {inv : Inventory} (hwf : inv.WF) (pos : GridPosition)
    (s : InventorySlot) (it : Item) (hs : inv.cell? pos.x pos.y = some s)
    (hit : s.item = some it) (hcnt : s.stackCount ≠ 0) :
    inv.removeItem pos = some (some s, inv.mapCells (clearFn pos it.size)) := by
  unfold Inventory.removeItem
  have hv : inv.isPositionValid pos = true := hwf.valid_of_cell hs
  have he : s.isEmpty = false := by
    simp [InventorySlot.isEmpty, hit, hcnt]
  simp only [hv, Bool.not_true, Bool.false_eq_true, if_false, hs, he, hit,
    clearArea_eq inv hwf pos it.size]

theorem removeItem_fail {inv : Inventory} (hwf : inv.WF) (pos : GridPosition)
    (h : ∀ s, inv.cell? pos.x pos.y = some s → s.isEmpty = true) :
    inv.removeItem pos = some (none, inv) := by
  unfold Inventory.removeItem
  by_cases hv : inv.isPositionValid pos = true
  · obtain ⟨s, hs⟩ := hwf.cell_of_valid (x := pos.x) (y := pos.y) hv
    simp only [hv, Bool.not_true, Bool.false_eq_true, if_false, hs, h s hs, if_true]
  · have hv2 : inv.isPositionValid pos = false := by
      cases h : inv.isPositionValid pos
      · rfl
      · exact absurd h hv
    simp only [hv2, Bool.not_false, if_true]

theorem getSlot_eq {inv : Inventory} (hwf : inv.WF) (pos : GridPosition) :
    inv.getSlot pos = some (inv.cell? pos.x pos.y) := by
  unfold Inventory.getSlot
  by_cases hv : inv.isPositionValid pos = true
  · obtain ⟨s, hs⟩ := hwf.cell_of_valid (x := pos.x) (y := pos.y) hv
    simp only [hv, Bool.not_true, Bool.false_eq_true, if_false, hs]
  · have hv2 : inv.isPositionValid pos = false := by
      cases h : inv.isPositionValid pos
      · rfl
      · exact absurd h hv
    simp only [hv2, Bool.not_false, if_true]
    rw [hwf.cell_none_of_invalid (x := pos.x) (y := pos.y) hv]

theorem canPlaceItem_total {inv : Inventory} (hwf : inv.WF) (it : Item) (pos : GridPosition) :
    ∃ b, inv.canPlaceItem it pos = some b := by
  obtain ⟨b, hb, _⟩ := isAreaOccupied_spec hwf pos it.size
  unfold Inventory.canPlaceItem
  rw [hb]
  exact ⟨!b, rfl⟩

theorem placeItem_cases {inv : Inventory} (hwf : inv.WF) (item : Option Item) (count : Nat)
    (pos : GridPosition) :
    inv.placeItem item count pos = some (false, inv) ∨
      ∃ it, item = some it ∧ AreaFree inv pos it.size ∧ count ≠ 0 ∧ count ≤ it.stackLimit ∧
        inv.placeItem item count pos =
          some (true, inv.mapCells (occupyFn pos it.size (some it) count)) := by
  cases item with
  | none => exact Or.inl rfl
  | some it =>
    by_cases h0 : count = 0
    · exact Or.inl (placeItem_fail hwf it count pos (Or.inl h0))
    · by_cases hl : count ≤ it.stackLimit
      · by_cases hf : AreaFree inv pos it.size
        · exact Or.inr ⟨it, rfl, hf, h0, hl, placeItem_ok hwf it count pos hf h0 hl⟩
        · exact Or.inl (placeItem_fail hwf it count pos (Or.inr (Or.inr hf)))
      · exact Or.inl (placeItem_fail hwf it count pos (Or.inr (Or.inl (by omega))))

theorem placeItem_total {inv : Inventory} (hwf : inv.WF) (item : Option Item) (count : Nat)
    (pos : GridPosition) : ∃ b inv1, inv.placeItem item count pos = some (b, inv1) := by
  rcases placeItem_cases hwf item count pos with h | ⟨_, _, _, _, _, h⟩
  · exact ⟨_, _, h⟩
  · exact ⟨_, _, h⟩

theorem removeItem_total {inv : Inventory} (hwf : inv.WF) (pos : GridPosition) :
    ∃ r inv1, inv.removeItem pos = some (r, inv1) := by
  by_cases hanch : ∃ s, inv.cell? pos.x pos.y = some s ∧ s.isEmpty = false
  · obtain ⟨s, hs, he⟩ := hanch
    cases hit : s.item with
    | none => simp [InventorySlot.isEmpty, hit] at he
    | some it =>
      have hcnt : s.stackCount ≠ 0 := by
        intro h0
        simp [InventorySlot.isEmpty, hit, h0] at he
      exact ⟨_, _, removeItem_ok hwf pos s it hs hit hcnt⟩
  · refine ⟨_, _, removeItem_fail hwf pos ?_⟩
    intro s hs
    cases he : s.isEmpty with
    | true => rfl
    | false => exact absurd ⟨s, hs, he⟩ hanch

/-! ### Claims about the store primitives -/

theorem sampleStore_wf : sampleStore.WF :=
  (Inventory.WF.of_new (by decide) (by decide)).mapCells _ (occupyFn_position _ _ _ _)

/-- C5: on every well-formed grid and for every integer position, `canPlaceItem` returns a
value (it never indexes `grid_` outside its range), and that value is `true` exactly when every
cell of the footprint anchored at the position is inside the grid, holds no item or a zero
count, and is not marked covered. -/
theorem canPlaceItem_iff_footprint_free (inv : Inventory) (hwf : inv.WF) (item : Item)
    (pos : GridPosition) :
    ∃ b, inv.canPlaceItem item pos = some b ∧
      (b = true ↔
        ∀ x y : Int, pos.x ≤ x → x < pos.x + item.size.width →
          pos.y ≤ y → y < pos.y + item.size.height →
          inv.InBounds x y ∧
            ∃ s, inv.cell? x y = some s ∧ (s.item = none ∨ s.stackCount = 0) ∧
              s.isOccupied = false) := by
  have hfree : AreaFree inv pos item.size ↔
      ∀ x y : Int, pos.x ≤ x → x < pos.x + item.size.width →
        pos.y ≤ y → y < pos.y + item.size.height →
        inv.InBounds x y ∧
          ∃ s, inv.cell? x y = some s ∧ (s.item = none ∨ s.stackCount = 0) ∧
            s.isOccupied = false := by
    constructor
    · intro h x y h1 h2 h3 h4
      obtain ⟨s, hs, he, ho⟩ := h x y ⟨h1, h2, h3, h4⟩
      refine ⟨(isPositionValid_mk_iff inv x y).mp (hwf.valid_of_cell hs), s, hs, ?_, ho⟩
      simpa [InventorySlot.isEmpty] using he
    · intro h x y hxy
      obtain ⟨_, s, hs, he, ho⟩ := h x y hxy.1 hxy.2.1 hxy.2.2.1 hxy.2.2.2
      refine ⟨s, hs, ?_, ho⟩
      simpa [InventorySlot.isEmpty] using he
  by_cases hf : AreaFree inv pos item.size
  · exact ⟨true, canPlaceItem_of_free hwf item pos hf, by simpa using hfree.mp hf⟩
  · refine ⟨false, canPlaceItem_of_not_free hwf item pos hf, ?_⟩
    simp only [Bool.false_eq_true, false_iff]
    exact fun h => hf (hfree.mpr h)

theorem canPlaceItem_iff_footprint_free_witness :
    sampleStore.WF ∧
      ∃ b, sampleStore.canPlaceItem chaosOrb ⟨-1, 5⟩ = some b ∧
        (b = true ↔
          ∀ x y : Int, (⟨-1, 5⟩ : GridPosition).x ≤ x →
            x < (⟨-1, 5⟩ : GridPosition).x + chaosOrb.size.width →
            (⟨-1, 5⟩ : GridPosition).y ≤ y →
            y < (⟨-1, 5⟩ : GridPosition).y + chaosOrb.size.height →
            sampleStore.InBounds x y ∧
              ∃ s, sampleStore.cell? x y = some s ∧ (s.item = none ∨ s.stackCount = 0) ∧
                s.isOccupied = false) :=
  ⟨sampleStore_wf, canPlaceItem_iff_footprint_free sampleStore sampleStore_wf chaosOrb ⟨-1, 5⟩⟩

/-- C6: `placeItem` always returns; it returns `true` exactly when the item reference is
present, the count is not zero, the count does not exceed the item's stack limit and
`canPlaceItem` is true; and whenever it returns `false` the grid is unchanged. -/
theorem placeItem_true_iff (inv : Inventory) (hwf : inv.WF) (item : Option Item) (count : Nat)
    (pos : GridPosition) :
    ∃ b inv1, inv.placeItem item count pos = some (b, inv1) ∧
      (b = true ↔
        ∃ it, item = some it ∧ count ≠ 0 ∧ count ≤ it.stackLimit ∧
          inv.canPlaceItem it pos = some true) ∧
      (b = false → inv1 = inv) := by
  cases item with
  | none =>
    refine ⟨false, inv, rfl, ?_, fun _ => rfl⟩
    simp
  | some it =>
    by_cases hok : count ≠ 0 ∧ count ≤ it.stackLimit ∧ AreaFree inv pos it.size
    · refine ⟨true, _, placeItem_ok hwf it count pos hok.2.2 hok.1 hok.2.1, ?_, ?_⟩
      · simp only [true_iff]
        exact ⟨it, rfl, hok.1, hok.2.1, canPlaceItem_of_free hwf it pos hok.2.2⟩
      · intro h; cases h
    · have hbad : count = 0 ∨ count > it.stackLimit ∨ ¬ AreaFree inv pos it.size := by
        by_cases h0 : count = 0
        · exact Or.inl h0
        · by_cases hl : count ≤ it.stackLimit
          · exact Or.inr (Or.inr fun hf => hok ⟨h0, hl, hf⟩)
          · exact Or.inr (Or.inl (by omega))
      refine ⟨false, inv, placeItem_fail hwf it count pos hbad, ?_, fun _ => rfl⟩
      simp only [Bool.false_eq_true, false_iff]
      rintro ⟨it1, hit, h0, hlim, hcan⟩
      cases hit
      apply hok
      refine ⟨h0, hlim, ?_⟩
      by_contra hnf
      rw [canPlaceItem_of_not_free hwf it pos hnf] at hcan
      cases hcan

theorem placeItem_true_iff_witness :
    sampleStore.WF ∧
      ∃ b inv1, sampleStore.placeItem (some chaosOrb) 21 ⟨2, 0⟩ = some (b, inv1) ∧
        (b = true ↔
          ∃ it, some chaosOrb = some it ∧ 21 ≠ 0 ∧ 21 ≤ it.stackLimit ∧
            sampleStore.canPlaceItem it ⟨2, 0⟩ = some true) ∧
        (b = false → inv1 = sampleStore) :=
  ⟨sampleStore_wf, placeItem_true_iff sampleStore sampleStore_wf (some chaosOrb) 21 ⟨2, 0⟩⟩

theorem placeItem_true_inv {inv : Inventory} (hwf : inv.WF) {it : Item} {count : Nat}
    {pos : GridPosition} {inv1 : Inventory}
    (h : inv.placeItem (some it) count pos = some (true, inv1)) :
    AreaFree inv pos it.size ∧ count ≠ 0 ∧ count ≤ it.stackLimit ∧
      inv1 = inv.mapCells (occupyFn pos it.size (some it) count) := by
  by_cases hok : count ≠ 0 ∧ count ≤ it.stackLimit ∧ AreaFree inv pos it.size
  · rw [placeItem_ok hwf it count pos hok.2.2 hok.1 hok.2.1] at h
    simp only [Option.some.injEq, Prod.mk.injEq, true_and] at h
    exact ⟨hok.2.2, hok.1, hok.2.1, h.symm⟩
  · have hbad : count = 0 ∨ count > it.stackLimit ∨ ¬ AreaFree inv pos it.size := by
      by_cases h0 : count = 0
      · exact Or.inl h0
      · by_cases hl : count ≤ it.stackLimit
        · exact Or.inr (Or.inr fun hf => hok ⟨h0, hl, hf⟩)
        · exact Or.inr (Or.inl (by omega))
    rw [placeItem_fail hwf it count pos hbad] at h
    simp at h

theorem placeItem_false_inv {inv : Inventory} (hwf : inv.WF) {item : Option Item} {count : Nat}
    {pos : GridPosition} {inv1 : Inventory}
    (h : inv.placeItem item count pos = some (false, inv1)) : inv1 = inv := by
  rcases placeItem_cases hwf item count pos with heq | ⟨_, _, _, _, _, heq⟩
  · rw [heq] at h
    simp only [Option.some.injEq, Prod.mk.injEq, true_and] at h
    exact h.symm
  · rw [heq] at h
    simp at h

theorem cell?_mapCells_of_cell {inv : Inventory} {f : Int → Int → InventorySlot → InventorySlot}
    {x y : Int} {s : InventorySlot} (hs : inv.cell? x y = some s) :
    (inv.mapCells f).cell? x y = some (f x y s) := by
  rw [cell?_mapCells, hs]; rfl

/-- C7: whenever `placeItem` returns `true` for an item whose footprint is at least 1x1, the
cell at `pos` holds the item and the count and is not covered; every other cell of the
footprint holds no item, count 0 and is covered, so that `getSlot` there reports an empty slot
while `getSlot pos` reports the item and its count; every cell outside the footprint is
unchanged. -/
theorem placeItem_marks_footprint (inv : Inventory) (hwf : inv.WF) (it : Item) (count : Nat)
    (pos : GridPosition) (inv1 : Inventory) (hw : 1 ≤ it.size.width)
    (hh : 1 ≤ it.size.height)
    (h : inv.placeItem (some it) count pos = some (true, inv1)) :
    (∃ s, inv1.cell? pos.x pos.y = some s ∧ inv1.getSlot pos = some (some s) ∧
        s.item = some it ∧ s.stackCount = count ∧ s.isOccupied = false) ∧
      (∀ x y : Int, inRect pos it.size x y → ¬ (x = pos.x ∧ y = pos.y) →
        ∃ s, inv1.cell? x y = some s ∧ inv1.getSlot ⟨x, y⟩ = some (some s) ∧
          s.item = none ∧ s.stackCount = 0 ∧ s.isOccupied = true ∧ s.isEmpty = true) ∧
      (∀ x y : Int, ¬ inRect pos it.size x y → inv1.cell? x y = inv.cell? x y) := by
  obtain ⟨hfree, _, _, rfl⟩ := placeItem_true_inv hwf h
  have hwf1 : (inv.mapCells (occupyFn pos it.size (some it) count)).WF :=
    hwf.mapCells _ (occupyFn_position _ _ _ _)
  have hpos : inRect pos it.size pos.x pos.y := by
    unfold inRect; omega
  refine ⟨?_, ?_, ?_⟩
  · obtain ⟨s0, hs0, _⟩ := hfree pos.x pos.y hpos
    refine ⟨_, cell?_mapCells_of_cell hs0, ?_, ?_⟩
    · rw [getSlot_eq hwf1, cell?_mapCells_of_cell hs0]
    · simp [occupyFn, hpos, setAnchor]
  · intro x y hxy hne
    obtain ⟨s0, hs0, _⟩ := hfree x y hxy
    refine ⟨_, cell?_mapCells_of_cell hs0, ?_, ?_⟩
    · rw [getSlot_eq hwf1]
      exact congrArg some (cell?_mapCells_of_cell hs0)
    · simp [occupyFn, hxy, hne, setCovered, InventorySlot.isEmpty]
  · intro x y hxy
    rw [cell?_mapCells]
    cases inv.cell? x y with
    | none => rfl
    | some s => simp [occupyFn, hxy]

theorem placeItem_marks_footprint_witness :
    (Inventory.new 12 12).WF ∧ 1 ≤ starkonja.size.width ∧ 1 ≤ starkonja.size.height ∧
      (Inventory.new 12 12).placeItem (some starkonja) 1 ⟨0, 0⟩ =
        some (true, (Inventory.new 12 12).mapCells (occupyFn ⟨0, 0⟩ ⟨2, 2⟩ (some starkonja) 1)) ∧
      ((∃ s, ((Inventory.new 12 12).mapCells
            (occupyFn ⟨0, 0⟩ ⟨2, 2⟩ (some starkonja) 1)).cell? 0 0 = some s ∧
          ((Inventory.new 12 12).mapCells
            (occupyFn ⟨0, 0⟩ ⟨2, 2⟩ (some starkonja) 1)).getSlot ⟨0, 0⟩ = some (some s) ∧
          s.item = some starkonja ∧ s.stackCount = 1 ∧ s.isOccupied = false) ∧
        (∀ x y : Int, inRect ⟨0, 0⟩ starkonja.size x y →
          ¬ (x = (⟨0, 0⟩ : GridPosition).x ∧ y = (⟨0, 0⟩ : GridPosition).y) →
          ∃ s, ((Inventory.new 12 12).mapCells
              (occupyFn ⟨0, 0⟩ ⟨2, 2⟩ (some starkonja) 1)).cell? x y = some s ∧
            ((Inventory.new 12 12).mapCells
              (occupyFn ⟨0, 0⟩ ⟨2, 2⟩ (some starkonja) 1)).getSlot ⟨x, y⟩ = some (some s) ∧
            s.item = none ∧ s.stackCount = 0 ∧ s.isOccupied = true ∧ s.isEmpty = true) ∧
        (∀ x y : Int, ¬ inRect ⟨0, 0⟩ starkonja.size x y →
          ((Inventory.new 12 12).mapCells
              (occupyFn ⟨0, 0⟩ ⟨2, 2⟩ (some starkonja) 1)).cell? x y =
            (Inventory.new 12 12).cell? x y)) :=
  ⟨Inventory.WF.of_new (by decide) (by decide), by decide, by decide, by decide,
    placeItem_marks_footprint (Inventory.new 12 12)
      (Inventory.WF.of_new (by decide) (by decide)) starkonja 1 ⟨0, 0⟩ _ (by decide) (by decide)
      (by decide)⟩

theorem isEmpty_eq_false_iff (s : InventorySlot) : s.isEmpty = false ↔ s.IsAnchor := by
  unfold InventorySlot.isEmpty InventorySlot.IsAnchor
  cases hi : s.item with
  | none => simp
  | some it =>
    simp only [Option.isNone_some, Bool.false_or, beq_eq_false_iff_ne, ne_eq, Option.some.injEq,
      exists_eq_left']
    omega

theorem isEmpty_eq_true_iff (s : InventorySlot) : s.isEmpty = true ↔ ¬ s.IsAnchor := by
  rw [← isEmpty_eq_false_iff]
  cases s.isEmpty <;> simp

/-- C8: `removeItem pos` always returns.  It returns no value exactly when `pos` is out of
bounds or the cell at `pos` is not an anchor, and then the grid is unchanged.  Otherwise it
returns a copy of the anchor slot as it was before the call (same item, same count, position
equal to `pos`); afterwards every cell of that item's footprint anchored at `pos` is empty and
not covered, and every cell outside the footprint is unchanged. -/
theorem removeItem_spec (inv : Inventory) (hwf : inv.WF) (pos : GridPosition) :
    ∃ r inv1, inv.removeItem pos = some (r, inv1) ∧
      (r = none ↔
        (¬ inv.InBounds pos.x pos.y ∨ ∀ s, inv.cell? pos.x pos.y = some s → ¬ s.IsAnchor)) ∧
      (r = none → inv1 = inv) ∧
      (∀ s0, r = some s0 →
        inv.cell? pos.x pos.y = some s0 ∧ s0.position = pos ∧
          ∃ it, s0.item = some it ∧
            (∀ x y : Int, inRect pos it.size x y → ∀ s, inv1.cell? x y = some s →
              s.item = none ∧ s.stackCount = 0 ∧ s.isOccupied = false) ∧
            (∀ x y : Int, ¬ inRect pos it.size x y → inv1.cell? x y = inv.cell? x y)) := by
  by_cases hanch : ∃ s, inv.cell? pos.x pos.y = some s ∧ s.IsAnchor
  · obtain ⟨s, hs, it, hit, hcnt⟩ := hanch
    refine ⟨some s, _, removeItem_ok hwf pos s it hs hit (by omega), ?_, ?_, ?_⟩
    · constructor
      · intro h; cases h
      · rintro (hnb | hna)
        · exact absurd ((isPositionValid_mk_iff inv pos.x pos.y).mp (hwf.valid_of_cell hs)) hnb
        · exact absurd ⟨it, hit, hcnt⟩ (hna s hs)
    · intro h; cases h
    · intro s0 hs0
      cases hs0
      refine ⟨hs, hwf.pos _ _ _ hs, it, hit, ?_, ?_⟩
      · intro x y hxy s1 hs1
        rw [cell?_mapCells] at hs1
        cases hc : inv.cell? x y with
        | none => rw [hc] at hs1; cases hs1
        | some s2 =>
          rw [hc] at hs1
          simp only [Option.map_some', Option.some.injEq] at hs1
          subst hs1
          simp [clearFn, hxy, setCleared]
      · intro x y hxy
        rw [cell?_mapCells]
        cases inv.cell? x y with
        | none => rfl
        | some s2 => simp [clearFn, hxy]
  · have hall : ∀ s, inv.cell? pos.x pos.y = some s → ¬ s.IsAnchor :=
      fun s hs ha => hanch ⟨s, hs, ha⟩
    refine ⟨none, inv, removeItem_fail hwf pos ?_, ?_, fun _ => rfl, ?_⟩
    · intro s hs
      exact (isEmpty_eq_true_iff s).mpr (hall s hs)
    · simp only [true_iff]
      exact Or.inr hall
    · intro s0 h; cases h

theorem removeItem_spec_witness :
    sampleStore.WF ∧
      ∃ r inv1, sampleStore.removeItem ⟨0, 0⟩ = some (r, inv1) ∧
        (r = none ↔
          (¬ sampleStore.InBounds (⟨0, 0⟩ : GridPosition).x (⟨0, 0⟩ : GridPosition).y ∨
            ∀ s, sampleStore.cell? (⟨0, 0⟩ : GridPosition).x (⟨0, 0⟩ : GridPosition).y = some s →
              ¬ s.IsAnchor)) ∧
        (r = none → inv1 = sampleStore) ∧
        (∀ s0, r = some s0 →
          sampleStore.cell? (⟨0, 0⟩ : GridPosition).x (⟨0, 0⟩ : GridPosition).y = some s0 ∧
            s0.position = ⟨0, 0⟩ ∧
            ∃ it, s0.item = some it ∧
              (∀ x y : Int, inRect ⟨0, 0⟩ it.size x y → ∀ s, inv1.cell? x y = some s →
                s.item = none ∧ s.stackCount = 0 ∧ s.isOccupied = false) ∧
              (∀ x y : Int, ¬ inRect ⟨0, 0⟩ it.size x y →
                inv1.cell? x y = sampleStore.cell? x y)) :=
  ⟨sampleStore_wf, removeItem_spec sampleStore sampleStore_wf ⟨0, 0⟩⟩

/-! ### Preservation of the grid invariants by the primitives -/

theorem cell?_mapCells_some {inv : Inventory} {f : Int → Int → InventorySlot → InventorySlot}
    {x y : Int} {s : InventorySlot} (hs : (inv.mapCells f).cell? x y = some s) :
    ∃ s0, inv.cell? x y = some s0 ∧ s = f x y s0 := by
  rw [cell?_mapCells] at hs
  cases hc : inv.cell? x y with
  | none => rw [hc] at hs; cases hs
  | some s0 =>
    rw [hc] at hs
    simp only [Option.map_some', Option.some.injEq] at hs
    exact ⟨s0, rfl, hs.symm⟩

theorem AreaFree.not_item {inv : Inventory} {pos : GridPosition} {size : ItemSize}
    (hfree : AreaFree inv pos size) (hinv : inv.GridInv) {x y : Int} {s : InventorySlot}
    {it : Item} (hs : inv.cell? x y = some s) (hit : s.item = some it) :
    ¬ inRect pos size x y := by
  intro hxy
  obtain ⟨s1, hs1, he, _⟩ := hfree x y hxy
  rw [hs] at hs1
  cases hs1
  have hc := (hinv.count x y s it hs hit).1
  simp [InventorySlot.isEmpty, hit] at he
  omega

theorem AreaFree.not_covered {inv : Inventory} {pos : GridPosition} {size : ItemSize}
    (hfree : AreaFree inv pos size) {x y : Int} {s : InventorySlot}
    (hs : inv.cell? x y = some s) (hocc : s.isOccupied = true) : ¬ inRect pos size x y := by
  intro hxy
  obtain ⟨s1, hs1, _, ho⟩ := hfree x y hxy
  rw [hs] at hs1
  cases hs1
  rw [hocc] at ho
  cases ho

theorem occupy_item_cases {inv : Inventory} {pos : GridPosition} {it : Item} {count : Nat}
    {x y : Int} {s : InventorySlot} {it1 : Item}
    (hs : (inv.mapCells (occupyFn pos it.size (some it) count)).cell? x y = some s)
    (hit : s.item = some it1) :
    (x = pos.x ∧ y = pos.y ∧ inRect pos it.size x y ∧ it1 = it ∧ s.stackCount = count ∧
        s.isOccupied = false) ∨
      (¬ inRect pos it.size x y ∧ inv.cell? x y = some s) := by
  obtain ⟨s0, hs0, rfl⟩ := cell?_mapCells_some hs
  unfold occupyFn at hit ⊢
  by_cases hxy : inRect pos it.size x y
  · rw [if_pos hxy] at hit ⊢
    by_cases ha : x = pos.x ∧ y = pos.y
    · rw [if_pos ha] at hit ⊢
      simp only [setAnchor, Option.some.injEq] at hit
      exact Or.inl ⟨ha.1, ha.2, hxy, hit.symm, rfl, rfl⟩
    · rw [if_neg ha] at hit
      simp [setCovered] at hit
  · rw [if_neg hxy] at hit ⊢
    exact Or.inr ⟨hxy, hs0⟩

theorem occupy_keep {inv : Inventory} {pos : GridPosition} {it : Item} {count : Nat}
    {x y : Int} {s : InventorySlot} (hs : inv.cell? x y = some s)
    (hxy : ¬ inRect pos it.size x y) :
    (inv.mapCells (occupyFn pos it.size (some it) count)).cell? x y = some s := by
  rw [cell?_mapCells_of_cell hs]
  simp [occupyFn, hxy]

theorem Inventory.GridInv.occupy {inv : Inventory} (hinv : inv.GridInv) (it : Item)
    (count : Nat) (pos : GridPosition) (hfree : AreaFree inv pos it.size) (h0 : count ≠ 0)
    (hlim : count ≤ it.stackLimit) :
    (inv.mapCells (occupyFn pos it.size (some it) count)).GridInv := by
  by_cases hsz : 1 ≤ it.size.width ∧ 1 ≤ it.size.height
  swap
  · have hid : inv.mapCells (occupyFn pos it.size (some it) count) = inv := by
      apply mapCells_id
      intro x y s _
      have : ¬ inRect pos it.size x y := by
        unfold inRect; omega
      simp [occupyFn, this]
    rw [hid]; exact hinv
  have hposR : inRect pos it.size pos.x pos.y := by
    unfold inRect; omega
  obtain ⟨sp, hsp, _, _⟩ := hfree pos.x pos.y hposR
  have hnew : (inv.mapCells (occupyFn pos it.size (some it) count)).cell? pos.x pos.y =
      some (setAnchor (some it) count sp) := by
    rw [cell?_mapCells_of_cell hsp]
    simp [occupyFn, hposR]
  refine ⟨hinv.wf.mapCells _ (occupyFn_position _ _ _ _), ?_, ?_, ?_, ?_, ?_, ?_, ?_, ?_⟩
  · intro x y s it1 hs hit
    rcases occupy_item_cases hs hit with ⟨_, _, _, rfl, hc, _⟩ | ⟨_, hold⟩
    · omega
    · exact hinv.count x y s it1 hold hit
  · intro x y s hs hit
    obtain ⟨s0, hs0, rfl⟩ := cell?_mapCells_some hs
    unfold occupyFn at hit ⊢
    by_cases hxy : inRect pos it.size x y
    · rw [if_pos hxy] at hit ⊢
      by_cases ha : x = pos.x ∧ y = pos.y
      · rw [if_pos ha] at hit
        simp [setAnchor] at hit
      · rw [if_neg ha]; rfl
    · rw [if_neg hxy] at hit ⊢
      exact hinv.noItem x y s0 hs0 hit
  · intro x y s it1 hs hit
    rcases occupy_item_cases hs hit with ⟨_, _, _, _, _, hf⟩ | ⟨_, hold⟩
    · exact hf
    · exact hinv.anchorFlag x y s it1 hold hit
  · intro x y s it1 hs hit
    rcases occupy_item_cases hs hit with ⟨_, _, _, rfl, _, _⟩ | ⟨_, hold⟩
    · exact hsz
    · exact hinv.size x y s it1 hold hit
  · intro x y s it1 hs hit
    rcases occupy_item_cases hs hit with ⟨rfl, rfl, _, rfl, _, _⟩ | ⟨_, hold⟩
    · have hcorner : inRect pos it1.size (pos.x + it1.size.width - 1)
          (pos.y + it1.size.height - 1) := by
        unfold inRect; omega
      obtain ⟨sc, hsc, _⟩ := hfree _ _ hcorner
      have hv := (isPositionValid_mk_iff _ _ _).mp (hinv.wf.valid_of_cell hsc)
      show pos.x + it1.size.width ≤ inv.width_ ∧ pos.y + it1.size.height ≤ inv.height_
      omega
    · exact hinv.inside x y s it1 hold hit
  · intro x y s it1 hs hit x1 y1 hin hne
    rcases occupy_item_cases hs hit with ⟨rfl, rfl, _, rfl, _, _⟩ | ⟨_, hold⟩
    · obtain ⟨s0, hs0, _⟩ := hfree x1 y1 hin
      refine ⟨_, cell?_mapCells_of_cell hs0, ?_⟩
      simp [occupyFn, hin, hne, setCovered]
    · obtain ⟨s1, hs1, hi1, ho1⟩ := hinv.footprint x y s it1 hold hit x1 y1 hin hne
      exact ⟨s1, occupy_keep hs1 (hfree.not_covered hs1 ho1), hi1, ho1⟩
  · intro x y s hs hocc
    obtain ⟨s0, hs0, rfl⟩ := cell?_mapCells_some hs
    by_cases hxy : inRect pos it.size x y
    · exact ⟨pos.x, pos.y, _, it, hnew, rfl, hxy⟩
    · have hs' : s0.isOccupied = true := by
        simpa [occupyFn, hxy] using hocc
      obtain ⟨ax, ay, sa, ita, hsa, hia, hin⟩ := hinv.covered x y s0 hs0 hs'
      exact ⟨ax, ay, sa, ita, occupy_keep hsa (hfree.not_item hinv hsa hia), hia, hin⟩
  · intro ax ay sa ita cx cy sc itc x y hsa hia hsc hic hina hinc
    rcases occupy_item_cases hsa hia with ⟨rfl, rfl, _, rfl, _, _⟩ | ⟨_, holda⟩
    · rcases occupy_item_cases hsc hic with ⟨rfl, rfl, _, rfl, _, _⟩ | ⟨_, holdc⟩
      · exact ⟨rfl, rfl⟩
      · exfalso
        by_cases hc : x = cx ∧ y = cy
        · obtain ⟨rfl, rfl⟩ := hc
          exact hfree.not_item hinv holdc hic hina
        · obtain ⟨s1, hs1, _, ho1⟩ := hinv.footprint cx cy sc itc holdc hic x y hinc hc
          exact hfree.not_covered hs1 ho1 hina
    · rcases occupy_item_cases hsc hic with ⟨rfl, rfl, _, rfl, _, _⟩ | ⟨_, holdc⟩
      · exfalso
        by_cases hc : x = ax ∧ y = ay
        · obtain ⟨rfl, rfl⟩ := hc
          exact hfree.not_item hinv holda hia hinc
        · obtain ⟨s1, hs1, _, ho1⟩ := hinv.footprint ax ay sa ita holda hia x y hina hc
          exact hfree.not_covered hs1 ho1 hinc
      · exact hinv.disjoint ax ay sa ita cx cy sc itc x y holda hia holdc hic hina hinc

theorem clear_cell_cases {inv : Inventory} {pos : GridPosition} {size : ItemSize}
    {x y : Int} {s : InventorySlot}
    (hs : (inv.mapCells (clearFn pos size)).cell? x y = some s) :
    (inRect pos size x y ∧ s.item = none ∧ s.stackCount = 0 ∧ s.isOccupied = false) ∨
      (¬ inRect pos size x y ∧ inv.cell? x y = some s) := by
  obtain ⟨s0, hs0, rfl⟩ := cell?_mapCells_some hs
  unfold clearFn
  by_cases hxy : inRect pos size x y
  · rw [if_pos hxy]
    exact Or.inl ⟨hxy, rfl, rfl, rfl⟩
  · rw [if_neg hxy]
    exact Or.inr ⟨hxy, hs0⟩

theorem clear_item_old {inv : Inventory} {pos : GridPosition} {size : ItemSize}
    {x y : Int} {s : InventorySlot} {it : Item}
    (hs : (inv.mapCells (clearFn pos size)).cell? x y = some s) (hit : s.item = some it) :
    ¬ inRect pos size x y ∧ inv.cell? x y = some s := by
  rcases clear_cell_cases hs with ⟨_, hnone, _⟩ | h
  · rw [hnone] at hit; cases hit
  · exact h

theorem clear_keep {inv : Inventory} {pos : GridPosition} {size : ItemSize}
    {x y : Int} {s : InventorySlot} (hs : inv.cell? x y = some s)
    (hxy : ¬ inRect pos size x y) :
    (inv.mapCells (clearFn pos size)).cell? x y = some s := by
  rw [cell?_mapCells_of_cell hs]
  simp [clearFn, hxy]

theorem Inventory.GridInv.anchor_inRect {inv : Inventory} (hinv : inv.GridInv) {x y : Int}
    {s : InventorySlot} {it : Item} (hs : inv.cell? x y = some s) (hit : s.item = some it) :
    inRect ⟨x, y⟩ it.size x y := by
  have := hinv.size x y s it hs hit
  unfold inRect
  show x ≤ x ∧ x < x + it.size.width ∧ y ≤ y ∧ y < y + it.size.height
  omega

/-- For an anchor at `pos`, a cell of its footprint holding an item is the anchor itself. -/
theorem Inventory.GridInv.item_in_footprint {inv : Inventory} (hinv : inv.GridInv)
    {pos : GridPosition} {sp : InventorySlot} {it : Item}
    (hsp : inv.cell? pos.x pos.y = some sp) (hip : sp.item = some it) {x y : Int}
    {s : InventorySlot} {it1 : Item} (hs : inv.cell? x y = some s) (hit : s.item = some it1)
    (hxy : inRect pos it.size x y) : x = pos.x ∧ y = pos.y := by
  by_contra hne
  obtain ⟨s1, hs1, hi1, _⟩ := hinv.footprint pos.x pos.y sp it hsp hip x y hxy hne
  rw [hs] at hs1
  cases hs1
  rw [hit] at hi1
  cases hi1

theorem Inventory.GridInv.clearAnchor {inv : Inventory} (hinv : inv.GridInv)
    (pos : GridPosition) (sp : InventorySlot) (it : Item)
    (hsp : inv.cell? pos.x pos.y = some sp) (hip : sp.item = some it) :
    (inv.mapCells (clearFn pos it.size)).GridInv := by
  have hposR : inRect pos it.size pos.x pos.y := hinv.anchor_inRect hsp hip
  refine ⟨hinv.wf.mapCells _ (clearFn_position _ _), ?_, ?_, ?_, ?_, ?_, ?_, ?_, ?_⟩
  · intro x y s it1 hs hit
    exact hinv.count x y s it1 (clear_item_old hs hit).2 hit
  · intro x y s hs hit
    rcases clear_cell_cases hs with ⟨_, _, hc, _⟩ | ⟨_, hold⟩
    · exact hc
    · exact hinv.noItem x y s hold hit
  · intro x y s it1 hs hit
    exact hinv.anchorFlag x y s it1 (clear_item_old hs hit).2 hit
  · intro x y s it1 hs hit
    exact hinv.size x y s it1 (clear_item_old hs hit).2 hit
  · intro x y s it1 hs hit
    exact hinv.inside x y s it1 (clear_item_old hs hit).2 hit
  · intro x y s it1 hs hit x1 y1 hin hne
    obtain ⟨hout, hold⟩ := clear_item_old hs hit
    obtain ⟨s1, hs1, hi1, ho1⟩ := hinv.footprint x y s it1 hold hit x1 y1 hin hne
    refine ⟨s1, clear_keep hs1 ?_, hi1, ho1⟩
    intro hin2
    obtain ⟨rfl, rfl⟩ := hinv.disjoint x y s it1 pos.x pos.y sp it x1 y1 hold hit hsp hip hin hin2
    exact hout hposR
  · intro x y s hs hocc
    rcases clear_cell_cases hs with ⟨_, _, _, hf⟩ | ⟨hout, hold⟩
    · rw [hf] at hocc; cases hocc
    · obtain ⟨ax, ay, sa, ita, hsa, hia, hin⟩ := hinv.covered x y s hold hocc
      refine ⟨ax, ay, sa, ita, clear_keep hsa ?_, hia, hin⟩
      intro hin2
      obtain ⟨rfl, rfl⟩ := hinv.item_in_footprint hsp hip hsa hia hin2
      rw [hsp] at hsa
      cases hsa
      rw [hip] at hia
      cases hia
      exact hout hin
  · intro ax ay sa ita cx cy sc itc x y hsa hia hsc hic hina hinc
    exact hinv.disjoint ax ay sa ita cx cy sc itc x y (clear_item_old hsa hia).2 hia
      (clear_item_old hsc hic).2 hic hina hinc

theorem Inventory.GridInv.clearAll {inv : Inventory} (hinv : inv.GridInv) :
    (inv.mapCells fun _ _ s => setCleared s).GridInv := by
  have hcell : ∀ {x y : Int} {s : InventorySlot},
      (inv.mapCells fun _ _ s => setCleared s).cell? x y = some s →
        s.item = none ∧ s.stackCount = 0 ∧ s.isOccupied = false := by
    intro x y s hs
    obtain ⟨s0, _, rfl⟩ := cell?_mapCells_some hs
    exact ⟨rfl, rfl, rfl⟩
  refine ⟨hinv.wf.mapCells _ (fun _ _ _ => rfl), ?_, ?_, ?_, ?_, ?_, ?_, ?_, ?_⟩
  · intro x y s it hs hit
    rw [(hcell hs).1] at hit; cases hit
  · intro x y s hs _
    exact (hcell hs).2.1
  · intro x y s it hs hit
    rw [(hcell hs).1] at hit; cases hit
  · intro x y s it hs hit
    rw [(hcell hs).1] at hit; cases hit
  · intro x y s it hs hit
    rw [(hcell hs).1] at hit; cases hit
  · intro x y s it hs hit
    rw [(hcell hs).1] at hit; cases hit
  · intro x y s hs hocc
    rw [(hcell hs).2.2] at hocc; cases hocc
  · intro ax ay sa ita cx cy sc itc x y hsa hia
    rw [(hcell hsa).1] at hia; cases hia

theorem Inventory.GridInv.of_new_store {w h : Int} (hw : 0 ≤ w) (hh : 0 ≤ h) :
    (Inventory.new w h).GridInv := by
  have hcell : ∀ {x y : Int} {s : InventorySlot}, (Inventory.new w h).cell? x y = some s →
      s.item = none ∧ s.stackCount = 0 ∧ s.isOccupied = false := by
    intro x y s hs
    rw [cell?_new hs]
    exact ⟨rfl, rfl, rfl⟩
  refine ⟨Inventory.WF.of_new hw hh, ?_, ?_, ?_, ?_, ?_, ?_, ?_, ?_⟩
  · intro x y s it hs hit
    rw [(hcell hs).1] at hit; cases hit
  · intro x y s hs _
    exact (hcell hs).2.1
  · intro x y s it hs hit
    rw [(hcell hs).1] at hit; cases hit
  · intro x y s it hs hit
    rw [(hcell hs).1] at hit; cases hit
  · intro x y s it hs hit
    rw [(hcell hs).1] at hit; cases hit
  · intro x y s it hs hit
    rw [(hcell hs).1] at hit; cases hit
  · intro x y s hs hocc
    rw [(hcell hs).2.2] at hocc; cases hocc
  · intro ax ay sa ita cx cy sc itc x y hsa hia
    rw [(hcell hsa).1] at hia; cases hia

theorem Inventory.GridInv.placeItem_preserves {inv : Inventory} (hinv : inv.GridInv)
    {item : Option Item} {count : Nat} {pos : GridPosition} {b : Bool} {inv1 : Inventory}
    (h : inv.placeItem item count pos = some (b, inv1)) : inv1.GridInv := by
  cases b with
  | false => rw [placeItem_false_inv hinv.wf h]; exact hinv
  | true =>
    cases item with
    | none => simp [Inventory.placeItem] at h
    | some it =>
      obtain ⟨hfree, h0, hlim, rfl⟩ := placeItem_true_inv hinv.wf h
      exact hinv.occupy it count pos hfree h0 hlim

theorem removeItem_cases {inv : Inventory} (hwf : inv.WF) {pos : GridPosition}
    {r : Option InventorySlot} {inv1 : Inventory} (h : inv.removeItem pos = some (r, inv1)) :
    (r = none ∧ inv1 = inv ∧ ∀ s, inv.cell? pos.x pos.y = some s → ¬ s.IsAnchor) ∨
      (∃ s it, r = some s ∧ inv.cell? pos.x pos.y = some s ∧ s.item = some it ∧
        1 ≤ s.stackCount ∧ inv1 = inv.mapCells (clearFn pos it.size)) := by
  by_cases hanch : ∃ s, inv.cell? pos.x pos.y = some s ∧ s.IsAnchor
  · obtain ⟨s, hs, it, hit, hcnt⟩ := hanch
    rw [removeItem_ok hwf pos s it hs hit (by omega)] at h
    simp only [Option.some.injEq, Prod.mk.injEq] at h
    exact Or.inr ⟨s, it, h.1.symm, hs, hit, hcnt, h.2.symm⟩
  · have hall : ∀ s, inv.cell? pos.x pos.y = some s → ¬ s.IsAnchor :=
      fun s hs ha => hanch ⟨s, hs, ha⟩
    rw [removeItem_fail hwf pos fun s hs => (isEmpty_eq_true_iff s).mpr (hall s hs)] at h
    simp only [Option.some.injEq, Prod.mk.injEq] at h
    exact Or.inl ⟨h.1.symm, h.2.symm, hall⟩

theorem Inventory.GridInv.removeItem_preserves {inv : Inventory} (hinv : inv.GridInv)
    {pos : GridPosition} {r : Option InventorySlot} {inv1 : Inventory}
    (h : inv.removeItem pos = some (r, inv1)) : inv1.GridInv := by
  rcases removeItem_cases hinv.wf h with ⟨_, rfl, _⟩ | ⟨s, it, _, hs, hit, _, rfl⟩
  · exact hinv
  · exact hinv.clearAnchor pos s it hs hit

theorem Inventory.GridInv.clear_preserves {inv : Inventory} (hinv : inv.GridInv)
    {inv1 : Inventory} (h : inv.clear = some inv1) : inv1.GridInv := by
  rw [clear_eq inv hinv.wf] at h
  cases h
  exact hinv.clearAll

/-! ### The manager preserves the grid invariants -/

theorem HeapInv.update {h : Heap} (hi : HeapInv h) (i : StoreId) {inv : Inventory}
    (hinv : inv.GridInv) : HeapInv (Function.update h i inv) := by
  intro j
  by_cases hj : j = i
  · subst hj; rw [Function.update_same]; exact hinv
  · rw [Function.update_noteq hj]; exact hi j

theorem HeapInv.place_pres {h h1 : Heap} {i : StoreId} {item : Option Item} {count : Nat}
    {pos : GridPosition} {b : Bool} (hm : h.placeItem i item count pos = some (b, h1))
    (hi : HeapInv h) : HeapInv h1 := by
  unfold Heap.placeItem at hm
  split at hm
  · cases hm
  · rename_i b1 inv1 heq
    cases hm
    exact hi.update i ((hi i).placeItem_preserves heq)

theorem HeapInv.remove_pres {h h1 : Heap} {i : StoreId} {pos : GridPosition}
    {r : Option InventorySlot} (hm : h.removeItem i pos = some (r, h1))
    (hi : HeapInv h) : HeapInv h1 := by
  unfold Heap.removeItem at hm
  split at hm
  · cases hm
  · rename_i r1 inv1 heq
    cases hm
    exact hi.update i ((hi i).removeItem_preserves heq)

theorem Heap.placeItem_ne_none {h : Heap} (hi : HeapInv h) (i : StoreId) (item : Option Item)
    (count : Nat) (pos : GridPosition) : h.placeItem i item count pos ≠ none := by
  obtain ⟨b, inv1, heq⟩ := placeItem_total (hi i).wf item count pos
  unfold Heap.placeItem
  rw [heq]
  simp

theorem Heap.removeItem_ne_none {h : Heap} (hi : HeapInv h) (i : StoreId)
    (pos : GridPosition) : h.removeItem i pos ≠ none := by
  obtain ⟨r, inv1, heq⟩ := removeItem_total (hi i).wf pos
  unfold Heap.removeItem
  rw [heq]
  simp

theorem canPlaceItem_ne_none {inv : Inventory} (hwf : inv.WF) (it : Item) (pos : GridPosition) :
    inv.canPlaceItem it pos ≠ none := by
  obtain ⟨b, heq⟩ := canPlaceItem_total hwf it pos
  rw [heq]
  simp

theorem getSlot_ne_none {inv : Inventory} (hwf : inv.WF) (pos : GridPosition) :
    inv.getSlot pos ≠ none := by
  rw [getSlot_eq hwf]
  simp

theorem mergeStacks_preserves {h h1 : Heap} (hi : HeapInv h) {src dst : StoreId}
    {sourcePos destPos : GridPosition} {item : Item} {stackCount : Nat}
    {destSlot : InventorySlot} {r : OperationResult}
    (hm : mergeStacks h src sourcePos dst destPos item stackCount destSlot = some (r, h1)) :
    HeapInv h1 := by
  unfold mergeStacks at hm
  simp only at hm
  repeat' split at hm
  all_goals cases hm
  all_goals repeat (first
    | exact hi
    | refine HeapInv.place_pres (by assumption) ?_
    | refine HeapInv.remove_pres (by assumption) ?_)

theorem mergeOrNoSpace_preserves {h h1 : Heap} (hi : HeapInv h) {src dst : StoreId}
    {sourcePos destPos : GridPosition} {item : Item} {stackCount : Nat} {r : OperationResult}
    (hm : mergeOrNoSpace h src sourcePos dst destPos item stackCount = some (r, h1)) :
    HeapInv h1 := by
  unfold mergeOrNoSpace at hm
  repeat' split at hm
  all_goals first
    | exact mergeStacks_preserves hi hm
    | (cases hm; done)
    | (cases hm; exact hi)

theorem moveAfterHold_preserves {h h1 : Heap} (hi : HeapInv h) {src dst : StoreId}
    {sourcePos destPos : GridPosition} {item : Item} {stackCount : Nat}
    {tempRemoved : Option InventorySlot} {r : OperationResult}
    (hm : moveAfterHold h src sourcePos dst destPos item stackCount tempRemoved = some (r, h1)) :
    HeapInv h1 := by
  unfold moveAfterHold at hm
  cases tempRemoved with
  | none =>
    simp only [Option.isSome_none, Bool.false_eq_true, if_false] at hm
    repeat' split at hm
    all_goals first
      | exact mergeOrNoSpace_preserves hi hm
      | cases hm
    all_goals repeat (first
      | exact hi
      | refine HeapInv.remove_pres (by assumption) ?_
      | refine HeapInv.place_pres (by assumption) ?_)
  | some slot =>
    simp only [Option.isSome_some, if_true] at hm
    repeat' split at hm
    all_goals first
      | refine mergeOrNoSpace_preserves ?_ hm
      | cases hm
    all_goals repeat (first
      | exact hi
      | refine HeapInv.place_pres (by assumption) ?_)

theorem moveItem_preserves {h h1 : Heap} (hi : HeapInv h) {sourceInv destInv : Option StoreId}
    {sourcePos destPos : GridPosition} {r : OperationResult}
    (hm : moveItem h sourceInv sourcePos destInv destPos = some (r, h1)) : HeapInv h1 := by
  unfold moveItem at hm
  simp only at hm
  repeat' split at hm
  all_goals first
    | refine moveAfterHold_preserves ?_ hm
    | cases hm
  all_goals repeat (first
    | exact hi
    | refine HeapInv.remove_pres (by assumption) ?_)

theorem splitStack_preserves {h h1 : Heap} (hi : HeapInv h) {inventory : Option StoreId}
    {pos destPos : GridPosition} {amount : Int} {r : OperationResult}
    (hm : splitStack h inventory pos amount destPos = some (r, h1)) : HeapInv h1 := by
  unfold splitStack at hm
  simp only at hm
  repeat' split at hm
  all_goals cases hm
  all_goals repeat (first
    | exact hi
    | refine HeapInv.remove_pres (by assumption) ?_
    | refine HeapInv.place_pres (by assumption) ?_)

theorem Step.preserves {h h1 : Heap} (hs : Step h h1) (hi : HeapInv h) : HeapInv h1 := by
  cases hs with
  | placeItem i item count pos b _ hm => exact HeapInv.place_pres hm hi
  | removeItem i pos r _ hm => exact HeapInv.remove_pres hm hi
  | clear i inv1 hm => exact hi.update i ((hi i).clear_preserves hm)
  | moveItem src sourcePos dst destPos r _ hm => exact moveItem_preserves hi hm
  | splitStack i pos amount destPos r _ hm => exact splitStack_preserves hi hm

theorem freshHeap_inv (dims : StoreId → Int × Int)
    (hdims : ∀ i, 0 ≤ (dims i).1 ∧ 0 ≤ (dims i).2) : HeapInv (freshHeap dims) :=
  fun i => Inventory.GridInv.of_new_store (hdims i).1 (hdims i).2

theorem Reachable.heapInv {h0 h : Heap} (hr : Reachable h0 h) (h0i : HeapInv h0) :
    HeapInv h := by
  induction hr with
  | init => exact h0i
  | step h h1 _ hs ih => exact hs.preserves ih

/-! ### The operations always return on stores satisfying the invariants -/

theorem heap_canPlaceItem_ne_none {h : Heap} (hi : HeapInv h) (i : StoreId) (it : Item)
    (pos : GridPosition) : (h i).canPlaceItem it pos ≠ none :=
  canPlaceItem_ne_none (hi i).wf it pos

theorem heap_getSlot_ne_none {h : Heap} (hi : HeapInv h) (i : StoreId) (pos : GridPosition) :
    (h i).getSlot pos ≠ none :=
  getSlot_ne_none (hi i).wf pos

theorem mergeStacks_ne_none {h : Heap} (hi : HeapInv h) (src dst : StoreId)
    (sourcePos destPos : GridPosition) (item : Item) (stackCount : Nat)
    (destSlot : InventorySlot) :
    mergeStacks h src sourcePos dst destPos item stackCount destSlot ≠ none := by
  intro hm
  unfold mergeStacks at hm
  simp only at hm
  repeat' split at hm
  all_goals first
    | (cases hm; done)
    | (refine Heap.placeItem_ne_none ?_ _ _ _ _ (by assumption)
       repeat (first
         | exact hi
         | refine HeapInv.remove_pres (by assumption) ?_
         | refine HeapInv.place_pres (by assumption) ?_))
    | (refine Heap.removeItem_ne_none ?_ _ _ (by assumption)
       repeat (first
         | exact hi
         | refine HeapInv.remove_pres (by assumption) ?_))

theorem mergeOrNoSpace_ne_none {h : Heap} (hi : HeapInv h) (src dst : StoreId)
    (sourcePos destPos : GridPosition) (item : Item) (stackCount : Nat) :
    mergeOrNoSpace h src sourcePos dst destPos item stackCount ≠ none := by
  intro hm
  unfold mergeOrNoSpace at hm
  repeat' split at hm
  all_goals first
    | (cases hm; done)
    | exact mergeStacks_ne_none hi _ _ _ _ _ _ _ hm
    | exact heap_getSlot_ne_none hi _ _ (by assumption)

theorem moveAfterHold_ne_none {h : Heap} (hi : HeapInv h) (src dst : StoreId)
    (sourcePos destPos : GridPosition) (item : Item) (stackCount : Nat)
    (tempRemoved : Option InventorySlot) :
    moveAfterHold h src sourcePos dst destPos item stackCount tempRemoved ≠ none := by
  intro hm
  unfold moveAfterHold at hm
  cases tempRemoved with
  | none =>
    simp only [Option.isSome_none, Bool.false_eq_true, if_false] at hm
    repeat' split at hm
    all_goals first
      | (cases hm; done)
      | exact mergeOrNoSpace_ne_none hi _ _ _ _ _ _ hm
      | exact heap_canPlaceItem_ne_none hi _ _ _ (by assumption)
      | exact Heap.removeItem_ne_none hi _ _ (by assumption)
      | (refine Heap.placeItem_ne_none ?_ _ _ _ _ (by assumption)
         repeat (first
           | exact hi
           | refine HeapInv.remove_pres (by assumption) ?_
           | refine HeapInv.place_pres (by assumption) ?_))
  | some slot =>
    simp only [Option.isSome_some, if_true] at hm
    repeat' split at hm
    all_goals first
      | (cases hm; done)
      | (refine mergeOrNoSpace_ne_none ?_ _ _ _ _ _ _ hm
         exact HeapInv.place_pres (by assumption) hi)
      | exact heap_canPlaceItem_ne_none hi _ _ _ (by assumption)
      | (refine Heap.placeItem_ne_none ?_ _ _ _ _ (by assumption)
         repeat (first
           | exact hi
           | refine HeapInv.place_pres (by assumption) ?_))

theorem moveItem_ne_none {h : Heap} (hi : HeapInv h) (sourceInv destInv : Option StoreId)
    (sourcePos destPos : GridPosition) :
    moveItem h sourceInv sourcePos destInv destPos ≠ none := by
  intro hm
  unfold moveItem at hm
  simp only at hm
  repeat' split at hm
  all_goals first
    | (cases hm; done)
    | exact moveAfterHold_ne_none hi _ _ _ _ _ _ _ hm
    | (refine moveAfterHold_ne_none ?_ _ _ _ _ _ _ _ hm
       exact HeapInv.remove_pres (by assumption) hi)
    | exact heap_getSlot_ne_none hi _ _ (by assumption)
    | exact Heap.removeItem_ne_none hi _ _ (by assumption)

theorem splitStack_ne_none {h : Heap} (hi : HeapInv h) (inventory : Option StoreId)
    (pos : GridPosition) (amount : Int) (destPos : GridPosition) :
    splitStack h inventory pos amount destPos ≠ none := by
  intro hm
  unfold splitStack at hm
  simp only at hm
  repeat' split at hm
  all_goals first
    | (cases hm; done)
    | exact heap_getSlot_ne_none hi _ _ (by assumption)
    | exact heap_canPlaceItem_ne_none hi _ _ _ (by assumption)
    | (refine Heap.placeItem_ne_none ?_ _ _ _ _ (by assumption)
       repeat (first
         | exact hi
         | refine HeapInv.remove_pres (by assumption) ?_
         | refine HeapInv.place_pres (by assumption) ?_))
    | (refine Heap.removeItem_ne_none ?_ _ _ (by assumption)
       repeat (first
         | exact hi
         | refine HeapInv.remove_pres (by assumption) ?_
         | refine HeapInv.place_pres (by assumption) ?_))

theorem clear_ne_none {inv : Inventory} (hwf : inv.WF) : inv.clear ≠ none := by
  rw [clear_eq inv hwf]
  simp

/-! ### Claims about reachable states -/

theorem sampleHeap_reachable : Reachable (freshHeap fun _ => (3, 2)) sampleHeap :=
  Reachable.step _ _ Reachable.init (Step.placeItem _ 0 (some starkonja) 1 ⟨0, 0⟩ true _ rfl)

/-- C3: in every state reachable from freshly constructed stores by any sequence of
`placeItem`, `removeItem`, `clear`, `moveItem` and `splitStack` calls, in every store: no two
anchors' footprints share a cell; every anchor's footprint lies inside the grid; every
non-anchor cell of an anchor's footprint is a covered cell; every covered cell lies in the
footprint of exactly one anchor; every cell outside all footprints is empty.  Moreover every
one of these operations returns when called in such a state. -/
theorem reachable_footprint_invariants (dims : StoreId → Int × Int)
    (hdims : ∀ i, 0 ≤ (dims i).1 ∧ 0 ≤ (dims i).2) (h : Heap)
    (hr : Reachable (freshHeap dims) h) (i : StoreId) :
    (∀ ax ay sa ita cx cy sc itc x y,
        (h i).cell? ax ay = some sa → sa.item = some ita →
        (h i).cell? cx cy = some sc → sc.item = some itc →
        inRect ⟨ax, ay⟩ ita.size x y → inRect ⟨cx, cy⟩ itc.size x y → ax = cx ∧ ay = cy) ∧
      (∀ x y s it, (h i).cell? x y = some s → s.item = some it →
        0 ≤ x ∧ 0 ≤ y ∧ x + it.size.width ≤ (h i).width_ ∧
          y + it.size.height ≤ (h i).height_) ∧
      (∀ x y s it, (h i).cell? x y = some s → s.item = some it →
        s.isOccupied = false ∧ inRect ⟨x, y⟩ it.size x y ∧
          ∀ x1 y1, inRect ⟨x, y⟩ it.size x1 y1 → ¬ (x1 = x ∧ y1 = y) →
            ∃ s1, (h i).cell? x1 y1 = some s1 ∧ s1.item = none ∧ s1.stackCount = 0 ∧
              s1.isOccupied = true) ∧
      (∀ x y s, (h i).cell? x y = some s → s.isOccupied = true →
        ∃ a : Int × Int,
          (∃ sa ita, (h i).cell? a.1 a.2 = some sa ∧ sa.item = some ita ∧
            inRect ⟨a.1, a.2⟩ ita.size x y) ∧
          ∀ c : Int × Int,
            (∃ sc itc, (h i).cell? c.1 c.2 = some sc ∧ sc.item = some itc ∧
              inRect ⟨c.1, c.2⟩ itc.size x y) → c = a) ∧
      (∀ x y s, (h i).cell? x y = some s →
        (¬ ∃ ax ay sa ita, (h i).cell? ax ay = some sa ∧ sa.item = some ita ∧
          inRect ⟨ax, ay⟩ ita.size x y) →
        s.item = none ∧ s.stackCount = 0 ∧ s.isOccupied = false) ∧
      ((∀ j item count pos, h.placeItem j item count pos ≠ none) ∧
        (∀ j pos, h.removeItem j pos ≠ none) ∧
        (∀ j, (h j).clear ≠ none) ∧
        (∀ src sourcePos dst destPos, moveItem h src sourcePos dst destPos ≠ none) ∧
        (∀ j pos amount destPos, splitStack h j pos amount destPos ≠ none)) := by
  have hi : HeapInv h := hr.heapInv (freshHeap_inv dims hdims)
  have hinv := hi i
  refine ⟨hinv.disjoint, ?_, ?_, ?_, ?_, ?_⟩
  · intro x y s it hs hit
    have hv := (isPositionValid_mk_iff _ _ _).mp (hinv.wf.valid_of_cell hs)
    have hin := hinv.inside x y s it hs hit
    exact ⟨hv.1, hv.2.2.1, hin.1, hin.2⟩
  · intro x y s it hs hit
    refine ⟨hinv.anchorFlag x y s it hs hit, hinv.anchor_inRect hs hit, ?_⟩
    intro x1 y1 hin hne
    obtain ⟨s1, hs1, hi1, ho1⟩ := hinv.footprint x y s it hs hit x1 y1 hin hne
    exact ⟨s1, hs1, hi1, hinv.noItem x1 y1 s1 hs1 hi1, ho1⟩
  · intro x y s hs hocc
    obtain ⟨ax, ay, sa, ita, hsa, hia, hin⟩ := hinv.covered x y s hs hocc
    refine ⟨(ax, ay), ⟨sa, ita, hsa, hia, hin⟩, ?_⟩
    rintro ⟨cx, cy⟩ ⟨sc, itc, hsc, hic, hinc⟩
    obtain ⟨h1, h2⟩ := hinv.disjoint cx cy sc itc ax ay sa ita x y hsc hic hsa hia hinc hin
    simp only [Prod.mk.injEq]
    exact ⟨h1, h2⟩
  · intro x y s hs hnone
    have hitem : s.item = none := by
      cases hit : s.item with
      | none => rfl
      | some it => exact absurd ⟨x, y, s, it, hs, hit, hinv.anchor_inRect hs hit⟩ hnone
    refine ⟨hitem, hinv.noItem x y s hs hitem, ?_⟩
    cases hocc : s.isOccupied with
    | false => rfl
    | true => exact absurd (hinv.covered x y s hs hocc) hnone
  · exact ⟨fun j item count pos => Heap.placeItem_ne_none hi j item count pos,
      fun j pos => Heap.removeItem_ne_none hi j pos,
      fun j => clear_ne_none (hi j).wf,
      fun src sourcePos dst destPos => moveItem_ne_none hi src dst sourcePos destPos,
      fun j pos amount destPos => splitStack_ne_none hi j pos amount destPos⟩

theorem reachable_footprint_invariants_witness :
    (∀ i : StoreId, 0 ≤ ((fun _ => ((3 : Int), (2 : Int))) i).1 ∧
        0 ≤ ((fun _ => ((3 : Int), (2 : Int))) i).2) ∧
      Reachable (freshHeap fun _ => (3, 2)) sampleHeap ∧
      (∀ x y s it, (sampleHeap 0).cell? x y = some s → s.item = some it →
        0 ≤ x ∧ 0 ≤ y ∧ x + it.size.width ≤ (sampleHeap 0).width_ ∧
          y + it.size.height ≤ (sampleHeap 0).height_) ∧
      (∀ src sourcePos dst destPos, moveItem sampleHeap src sourcePos dst destPos ≠ none) :=
  ⟨fun _ => ⟨by show (0 : Int) ≤ 3; decide, by show (0 : Int) ≤ 2; decide⟩,
    sampleHeap_reachable,
    (reachable_footprint_invariants (fun _ => (3, 2))
      (fun _ => ⟨by show (0 : Int) ≤ 3; decide, by show (0 : Int) ≤ 2; decide⟩) sampleHeap
      sampleHeap_reachable 0).2.1,
    (reachable_footprint_invariants (fun _ => (3, 2))
      (fun _ => ⟨by show (0 : Int) ≤ 3; decide, by show (0 : Int) ≤ 2; decide⟩) sampleHeap
      sampleHeap_reachable 0).2.2.2.2.2.2.2.2.1⟩

/-- C4: in every state reachable from freshly constructed stores by any sequence of
`placeItem`, `removeItem`, `clear`, `moveItem` (merge path included) and `splitStack` calls,
every cell that holds an item reference has a stack count between 1 and that item's stack
limit, and every cell without an item reference has stack count 0. -/
theorem reachable_stack_counts (dims : StoreId → Int × Int)
    (hdims : ∀ i, 0 ≤ (dims i).1 ∧ 0 ≤ (dims i).2) (h : Heap)
    (hr : Reachable (freshHeap dims) h) (i : StoreId) (x y : Int) (s : InventorySlot)
    (hs : (h i).cell? x y = some s) :
    (∀ it, s.item = some it → 1 ≤ s.stackCount ∧ s.stackCount ≤ it.stackLimit) ∧
      (s.item = none → s.stackCount = 0) := by
  have hinv : (h i).GridInv := hr.heapInv (freshHeap_inv dims hdims) i
  exact ⟨fun it hit => hinv.count x y s it hs hit, fun hit => hinv.noItem x y s hs hit⟩

theorem reachable_stack_counts_witness :
    (∀ i : StoreId, 0 ≤ ((fun _ => ((3 : Int), (2 : Int))) i).1 ∧
        0 ≤ ((fun _ => ((3 : Int), (2 : Int))) i).2) ∧
      Reachable (freshHeap fun _ => (3, 2)) sampleHeap ∧
      (sampleHeap 0).cell? 0 0 = some (setAnchor (some starkonja) 1 (freshSlot 0 0)) ∧
      ((∀ it, (setAnchor (some starkonja) 1 (freshSlot 0 0)).item = some it →
          1 ≤ (setAnchor (some starkonja) 1 (freshSlot 0 0)).stackCount ∧
            (setAnchor (some starkonja) 1 (freshSlot 0 0)).stackCount ≤ it.stackLimit) ∧
        ((setAnchor (some starkonja) 1 (freshSlot 0 0)).item = none →
          (setAnchor (some starkonja) 1 (freshSlot 0 0)).stackCount = 0)) :=
  ⟨fun _ => ⟨by show (0 : Int) ≤ 3; decide, by show (0 : Int) ≤ 2; decide⟩,
    sampleHeap_reachable, by decide,
    reachable_stack_counts (fun _ => (3, 2))
      (fun _ => ⟨by show (0 : Int) ≤ 3; decide, by show (0 : Int) ≤ 2; decide⟩) sampleHeap
      sampleHeap_reachable 0 0 0 _ (by decide)⟩

/-! ### Moves: the direct path -/

theorem heap_removeItem_ok {h : Heap} {i : StoreId} (hwf : (h i).WF) (pos : GridPosition)
    (s : InventorySlot) (it : Item) (hs : (h i).cell? pos.x pos.y = some s)
    (hit : s.item = some it) (hcnt : s.stackCount ≠ 0) :
    h.removeItem i pos =
      some (some s, Function.update h i ((h i).mapCells (clearFn pos it.size))) := by
  unfold Heap.removeItem
  rw [removeItem_ok hwf pos s it hs hit hcnt]

theorem heap_removeItem_fail {h : Heap} {i : StoreId} (hwf : (h i).WF) (pos : GridPosition)
    (hs : ∀ s, (h i).cell? pos.x pos.y = some s → s.isEmpty = true) :
    h.removeItem i pos = some (none, h) := by
  unfold Heap.removeItem
  rw [removeItem_fail hwf pos hs]
  simp

theorem heap_placeItem_ok {h : Heap} {i : StoreId} (hwf : (h i).WF) (it : Item) (count : Nat)
    (pos : GridPosition) (hfree : AreaFree (h i) pos it.size) (h0 : count ≠ 0)
    (hlim : count ≤ it.stackLimit) :
    h.placeItem i (some it) count pos =
      some (true, Function.update h i ((h i).mapCells (occupyFn pos it.size (some it) count))) := by
  unfold Heap.placeItem
  rw [placeItem_ok hwf it count pos hfree h0 hlim]

theorem heap_placeItem_fail {h : Heap} {i : StoreId} (hwf : (h i).WF) (it : Item) (count : Nat)
    (pos : GridPosition)
    (hbad : count = 0 ∨ count > it.stackLimit ∨ ¬ AreaFree (h i) pos it.size) :
    h.placeItem i (some it) count pos = some (false, h) := by
  unfold Heap.placeItem
  rw [placeItem_fail hwf it count pos hbad]
  simp

/-- The boxes of two positions overlap as soon as they share a cell. -/
theorem boxesOverlap_of_common {sourcePos destPos : GridPosition} {size : ItemSize}
    {x y : Int} (h1 : inRect sourcePos size x y) (h2 : inRect destPos size x y) :
    boxesOverlap sourcePos destPos size = true := by
  unfold inRect at h1 h2
  unfold boxesOverlap
  simp only [Bool.not_eq_true', Bool.or_eq_false_iff, decide_eq_false_iff_not, not_lt, gt_iff_lt]
  omega

/-- Two overlapping boxes of the same size share a cell. -/
theorem common_of_boxesOverlap {sourcePos destPos : GridPosition} {size : ItemSize}
    (h : boxesOverlap sourcePos destPos size = true) :
    ∃ x y, inRect sourcePos size x y ∧ inRect destPos size x y := by
  unfold boxesOverlap at h
  simp only [Bool.not_eq_true', Bool.or_eq_false_iff, decide_eq_false_iff_not, not_lt,
    gt_iff_lt] at h
  refine ⟨max sourcePos.x destPos.x, max sourcePos.y destPos.y, ?_, ?_⟩ <;>
    unfold inRect <;> omega

/-- Removing an anchor and placing the same item and count back at the same position gives
the original store. -/
theorem restore_anchor {inv : Inventory} (hinv : inv.GridInv) (pos : GridPosition)
    (s : InventorySlot) (it : Item) (hs : inv.cell? pos.x pos.y = some s)
    (hit : s.item = some it) :
    (inv.mapCells (clearFn pos it.size)).mapCells
        (occupyFn pos it.size (some it) s.stackCount) = inv := by
  rw [mapCells_mapCells]
  apply mapCells_id
  intro x y c hc
  unfold occupyFn clearFn
  by_cases hxy : inRect pos it.size x y
  · simp only [hxy, if_true]
    by_cases ha : x = pos.x ∧ y = pos.y
    · obtain ⟨rfl, rfl⟩ := ha
      rw [hs] at hc
      cases hc
      have hf := hinv.anchorFlag _ _ s it hs hit
      simp only [and_self, if_true, setAnchor, setCleared]
      cases s
      simp_all
    · obtain ⟨c1, hc1, hi1, ho1⟩ := hinv.footprint _ _ s it hs hit x y hxy ha
      rw [hc] at hc1
      cases hc1
      have hz := hinv.noItem x y c hc hi1
      simp only [ha, if_false, setCovered, setCleared]
      cases c
      simp_all
  · simp only [hxy, if_false]

/-- After an anchor is removed its whole footprint is free. -/
theorem areaFree_after_clear {inv : Inventory} (hinv : inv.GridInv) (pos : GridPosition)
    (s : InventorySlot) (it : Item) (hs : inv.cell? pos.x pos.y = some s)
    (hit : s.item = some it) : AreaFree (inv.mapCells (clearFn pos it.size)) pos it.size := by
  intro x y hxy
  have hin := hinv.inside _ _ s it hs hit
  have hv0 := (isPositionValid_mk_iff _ _ _).mp (hinv.wf.valid_of_cell hs)
  have hv : inv.isPositionValid ⟨x, y⟩ = true := by
    rw [isPositionValid_mk_iff]
    unfold inRect at hxy
    omega
  obtain ⟨c, hc⟩ := hinv.wf.cell_of_valid hv
  refine ⟨_, cell?_mapCells_of_cell hc, ?_, ?_⟩ <;> simp [clearFn, hxy, setCleared,
    InventorySlot.isEmpty]

/-- The store `dst` after the source anchor has been removed from store `src`. -/
theorem areaFree_after_hold {h : Heap} {src dst : StoreId} {sourcePos destPos : GridPosition}
    {item : Item}
    (hfit : ∀ x y, inRect destPos item.size x y →
      ∃ c, (h dst).cell? x y = some c ∧
        ((c.isEmpty = true ∧ c.isOccupied = false) ∨
          (src = dst ∧ inRect sourcePos item.size x y))) :
    AreaFree
      ((Function.update h src ((h src).mapCells (clearFn sourcePos item.size))) dst)
      destPos item.size := by
  intro x y hxy
  obtain ⟨c, hc, hcase⟩ := hfit x y hxy
  by_cases hsd : dst = src
  · subst hsd
    rw [Function.update_same]
    refine ⟨_, cell?_mapCells_of_cell hc, ?_⟩
    unfold clearFn
    by_cases hin : inRect sourcePos item.size x y
    · simp [hin, setCleared, InventorySlot.isEmpty]
    · rcases hcase with hfree | ⟨_, hin2⟩
      · simpa [hin] using hfree
      · exact absurd hin2 hin
  · rw [Function.update_noteq hsd]
    rcases hcase with hfree | ⟨heq, _⟩
    · exact ⟨c, hc, hfree⟩
    · exact absurd heq.symm hsd

theorem moveItem_direct_eq (h : Heap) (src dst : StoreId) (sourcePos destPos : GridPosition)
    (s : InventorySlot) (item : Item) (hsrc : (h src).GridInv) (hdst : (h dst).GridInv)
    (hs : (h src).cell? sourcePos.x sourcePos.y = some s) (hitem : s.item = some item)
    (hfit : ∀ x y, inRect destPos item.size x y →
      ∃ c, (h dst).cell? x y = some c ∧
        ((c.isEmpty = true ∧ c.isOccupied = false) ∨
          (src = dst ∧ inRect sourcePos item.size x y))) :
    moveItem h (some src) sourcePos (some dst) destPos =
      some (.SUCCESS,
        Function.update
          (Function.update h src ((h src).mapCells (clearFn sourcePos item.size))) dst
          (((Function.update h src ((h src).mapCells (clearFn sourcePos item.size))) dst).mapCells
            (occupyFn destPos item.size (some item) s.stackCount))) := by
  have hcnt := hsrc.count _ _ s item hs hitem
  have hfree1 := areaFree_after_hold hfit
  have hwf1 : ((Function.update h src
      ((h src).mapCells (clearFn sourcePos item.size))) dst).WF := by
    by_cases hsd : dst = src
    · subst hsd
      rw [Function.update_same]
      exact hdst.wf.mapCells _ (clearFn_position _ _)
    · rw [Function.update_noteq hsd]
      exact hdst.wf
  have hrem := heap_removeItem_ok hsrc.wf sourcePos s item hs hitem (by omega)
  have hplace := heap_placeItem_ok hwf1 item s.stackCount destPos hfree1 (by omega) hcnt.2
  unfold moveItem
  simp only [getSlot_eq hsrc.wf, hs, hitem]
  by_cases hov : (decide (src = dst) && boxesOverlap sourcePos destPos item.size) = true
  · simp only [hov, if_true, hrem]
    unfold moveAfterHold
    simp only [canPlaceItem_of_free hwf1 item destPos hfree1, Option.isSome_some, if_true,
      hplace]
  · simp only [hov, if_false]
    have hfree0 : AreaFree (h dst) destPos item.size := by
      intro x y hxy
      obtain ⟨c, hc, hcase⟩ := hfit x y hxy
      rcases hcase with hfree | ⟨heq, hin⟩
      · exact ⟨c, hc, hfree⟩
      · exfalso
        apply hov
        simp only [heq, decide_True, Bool.true_and]
        exact boxesOverlap_of_common hin hxy
    unfold moveAfterHold
    simp only [canPlaceItem_of_free hdst.wf item destPos hfree0, Option.isSome_none,
      Bool.false_eq_true, if_false, hrem, hplace]

theorem cell?_occupy_outside (inv : Inventory) {pos : GridPosition} {size : ItemSize}
    (item : Option Item) (count : Nat) {x y : Int} (hxy : ¬ inRect pos size x y) :
    (inv.mapCells (occupyFn pos size item count)).cell? x y = inv.cell? x y := by
  rw [cell?_mapCells]
  cases inv.cell? x y with
  | none => rfl
  | some c => simp [occupyFn, hxy]

theorem cell?_clear_outside (inv : Inventory) {pos : GridPosition} {size : ItemSize}
    {x y : Int} (hxy : ¬ inRect pos size x y) :
    (inv.mapCells (clearFn pos size)).cell? x y = inv.cell? x y := by
  rw [cell?_mapCells]
  cases inv.cell? x y with
  | none => rfl
  | some c => simp [clearFn, hxy]

/-- C9: for stores satisfying the grid invariants and a source anchor `(item, n)` at
`sourcePos`: if every cell of the item's footprint anchored at `destPos` is inside the
destination grid and is either empty and uncovered or, when source and destination are the
same store, a cell of the moved item's own footprint, then `moveItem` returns `SUCCESS`;
afterwards the destination store has the anchor `(item, n)` at `destPos` with the rest of
that footprint covered, every source-footprint cell outside the destination footprint is
empty, and all other cells of all stores are unchanged; moving an item to its own position
leaves the heap unchanged. -/
theorem moveItem_direct_success (h : Heap) (src dst : StoreId)
    (sourcePos destPos : GridPosition) (s : InventorySlot) (item : Item)
    (hsrc : (h src).GridInv) (hdst : (h dst).GridInv)
    (hs : (h src).cell? sourcePos.x sourcePos.y = some s) (hitem : s.item = some item)
    (hfit : ∀ x y, inRect destPos item.size x y →
      ∃ c, (h dst).cell? x y = some c ∧
        ((c.isEmpty = true ∧ c.isOccupied = false) ∨
          (src = dst ∧ inRect sourcePos item.size x y))) :
    ∃ h1, moveItem h (some src) sourcePos (some dst) destPos = some (.SUCCESS, h1) ∧
      (∃ c, (h1 dst).cell? destPos.x destPos.y = some c ∧ c.item = some item ∧
        c.stackCount = s.stackCount ∧ c.isOccupied = false) ∧
      (∀ x y, inRect destPos item.size x y → ¬ (x = destPos.x ∧ y = destPos.y) →
        ∃ c, (h1 dst).cell? x y = some c ∧ c.item = none ∧ c.stackCount = 0 ∧
          c.isOccupied = true) ∧
      (∀ x y, inRect sourcePos item.size x y → ¬ (src = dst ∧ inRect destPos item.size x y) →
        ∃ c, (h1 src).cell? x y = some c ∧ c.item = none ∧ c.stackCount = 0 ∧
          c.isOccupied = false) ∧
      (∀ j x y, ¬ (j = src ∧ inRect sourcePos item.size x y) →
        ¬ (j = dst ∧ inRect destPos item.size x y) → (h1 j).cell? x y = (h j).cell? x y) ∧
      (src = dst → destPos = sourcePos → h1 = h) := by
  refine ⟨_, moveItem_direct_eq h src dst sourcePos destPos s item hsrc hdst hs hitem hfit,
    ?_, ?_, ?_, ?_, ?_⟩
  · have hsz := hsrc.size _ _ s item hs hitem
    have hin : inRect destPos item.size destPos.x destPos.y := by
      unfold inRect; omega
    obtain ⟨c0, hc0, _⟩ := areaFree_after_hold hfit destPos.x destPos.y hin
    rw [Function.update_same]
    refine ⟨_, cell?_mapCells_of_cell hc0, ?_⟩
    simp [occupyFn, hin, setAnchor]
  · intro x y hin hne
    obtain ⟨c0, hc0, _⟩ := areaFree_after_hold hfit x y hin
    rw [Function.update_same]
    refine ⟨_, cell?_mapCells_of_cell hc0, ?_⟩
    simp [occupyFn, hin, hne, setCovered]
  · intro x y hin hout
    have hinside := hsrc.inside _ _ s item hs hitem
    have hv0 := (isPositionValid_mk_iff _ _ _).mp (hsrc.wf.valid_of_cell hs)
    have hv : (h src).isPositionValid ⟨x, y⟩ = true := by
      rw [isPositionValid_mk_iff]
      unfold inRect at hin
      omega
    obtain ⟨c0, hc0⟩ := hsrc.wf.cell_of_valid hv
    have hcl : ((h src).mapCells (clearFn sourcePos item.size)).cell? x y =
        some (setCleared c0) := by
      rw [cell?_mapCells_of_cell hc0]
      simp [clearFn, hin]
    by_cases hsd : src = dst
    · subst hsd
      have hnd : ¬ inRect destPos item.size x y := fun hd => hout ⟨rfl, hd⟩
      rw [Function.update_same, Function.update_same, cell?_occupy_outside _ _ _ hnd]
      exact ⟨_, hcl, rfl, rfl, rfl⟩
    · rw [Function.update_noteq hsd, Function.update_same]
      exact ⟨_, hcl, rfl, rfl, rfl⟩
  · intro j x y hns hnd
    by_cases hjd : j = dst
    · subst hjd
      have hnd2 : ¬ inRect destPos item.size x y := fun hd => hnd ⟨rfl, hd⟩
      rw [Function.update_same, cell?_occupy_outside _ _ _ hnd2]
      by_cases hjs : j = src
      · subst hjs
        have hns2 : ¬ inRect sourcePos item.size x y := fun hd => hns ⟨rfl, hd⟩
        rw [Function.update_same, cell?_clear_outside _ hns2]
      · rw [Function.update_noteq hjs]
    · rw [Function.update_noteq hjd]
      by_cases hjs : j = src
      · subst hjs
        have hns2 : ¬ inRect sourcePos item.size x y := fun hd => hns ⟨rfl, hd⟩
        rw [Function.update_same, cell?_clear_outside _ hns2]
      · rw [Function.update_noteq hjs]
  · intro hsd hpos
    subst hsd
    subst hpos
    rw [Function.update_same, Function.update_idem, restore_anchor hsrc _ s item hs hitem,
      Function.update_eq_self]

theorem sampleHeap_inv : HeapInv sampleHeap :=
  sampleHeap_reachable.heapInv
    (freshHeap_inv _ fun _ => ⟨by show (0 : Int) ≤ 3; decide, by show (0 : Int) ≤ 2; decide⟩)

theorem moveItem_direct_success_witness :
    (sampleHeap 0).GridInv ∧
      (sampleHeap 0).cell? 0 0 = some (setAnchor (some starkonja) 1 (freshSlot 0 0)) ∧
      (∀ x y, inRect ⟨1, 0⟩ starkonja.size x y →
        ∃ c, (sampleHeap 0).cell? x y = some c ∧
          ((c.isEmpty = true ∧ c.isOccupied = false) ∨
            ((0 : StoreId) = 0 ∧ inRect ⟨0, 0⟩ starkonja.size x y))) ∧
      ∃ h1, moveItem sampleHeap (some 0) ⟨0, 0⟩ (some 0) ⟨1, 0⟩ = some (.SUCCESS, h1) ∧
        ∃ c, (h1 0).cell? 1 0 = some c ∧ c.item = some starkonja ∧ c.stackCount = 1 ∧
          c.isOccupied = false := by
  have hfit : ∀ x y, inRect ⟨1, 0⟩ starkonja.size x y →
      ∃ c, (sampleHeap 0).cell? x y = some c ∧
        ((c.isEmpty = true ∧ c.isOccupied = false) ∨
          ((0 : StoreId) = 0 ∧ inRect ⟨0, 0⟩ starkonja.size x y)) := by
    intro x y hxy
    have hcases : (x = 1 ∨ x = 2) ∧ (y = 0 ∨ y = 1) := by
      unfold inRect at hxy
      change 1 ≤ x ∧ x < 1 + 2 ∧ 0 ≤ y ∧ y < 0 + 2 at hxy
      omega
    rcases hcases with ⟨rfl | rfl, rfl | rfl⟩
    · exact ⟨_, rfl, Or.inr ⟨rfl, by decide⟩⟩
    · exact ⟨_, rfl, Or.inr ⟨rfl, by decide⟩⟩
    · exact ⟨_, rfl, Or.inl ⟨rfl, rfl⟩⟩
    · exact ⟨_, rfl, Or.inl ⟨rfl, rfl⟩⟩
  obtain ⟨h1, hm, hanchor, _⟩ :=
    moveItem_direct_success sampleHeap 0 0 ⟨0, 0⟩ ⟨1, 0⟩
      (setAnchor (some starkonja) 1 (freshSlot 0 0)) starkonja (sampleHeap_inv 0)
      (sampleHeap_inv 0) (by decide) rfl hfit
  exact ⟨sampleHeap_inv 0, by decide, hfit, h1, hm, hanchor⟩

/-! ### Moves: failure paths and rollback -/

theorem AreaFree.after_clear {inv : Inventory} {pos : GridPosition} {size : ItemSize}
    (hfree : AreaFree inv pos size) (q : GridPosition) (sz : ItemSize) :
    AreaFree (inv.mapCells (clearFn q sz)) pos size := by
  intro x y hxy
  obtain ⟨c, hc, he, ho⟩ := hfree x y hxy
  refine ⟨_, cell?_mapCells_of_cell hc, ?_⟩
  unfold clearFn
  by_cases hin : inRect q sz x y
  · simp [hin, setCleared, InventorySlot.isEmpty]
  · simp [hin, he, ho]

theorem AreaFree.after_occupy {inv : Inventory} {pos : GridPosition} {size : ItemSize}
    (hfree : AreaFree inv pos size) (q : GridPosition) (sz : ItemSize) (item : Option Item)
    (count : Nat) (hdisj : ∀ x y, inRect pos size x y → ¬ inRect q sz x y) :
    AreaFree (inv.mapCells (occupyFn q sz item count)) pos size := by
  intro x y hxy
  obtain ⟨c, hc, he, ho⟩ := hfree x y hxy
  refine ⟨c, ?_, he, ho⟩
  rw [cell?_occupy_outside _ _ _ (hdisj x y hxy)]
  exact hc

theorem clear_occupy_comm (inv : Inventory) (p q : GridPosition) (sp sq : ItemSize)
    (item : Option Item) (count : Nat)
    (hdisj : ∀ x y, inRect p sp x y → ¬ inRect q sq x y) :
    (inv.mapCells (clearFn q sq)).mapCells (occupyFn p sp item count) =
      (inv.mapCells (occupyFn p sp item count)).mapCells (clearFn q sq) := by
  rw [mapCells_mapCells, mapCells_mapCells]
  apply mapCells_congr
  intro x y c _
  unfold clearFn occupyFn
  by_cases hp : inRect p sp x y
  · simp [hp, hdisj x y hp]
  · simp [hp]

/-- The footprints of two anchors at different positions share no cell. -/
theorem Inventory.GridInv.footprints_disjoint {inv : Inventory} (hinv : inv.GridInv)
    {p q : GridPosition} {s c : InventorySlot} {a b : Item}
    (hs : inv.cell? p.x p.y = some s) (ha : s.item = some a)
    (hc : inv.cell? q.x q.y = some c) (hb : c.item = some b) (hne : p ≠ q) :
    ∀ x y, inRect p a.size x y → ¬ inRect q b.size x y := by
  intro x y h1 h2
  obtain ⟨e1, e2⟩ := hinv.disjoint p.x p.y s a q.x q.y c b x y hs ha hc hb h1 h2
  apply hne
  cases p
  cases q
  simp_all

theorem rollback_same_store {inv : Inventory} (hinv : inv.GridInv) {p q : GridPosition}
    {s c : InventorySlot} {a b : Item}
    (hs : inv.cell? p.x p.y = some s) (ha : s.item = some a)
    (hc : inv.cell? q.x q.y = some c) (hb : c.item = some b) (hne : p ≠ q) :
    (((inv.mapCells (clearFn p a.size)).mapCells (clearFn q b.size)).mapCells
        (occupyFn p a.size (some a) s.stackCount)).mapCells
        (occupyFn q b.size (some b) c.stackCount) = inv := by
  rw [clear_occupy_comm _ p q a.size b.size _ _ (hinv.footprints_disjoint hs ha hc hb hne),
    restore_anchor hinv p s a hs ha, restore_anchor hinv q c b hc hb]

theorem heap_placeItem_total {h : Heap} {i : StoreId} (hwf : (h i).WF) (item : Option Item)
    (count : Nat) (pos : GridPosition) :
    ∃ b h1, h.placeItem i item count pos = some (b, h1) := by
  obtain ⟨b, inv1, heq⟩ := placeItem_total hwf item count pos
  unfold Heap.placeItem
  rw [heq]
  exact ⟨b, _, rfl⟩

theorem Heap.placeItem_ne_none_of_wf {h : Heap} {i : StoreId} (hwf : (h i).WF)
    (item : Option Item) (count : Nat) (pos : GridPosition) :
    h.placeItem i item count pos ≠ none := by
  obtain ⟨b, h1, heq⟩ := heap_placeItem_total hwf item count pos
  rw [heq]
  simp

theorem Heap.placeItem_false_eq {h h1 : Heap} {i : StoreId} (hwf : (h i).WF)
    {item : Option Item} {count : Nat} {pos : GridPosition}
    (hm : h.placeItem i item count pos = some (false, h1)) : h1 = h := by
  unfold Heap.placeItem at hm
  split at hm
  · cases hm
  · rename_i b inv1 heq
    simp only [Option.some.injEq, Prod.mk.injEq] at hm
    obtain ⟨rfl, rfl⟩ := hm
    rw [placeItem_false_inv hwf heq, Function.update_eq_self]

theorem Heap.placeItem_wf {h h1 : Heap} {i : StoreId} (hwf : (h i).WF)
    {item : Option Item} {count : Nat} {pos : GridPosition} {b : Bool}
    (hm : h.placeItem i item count pos = some (b, h1)) (j : StoreId) (hj : (h j).WF) :
    (h1 j).WF := by
  unfold Heap.placeItem at hm
  split at hm
  · cases hm
  · rename_i b1 inv1 heq
    simp only [Option.some.injEq, Prod.mk.injEq] at hm
    obtain ⟨rfl, rfl⟩ := hm
    by_cases hji : j = i
    · subst hji
      rw [Function.update_same]
      cases b1 with
      | false => rw [placeItem_false_inv hwf heq]; exact hwf
      | true =>
        cases item with
        | none => simp [Inventory.placeItem] at heq
        | some it =>
          obtain ⟨_, _, _, rfl⟩ := placeItem_true_inv hwf heq
          exact hwf.mapCells _ (occupyFn_position _ _ _ _)
    · rw [Function.update_noteq hji]
      exact hj

theorem mergeStacks_same_store (h : Heap) (i : StoreId) (sp dp : GridPosition) (item : Item)
    (s ds : InventorySlot) (hinv : (h i).GridInv)
    (hs : (h i).cell? sp.x sp.y = some s) (hitem : s.item = some item)
    (hds : (h i).cell? dp.x dp.y = some ds) (hditem : ds.item = some item) (hne : sp ≠ dp) :
    MoveOutcome h (mergeStacks h i sp i dp item s.stackCount ds) := by
  have hcs := hinv.count _ _ s item hs hitem
  have hcd := hinv.count _ _ ds item hds hditem
  have hdisj := hinv.footprints_disjoint hs hitem hds hditem hne
  have hX1 := hinv.clearAnchor sp s item hs hitem
  have hdsX1 : ((h i).mapCells (clearFn sp item.size)).cell? dp.x dp.y = some ds :=
    clear_keep hds fun hin => hdisj _ _ hin (hinv.anchor_inRect hds hditem)
  have hX2 := hX1.clearAnchor dp ds item hdsX1 hditem
  have free2d := areaFree_after_clear hX1 dp ds item hdsX1 hditem
  have free2s := (areaFree_after_clear hinv sp s item hs hitem).after_clear dp item.size
  have e1 := heap_removeItem_ok hinv.wf sp s item hs hitem (by omega)
  have e2 := heap_removeItem_ok (h := Function.update h i ((h i).mapCells (clearFn sp item.size)))
    (i := i) (by rw [Function.update_same]; exact hX1.wf) dp ds item
    (by rw [Function.update_same]; exact hdsX1) hditem (by omega)
  rw [Function.update_same, Function.update_idem] at e2
  have hwf2 : ((Function.update h i (((h i).mapCells (clearFn sp item.size)).mapCells
      (clearFn dp item.size))) i).WF := by
    rw [Function.update_same]; exact hX2.wf
  have e4 := heap_placeItem_ok hwf2 item s.stackCount sp
    (by rw [Function.update_same]; exact free2s) (by omega) hcs.2
  rw [Function.update_same, Function.update_idem] at e4
  have hwf3 : ((Function.update h i ((((h i).mapCells (clearFn sp item.size)).mapCells
      (clearFn dp item.size)).mapCells (occupyFn sp item.size (some item) s.stackCount))) i).WF := by
    rw [Function.update_same]; exact hX2.wf.mapCells _ (occupyFn_position _ _ _ _)
  have e5 := heap_placeItem_ok hwf3 item ds.stackCount dp
    (by
      rw [Function.update_same]
      exact free2d.after_occupy sp item.size _ _ fun x y hd hsrc => hdisj x y hsrc hd)
    (by omega) hcd.2
  rw [Function.update_same, Function.update_idem,
    rollback_same_store hinv hs hitem hds hditem hne, Function.update_eq_self] at e5
  unfold mergeStacks
  simp only [e1, e2]
  split
  · rename_i heq
    exact absurd heq (Heap.placeItem_ne_none_of_wf hwf2 _ _ _)
  · rename_i h3 heq
    have h3eq := Heap.placeItem_false_eq hwf2 heq
    subst h3eq
    simp only [e4, e5]
    exact ⟨_, _, rfl, Or.inr ⟨Or.inl rfl, rfl⟩⟩
  · rename_i h3 heq
    have hwf4 := Heap.placeItem_wf hwf2 heq i hwf2
    split
    · split
      · rename_i heq2
        exact absurd heq2 (Heap.placeItem_ne_none_of_wf hwf4 _ _ _)
      · exact ⟨_, _, rfl, Or.inl rfl⟩
    · exact ⟨_, _, rfl, Or.inl rfl⟩

theorem mergeStacks_cross_store (h : Heap) (src dst : StoreId) (sp dp : GridPosition)
    (item : Item) (s ds : InventorySlot) (hsrc : (h src).GridInv) (hdst : (h dst).GridInv)
    (hs : (h src).cell? sp.x sp.y = some s) (hitem : s.item = some item)
    (hds : (h dst).cell? dp.x dp.y = some ds) (hditem : ds.item = some item)
    (hsd : src ≠ dst) :
    MoveOutcome h (mergeStacks h src sp dst dp item s.stackCount ds) := by
  have hds' : dst ≠ src := fun e => hsd e.symm
  have hcs := hsrc.count _ _ s item hs hitem
  have hcd := hdst.count _ _ ds item hds hditem
  have hX1 := hsrc.clearAnchor sp s item hs hitem
  have hY1 := hdst.clearAnchor dp ds item hds hditem
  have frees := areaFree_after_clear hsrc sp s item hs hitem
  have freed := areaFree_after_clear hdst dp ds item hds hditem
  have e1 := heap_removeItem_ok hsrc.wf sp s item hs hitem (by omega)
  have e2 := heap_removeItem_ok
    (h := Function.update h src ((h src).mapCells (clearFn sp item.size))) (i := dst)
    (by rw [Function.update_noteq hds']; exact hdst.wf) dp ds item
    (by rw [Function.update_noteq hds']; exact hds) hditem (by omega)
  rw [Function.update_noteq hds'] at e2
  have hwf2d : ((Function.update
      (Function.update h src ((h src).mapCells (clearFn sp item.size))) dst
      ((h dst).mapCells (clearFn dp item.size))) dst).WF := by
    rw [Function.update_same]; exact hY1.wf
  have hwf2s : ((Function.update
      (Function.update h src ((h src).mapCells (clearFn sp item.size))) dst
      ((h dst).mapCells (clearFn dp item.size))) src).WF := by
    rw [Function.update_noteq hsd, Function.update_same]; exact hX1.wf
  have e4 := heap_placeItem_ok hwf2s item s.stackCount sp
    (by rw [Function.update_noteq hsd, Function.update_same]; exact frees) (by omega) hcs.2
  rw [Function.update_noteq hsd, Function.update_same,
    restore_anchor hsrc sp s item hs hitem] at e4
  have hwf3d : ((Function.update (Function.update
      (Function.update h src ((h src).mapCells (clearFn sp item.size))) dst
      ((h dst).mapCells (clearFn dp item.size))) src (h src)) dst).WF := by
    rw [Function.update_noteq hds', Function.update_same]; exact hY1.wf
  have e5 := heap_placeItem_ok hwf3d item ds.stackCount dp
    (by rw [Function.update_noteq hds', Function.update_same]; exact freed) (by omega) hcd.2
  rw [Function.update_noteq hds', Function.update_same,
    restore_anchor hdst dp ds item hds hditem] at e5
  unfold mergeStacks
  simp only [e1, e2]
  split
  · rename_i heq
    exact absurd heq (Heap.placeItem_ne_none_of_wf hwf2d _ _ _)
  · rename_i h3 heq
    have h3eq := Heap.placeItem_false_eq hwf2d heq
    subst h3eq
    simp only [e4, e5]
    refine ⟨_, _, rfl, Or.inr ⟨Or.inl rfl, ?_⟩⟩
    funext j
    by_cases hjd : j = dst
    · subst hjd
      rw [Function.update_same]
    · rw [Function.update_noteq hjd]
      by_cases hjs : j = src
      · subst hjs
        rw [Function.update_same]
      · rw [Function.update_noteq hjs, Function.update_noteq hjd, Function.update_noteq hjs]
  · rename_i h3 heq
    have hwf4 := Heap.placeItem_wf hwf2d heq src hwf2s
    split
    · split
      · rename_i heq2
        exact absurd heq2 (Heap.placeItem_ne_none_of_wf hwf4 _ _ _)
      · exact ⟨_, _, rfl, Or.inl rfl⟩
    · exact ⟨_, _, rfl, Or.inl rfl⟩

theorem mergeStacks_outcome (h : Heap) (src dst : StoreId) (sp dp : GridPosition)
    (item : Item) (s ds : InventorySlot) (hsrc : (h src).GridInv) (hdst : (h dst).GridInv)
    (hs : (h src).cell? sp.x sp.y = some s) (hitem : s.item = some item)
    (hds : (h dst).cell? dp.x dp.y = some ds) (hditem : ds.item = some item)
    (hne : ¬ (src = dst ∧ sp = dp)) :
    MoveOutcome h (mergeStacks h src sp dst dp item s.stackCount ds) := by
  by_cases hsd : src = dst
  · subst hsd
    exact mergeStacks_same_store h src sp dp item s ds hsrc hs hitem hds hditem
      fun e => hne ⟨rfl, e⟩
  · exact mergeStacks_cross_store h src dst sp dp item s ds hsrc hdst hs hitem hds hditem hsd

theorem Inventory.GridInv.footprint_cells {inv : Inventory} (hinv : inv.GridInv)
    {pos : GridPosition} {s : InventorySlot} {it : Item}
    (hs : inv.cell? pos.x pos.y = some s) (hit : s.item = some it) {x y : Int}
    (hxy : inRect pos it.size x y) : ∃ c, inv.cell? x y = some c := by
  have hin := hinv.inside _ _ s it hs hit
  have hv0 := (isPositionValid_mk_iff _ _ _).mp (hinv.wf.valid_of_cell hs)
  apply hinv.wf.cell_of_valid
  rw [isPositionValid_mk_iff]
  unfold inRect at hxy
  omega

theorem mergeOrNoSpace_outcome (h : Heap) (src dst : StoreId) (sp dp : GridPosition)
    (item : Item) (s : InventorySlot) (hsrc : (h src).GridInv) (hdst : (h dst).GridInv)
    (hcat : SameCatalog (h src) (h dst))
    (hs : (h src).cell? sp.x sp.y = some s) (hitem : s.item = some item)
    (hne : ¬ (src = dst ∧ sp = dp)) :
    MoveOutcome h (mergeOrNoSpace h src sp dst dp item s.stackCount) := by
  cases hds : (h dst).cell? dp.x dp.y with
  | none =>
    unfold mergeOrNoSpace
    simp only [getSlot_eq hdst.wf, hds]
    exact ⟨_, _, rfl, Or.inr ⟨Or.inl rfl, rfl⟩⟩
  | some ds =>
    cases hditem : ds.item with
    | none =>
      unfold mergeOrNoSpace
      simp only [getSlot_eq hdst.wf, hds, hditem]
      exact ⟨_, _, rfl, Or.inr ⟨Or.inl rfl, rfl⟩⟩
    | some destItem =>
      unfold mergeOrNoSpace
      simp only [getSlot_eq hdst.wf, hds, hditem]
      by_cases hcond : destItem.id = item.id ∧ ds.stackCount < item.stackLimit
      · rw [if_pos hcond]
        have heq : item = destItem :=
          hcat _ _ _ _ s ds item destItem hs hitem hds hditem hcond.1.symm
        subst heq
        exact mergeStacks_outcome h src dst sp dp item s ds hsrc hdst hs hitem hds hditem hne
      · rw [if_neg hcond]
        exact ⟨_, _, rfl, Or.inr ⟨Or.inl rfl, rfl⟩⟩

theorem fit_of_areaFree_after_hold {h : Heap} {src dst : StoreId}
    {sourcePos destPos : GridPosition} {item : Item}
    (hfree : AreaFree
      ((Function.update h src ((h src).mapCells (clearFn sourcePos item.size))) dst)
      destPos item.size) :
    ∀ x y, inRect destPos item.size x y →
      ∃ c, (h dst).cell? x y = some c ∧
        ((c.isEmpty = true ∧ c.isOccupied = false) ∨
          (src = dst ∧ inRect sourcePos item.size x y)) := by
  intro x y hxy
  obtain ⟨c1, hc1, he, ho⟩ := hfree x y hxy
  by_cases hsd : dst = src
  · subst hsd
    rw [Function.update_same] at hc1
    obtain ⟨c, hc, rfl⟩ := cell?_mapCells_some hc1
    refine ⟨c, hc, ?_⟩
    by_cases hin : inRect sourcePos item.size x y
    · exact Or.inr ⟨rfl, hin⟩
    · left
      simpa [clearFn, hin] using And.intro he ho
  · rw [Function.update_noteq hsd] at hc1
    exact ⟨c1, hc1, Or.inl ⟨he, ho⟩⟩

theorem moveItem_outcome (h : Heap) (src dst : StoreId) (sourcePos destPos : GridPosition)
    (hsrc : (h src).GridInv) (hdst : (h dst).GridInv) (hcat : SameCatalog (h src) (h dst)) :
    MoveOutcome h (moveItem h (some src) sourcePos (some dst) destPos) := by
  cases hs : (h src).cell? sourcePos.x sourcePos.y with
  | none =>
    unfold moveItem
    simp only [getSlot_eq hsrc.wf, hs]
    exact ⟨_, _, rfl, Or.inr ⟨Or.inr rfl, rfl⟩⟩
  | some s =>
    cases hitem : s.item with
    | none =>
      unfold moveItem
      simp only [getSlot_eq hsrc.wf, hs, hitem]
      exact ⟨_, _, rfl, Or.inr ⟨Or.inr rfl, rfl⟩⟩
    | some item =>
      by_cases hfit : ∀ x y, inRect destPos item.size x y →
          ∃ c, (h dst).cell? x y = some c ∧
            ((c.isEmpty = true ∧ c.isOccupied = false) ∨
              (src = dst ∧ inRect sourcePos item.size x y))
      · rw [moveItem_direct_eq h src dst sourcePos destPos s item hsrc hdst hs hitem hfit]
        exact ⟨_, _, rfl, Or.inl rfl⟩
      · have hcnt := hsrc.count _ _ s item hs hitem
        have hne : ¬ (src = dst ∧ sourcePos = destPos) := by
          rintro ⟨rfl, rfl⟩
          apply hfit
          intro x y hxy
          obtain ⟨c, hc⟩ := hsrc.footprint_cells hs hitem hxy
          exact ⟨c, hc, Or.inr ⟨rfl, hxy⟩⟩
        have hwf1 : ((Function.update h src
            ((h src).mapCells (clearFn sourcePos item.size))) dst).WF := by
          by_cases hsd : dst = src
          · subst hsd
            rw [Function.update_same]
            exact hdst.wf.mapCells _ (clearFn_position _ _)
          · rw [Function.update_noteq hsd]
            exact hdst.wf
        have hout := mergeOrNoSpace_outcome h src dst sourcePos destPos item s hsrc hdst hcat
          hs hitem hne
        unfold moveItem
        simp only [getSlot_eq hsrc.wf, hs, hitem]
        by_cases hov : (decide (src = dst) && boxesOverlap sourcePos destPos item.size) = true
        · have hnf : ¬ AreaFree ((Function.update h src
              ((h src).mapCells (clearFn sourcePos item.size))) dst) destPos item.size :=
            fun hf => hfit (fit_of_areaFree_after_hold hf)
          have hrem := heap_removeItem_ok hsrc.wf sourcePos s item hs hitem (by omega)
          have hback := heap_placeItem_ok
            (h := Function.update h src ((h src).mapCells (clearFn sourcePos item.size)))
            (i := src)
            (by rw [Function.update_same]; exact hsrc.wf.mapCells _ (clearFn_position _ _))
            item s.stackCount sourcePos
            (by rw [Function.update_same]; exact areaFree_after_clear hsrc _ s item hs hitem)
            (by omega) hcnt.2
          rw [Function.update_same, Function.update_idem,
            restore_anchor hsrc sourcePos s item hs hitem, Function.update_eq_self] at hback
          simp only [hov, if_true, hrem]
          unfold moveAfterHold
          simp only [canPlaceItem_of_not_free hwf1 item destPos hnf, Option.isSome_some,
            if_true, hback]
          exact hout
        · have hnf : ¬ AreaFree (h dst) destPos item.size := by
            intro hf
            apply hfit
            intro x y hxy
            obtain ⟨c, hc, he, ho⟩ := hf x y hxy
            exact ⟨c, hc, Or.inl ⟨he, ho⟩⟩
          simp only [hov, if_false]
          unfold moveAfterHold
          simp only [canPlaceItem_of_not_free hdst.wf item destPos hnf, Option.isSome_none,
            Bool.false_eq_true, if_false]
          exact hout

/-- C1: for every pair of stores (possibly the same store) that satisfy the grid invariants,
item references being catalog definitions keyed by id (`SameCatalog`, which holds for the
definitions of any one registry by `sameCatalog_of_registry`), and for every `sourcePos` and
`destPos`: `moveItem` returns, and if the result is anything other than `SUCCESS` the heap
(hence both stores, cell for cell) is identical to the one before the call. -/
theorem moveItem_failure_leaves_stores (h : Heap) (src dst : StoreId)
    (sourcePos destPos : GridPosition) (hsrc : (h src).GridInv) (hdst : (h dst).GridInv)
    (hcat : SameCatalog (h src) (h dst)) :
    ∃ r h1, moveItem h (some src) sourcePos (some dst) destPos = some (r, h1) ∧
      (r ≠ .SUCCESS → h1 = h ∧ ∀ j x y, (h1 j).cell? x y = (h j).cell? x y) := by
  obtain ⟨r, h1, heq, hcase⟩ := moveItem_outcome h src dst sourcePos destPos hsrc hdst hcat
  refine ⟨r, h1, heq, fun hne => ?_⟩
  rcases hcase with hsucc | ⟨_, rfl⟩
  · exact absurd hsucc hne
  · exact ⟨rfl, fun _ _ _ => rfl⟩

/-! ### Concrete runs of `moveItem` -/

theorem sampleStore_sameCatalog : SameCatalog (sampleHeap 0) (sampleHeap 0) := by
  have hitems : ∀ x y s it, (sampleHeap 0).cell? x y = some s → s.item = some it →
      it = starkonja := by
    intro x y s it hs hit
    rcases @occupy_item_cases (Inventory.new 3 2) ⟨0, 0⟩ starkonja 1 x y s it hs hit with ⟨_, _, _, heq, _, _⟩ | ⟨_, hold⟩
    · exact heq
    · rw [cell?_new hold] at hit
      cases hit
  intro x y x1 y1 s s1 ia ib hs hia hs1 hib _
  rw [hitems x y s ia hs hia, hitems x1 y1 s1 ib hs1 hib]

theorem moveItem_failure_leaves_stores_witness :
    (sampleHeap 0).GridInv ∧ SameCatalog (sampleHeap 0) (sampleHeap 0) ∧
      ∃ r h1, moveItem sampleHeap (some 0) ⟨0, 0⟩ (some 0) ⟨2, 0⟩ = some (r, h1) ∧
        (r ≠ .SUCCESS → h1 = sampleHeap ∧ ∀ j x y, (h1 j).cell? x y = (sampleHeap j).cell? x y) :=
  ⟨sampleHeap_inv 0, sampleStore_sameCatalog,
    moveItem_failure_leaves_stores sampleHeap 0 0 ⟨0, 0⟩ ⟨2, 0⟩ (sampleHeap_inv 0)
      (sampleHeap_inv 0) sampleStore_sameCatalog⟩

theorem mixedHeap_inv (i : StoreId) : (mixedHeap i).GridInv := by
  unfold mixedHeap
  by_cases hi : i = 0
  · rw [if_pos hi]
    have h0 : (Inventory.new 2 1).GridInv :=
      Inventory.GridInv.of_new_store (by decide) (by decide)
    have e : (Inventory.new 2 1).placeItem (some wideOrb) 5 ⟨0, 0⟩ =
        some (true, (Inventory.new 2 1).mapCells (occupyFn ⟨0, 0⟩ ⟨2, 1⟩ (some wideOrb) 5)) :=
      rfl
    exact h0.placeItem_preserves e
  · rw [if_neg hi]
    have h0 : (Inventory.new 1 1).GridInv :=
      Inventory.GridInv.of_new_store (by decide) (by decide)
    have e : (Inventory.new 1 1).placeItem (some chaosOrb) 3 ⟨0, 0⟩ =
        some (true, (Inventory.new 1 1).mapCells (occupyFn ⟨0, 0⟩ ⟨1, 1⟩ (some chaosOrb) 3)) :=
      rfl
    exact h0.placeItem_preserves e

/-- The hypothesis `SameCatalog` of `moveItem_outcome` cannot be dropped.  With two
definitions under one id, which no registry holds (store 0 with 5 units of a 2x1 definition
of id 1, the 1x1 store 1 with 3 units of a 1x1 definition of the same id), `moveItem` from
(0,0) of store 0 to (0,0) of store 1 returns `NO_SPACE` and the stack of store 1 is gone
afterwards. -/
theorem moveItem_failure_changes_store :
    (mixedHeap 0).GridInv ∧ (mixedHeap 1).GridInv ∧
      ∃ h1, moveItem mixedHeap (some 0) ⟨0, 0⟩ (some 1) ⟨0, 0⟩ = some (.NO_SPACE, h1) ∧
        ((mixedHeap 1).cell? 0 0).map (fun s => (s.item, s.stackCount)) =
          some (some chaosOrb, 3) ∧
        ((h1 1).cell? 0 0).map (fun s => (s.item, s.stackCount)) = some (none, 0) :=
  ⟨mixedHeap_inv 0, mixedHeap_inv 1, _, rfl, by decide, by decide⟩

theorem hugeStackStore_inv : hugeStackStore.GridInv := by
  have h0 : (Inventory.new 2 1).GridInv :=
    Inventory.GridInv.of_new_store (by decide) (by decide)
  have e1 : (Inventory.new 2 1).placeItem (some hugeStackItem) 5 ⟨0, 0⟩ =
      some (true,
        (Inventory.new 2 1).mapCells (occupyFn ⟨0, 0⟩ ⟨1, 1⟩ (some hugeStackItem) 5)) := rfl
  have e2 : ((Inventory.new 2 1).mapCells
      (occupyFn ⟨0, 0⟩ ⟨1, 1⟩ (some hugeStackItem) 5)).placeItem (some hugeStackItem) 1 ⟨1, 0⟩ =
      some (true, hugeStackStore) := rfl
  exact (h0.placeItem_preserves e1).placeItem_preserves e2

/-- The bound on the stack limit in `merge_eq` cannot be dropped.  With a limit of
4294967295, which no item of the registry has, source (0,0) holding 5 and destination (1,0)
holding 1 of the same item, the spare capacity converted to `int` is negative: `moveItem`
returns `SUCCESS` and leaves 4294967295 at the destination and 7 at the source. -/
theorem merge_wraps_on_large_limit :
    hugeStackStore.GridInv ∧
      (hugeStackStore.cell? 0 0).map (fun s => (s.item, s.stackCount)) =
        some (some hugeStackItem, 5) ∧
      (hugeStackStore.cell? 1 0).map (fun s => (s.item, s.stackCount)) =
        some (some hugeStackItem, 1) ∧
      ∃ h1, moveItem hugeStackHeap (some 0) ⟨0, 0⟩ (some 0) ⟨1, 0⟩ = some (.SUCCESS, h1) ∧
        ((h1 0).cell? 1 0).map (fun s => (s.item, s.stackCount)) =
          some (some hugeStackItem, 4294967295) ∧
        ((h1 0).cell? 0 0).map (fun s => (s.item, s.stackCount)) =
          some (some hugeStackItem, 7) :=
  ⟨hugeStackStore_inv, by decide, by decide, _, rfl, by decide, by decide⟩

theorem bulkStore_inv : bulkStore.GridInv := by
  have h0 : (Inventory.new 2 1).GridInv :=
    Inventory.GridInv.of_new_store (by decide) (by decide)
  have e1 : (Inventory.new 2 1).placeItem (some bulkItem) 2500000000 ⟨0, 0⟩ =
      some (true,
        (Inventory.new 2 1).mapCells (occupyFn ⟨0, 0⟩ ⟨1, 1⟩ (some bulkItem) 2500000000)) := rfl
  have e2 : ((Inventory.new 2 1).mapCells
      (occupyFn ⟨0, 0⟩ ⟨1, 1⟩ (some bulkItem) 2500000000)).placeItem (some bulkItem)
        2000000000 ⟨1, 0⟩ = some (true, bulkStore) := rfl
  exact (h0.placeItem_preserves e1).placeItem_preserves e2

/-- The bound on the stack limit in `merge_eq` cannot be dropped (second run).  With a limit
of 3000000000, which no item of the registry has, and 2500000000 + 2000000000 units of item
id 1 in the store, the merge of (0,0) into (1,0) returns `SUCCESS` and leaves 205032704
units of that id in total. -/
theorem merge_loses_units_on_large_counts :
    bulkStore.GridInv ∧ (bulkHeap 0).unitsOf 1 = some 4500000000 ∧
      ∃ h1, moveItem bulkHeap (some 0) ⟨0, 0⟩ (some 0) ⟨1, 0⟩ = some (.SUCCESS, h1) ∧
        (h1 0).unitsOf 1 = some 205032704 :=
  ⟨bulkStore_inv, by decide, _, rfl, by decide⟩

/-! ### Merges whose arithmetic stays inside the range of `int` -/

theorem toInt32_of_lt {n : Nat} (h : n < 2147483648) : toInt32 n = (n : Int) := by
  unfold toInt32
  have h1 : n % 4294967296 = n := Nat.mod_eq_of_lt (by omega)
  rw [h1, if_pos h]

theorem toUInt32_of_nat {n : Nat} (h : n < 4294967296) : toUInt32 (n : Int) = n := by
  unfold toUInt32
  have h1 : (n : Int) % 4294967296 = (n : Int) := Int.emod_eq_of_lt (by omega) (by omega)
  rw [h1]
  rfl

/-- The quantities of the merge branch when no conversion wraps: `amountToMove` is
`min s (limit - d)`. -/
theorem merge_arith {s d limit : Nat} (hs : s ≤ limit) (hd : d < limit)
    (hlim : limit < 2147483648) :
    toUInt32 ((d : Int) + min (toInt32 s) (toInt32 (toUInt32 ((limit : Int) - (d : Int))))) =
        d + min s (limit - d) ∧
      toUInt32 ((s : Int) - min (toInt32 s) (toInt32 (toUInt32 ((limit : Int) - (d : Int))))) =
        s - min s (limit - d) := by
  have e1 : ((limit : Int) - (d : Int)) = ((limit - d : Nat) : Int) := by omega
  rw [e1, toUInt32_of_nat (by omega), toInt32_of_lt (by omega), toInt32_of_lt (by omega)]
  have e2 : min (s : Int) ((limit - d : Nat) : Int) = ((min s (limit - d) : Nat) : Int) := by
    omega
  rw [e2]
  constructor
  · have e3 : (d : Int) + ((min s (limit - d) : Nat) : Int) =
        ((d + min s (limit - d) : Nat) : Int) := by omega
    rw [e3, toUInt32_of_nat (by omega)]
  · have e4 : (s : Int) - ((min s (limit - d) : Nat) : Int) =
        ((s - min s (limit - d) : Nat) : Int) := by omega
    rw [e4, toUInt32_of_nat (by omega)]

/-- Removing an anchor and placing the same item with another count at the same position
changes only the stack count of the anchor slot. -/
theorem replace_anchor {inv : Inventory} (hinv : inv.GridInv) (pos : GridPosition)
    (s : InventorySlot) (it : Item) (hs : inv.cell? pos.x pos.y = some s)
    (hit : s.item = some it) (n : Nat) :
    (inv.mapCells (clearFn pos it.size)).mapCells (occupyFn pos it.size (some it) n) =
      inv.mapCells (withCount pos n) := by
  rw [mapCells_mapCells]
  apply mapCells_congr
  intro x y c hc
  unfold occupyFn clearFn withCount
  by_cases hxy : inRect pos it.size x y
  · simp only [hxy, if_true]
    by_cases ha : x = pos.x ∧ y = pos.y
    · obtain ⟨rfl, rfl⟩ := ha
      rw [hs] at hc
      cases hc
      have hf := hinv.anchorFlag _ _ s it hs hit
      simp only [and_self, if_true, setAnchor, setCleared]
      cases s
      simp_all
    · obtain ⟨c1, hc1, hi1, ho1⟩ := hinv.footprint _ _ s it hs hit x y hxy ha
      rw [hc] at hc1
      cases hc1
      have hz := hinv.noItem x y c hc hi1
      simp only [ha, if_false, setCovered, setCleared]
      cases c
      simp_all
  · have ha : ¬ (x = pos.x ∧ y = pos.y) := by
      rintro ⟨rfl, rfl⟩
      exact hxy (hinv.anchor_inRect hs hit)
    simp only [hxy, if_false, ha]

theorem occupy_occupy_comm (inv : Inventory) (p q : GridPosition) (sp sq : ItemSize)
    (a b : Option Item) (n m : Nat) (hdisj : ∀ x y, inRect p sp x y → ¬ inRect q sq x y) :
    (inv.mapCells (occupyFn p sp a n)).mapCells (occupyFn q sq b m) =
      (inv.mapCells (occupyFn q sq b m)).mapCells (occupyFn p sp a n) := by
  rw [mapCells_mapCells, mapCells_mapCells]
  apply mapCells_congr
  intro x y c _
  unfold occupyFn
  by_cases hp : inRect p sp x y
  · simp [hp, hdisj x y hp]
  · simp [hp]

theorem merge_same_store_eq (h : Heap) (i : StoreId) (sp dp : GridPosition) (item : Item)
    (s ds : InventorySlot) (hinv : (h i).GridInv)
    (hs : (h i).cell? sp.x sp.y = some s) (hitem : s.item = some item)
    (hds : (h i).cell? dp.x dp.y = some ds) (hditem : ds.item = some item) (hne : sp ≠ dp)
    (hd : ds.stackCount < item.stackLimit) (hlim : item.stackLimit < 2147483648) :
    mergeStacks h i sp i dp item s.stackCount ds =
      some (.SUCCESS, mergedHeap h i sp i dp item.size
        (ds.stackCount + min s.stackCount (item.stackLimit - ds.stackCount))
        (s.stackCount - min s.stackCount (item.stackLimit - ds.stackCount))) := by
  have hcs := hinv.count _ _ s item hs hitem
  have hcd := hinv.count _ _ ds item hds hditem
  have harith := merge_arith hcs.2 hd hlim
  have hdisj := hinv.footprints_disjoint hs hitem hds hditem hne
  have hX1 := hinv.clearAnchor sp s item hs hitem
  have hdsX1 : ((h i).mapCells (clearFn sp item.size)).cell? dp.x dp.y = some ds :=
    clear_keep hds fun hin => hdisj _ _ hin (hinv.anchor_inRect hds hditem)
  have hX2 := hX1.clearAnchor dp ds item hdsX1 hditem
  have free2d := areaFree_after_clear hX1 dp ds item hdsX1 hditem
  have free2s := (areaFree_after_clear hinv sp s item hs hitem).after_clear dp item.size
  have e1 := heap_removeItem_ok hinv.wf sp s item hs hitem (by omega)
  have e2 := heap_removeItem_ok (h := Function.update h i ((h i).mapCells (clearFn sp item.size)))
    (i := i) (by rw [Function.update_same]; exact hX1.wf) dp ds item
    (by rw [Function.update_same]; exact hdsX1) hditem (by omega)
  rw [Function.update_same, Function.update_idem] at e2
  have hwf2 : ((Function.update h i (((h i).mapCells (clearFn sp item.size)).mapCells
      (clearFn dp item.size))) i).WF := by
    rw [Function.update_same]; exact hX2.wf
  have e3 := heap_placeItem_ok hwf2 item
    (ds.stackCount + min s.stackCount (item.stackLimit - ds.stackCount)) dp
    (by rw [Function.update_same]; exact free2d) (by omega) (by omega)
  rw [Function.update_same, Function.update_idem] at e3
  unfold mergeStacks
  simp only [e1, e2, harith.1, harith.2, e3]
  unfold mergedHeap sourceAfterMerge
  by_cases hrem : s.stackCount - min s.stackCount (item.stackLimit - ds.stackCount) > 0
  · have hwf3 : ((Function.update h i ((((h i).mapCells (clearFn sp item.size)).mapCells
        (clearFn dp item.size)).mapCells (occupyFn dp item.size (some item)
          (ds.stackCount + min s.stackCount (item.stackLimit - ds.stackCount))))) i).WF := by
      rw [Function.update_same]; exact hX2.wf.mapCells _ (occupyFn_position _ _ _ _)
    have e4 := heap_placeItem_ok hwf3 item
      (s.stackCount - min s.stackCount (item.stackLimit - ds.stackCount)) sp
      (by
        rw [Function.update_same]
        exact free2s.after_occupy dp item.size _ _ fun x y hsrc hdst => hdisj x y hsrc hdst)
      (by omega) (by omega)
    rw [Function.update_same, Function.update_idem] at e4
    have hinv' : ((h i).mapCells (withCount sp
        (s.stackCount - min s.stackCount (item.stackLimit - ds.stackCount)))).GridInv := by
      rw [← replace_anchor hinv sp s item hs hitem]
      exact hX1.occupy item _ sp (areaFree_after_clear hinv sp s item hs hitem) (by omega)
        (by omega)
    have hds' : ((h i).mapCells (withCount sp
        (s.stackCount - min s.stackCount (item.stackLimit - ds.stackCount)))).cell? dp.x dp.y =
        some ds := by
      rw [cell?_mapCells_of_cell hds]
      have : ¬ (dp.x = sp.x ∧ dp.y = sp.y) := by
        rintro ⟨e1, e2⟩
        apply hne
        cases sp; cases dp; simp_all
      simp [withCount, this]
    simp only [hrem, if_true, e4, Function.update_same, Function.update_idem]
    congr 3
    rw [occupy_occupy_comm _ dp sp item.size item.size _ _ _ _
        (fun x y hdst hsrc => hdisj x y hsrc hdst),
      clear_occupy_comm _ sp dp item.size item.size _ _ hdisj,
      replace_anchor hinv sp s item hs hitem, replace_anchor hinv' dp ds item hds' hditem]
  · simp only [hrem, if_false, Function.update_same, Function.update_idem]
    congr 3
    rw [replace_anchor hX1 dp ds item hdsX1 hditem]

theorem merge_cross_store_eq (h : Heap) (src dst : StoreId) (sp dp : GridPosition)
    (item : Item) (s ds : InventorySlot) (hsrc : (h src).GridInv) (hdst : (h dst).GridInv)
    (hs : (h src).cell? sp.x sp.y = some s) (hitem : s.item = some item)
    (hds : (h dst).cell? dp.x dp.y = some ds) (hditem : ds.item = some item)
    (hsd : src ≠ dst) (hd : ds.stackCount < item.stackLimit)
    (hlim : item.stackLimit < 2147483648) :
    mergeStacks h src sp dst dp item s.stackCount ds =
      some (.SUCCESS, mergedHeap h src sp dst dp item.size
        (ds.stackCount + min s.stackCount (item.stackLimit - ds.stackCount))
        (s.stackCount - min s.stackCount (item.stackLimit - ds.stackCount))) := by
  have hds' : dst ≠ src := fun e => hsd e.symm
  have hcs := hsrc.count _ _ s item hs hitem
  have hcd := hdst.count _ _ ds item hds hditem
  have harith := merge_arith hcs.2 hd hlim
  have hX1 := hsrc.clearAnchor sp s item hs hitem
  have hY1 := hdst.clearAnchor dp ds item hds hditem
  have frees := areaFree_after_clear hsrc sp s item hs hitem
  have freed := areaFree_after_clear hdst dp ds item hds hditem
  have e1 := heap_removeItem_ok hsrc.wf sp s item hs hitem (by omega)
  have e2 := heap_removeItem_ok
    (h := Function.update h src ((h src).mapCells (clearFn sp item.size))) (i := dst)
    (by rw [Function.update_noteq hds']; exact hdst.wf) dp ds item
    (by rw [Function.update_noteq hds']; exact hds) hditem (by omega)
  rw [Function.update_noteq hds'] at e2
  have hwf2d : ((Function.update
      (Function.update h src ((h src).mapCells (clearFn sp item.size))) dst
      ((h dst).mapCells (clearFn dp item.size))) dst).WF := by
    rw [Function.update_same]; exact hY1.wf
  have e3 := heap_placeItem_ok hwf2d item
    (ds.stackCount + min s.stackCount (item.stackLimit - ds.stackCount)) dp
    (by rw [Function.update_same]; exact freed) (by omega) (by omega)
  rw [Function.update_same, Function.update_idem,
    replace_anchor hdst dp ds item hds hditem] at e3
  unfold mergeStacks
  simp only [e1, e2, harith.1, harith.2, e3]
  unfold mergedHeap sourceAfterMerge
  by_cases hrem : s.stackCount - min s.stackCount (item.stackLimit - ds.stackCount) > 0
  · have hwf3s : ((Function.update
        (Function.update h src ((h src).mapCells (clearFn sp item.size))) dst
        ((h dst).mapCells (withCount dp
          (ds.stackCount + min s.stackCount (item.stackLimit - ds.stackCount))))) src).WF := by
      rw [Function.update_noteq hsd, Function.update_same]; exact hX1.wf
    have e4 := heap_placeItem_ok hwf3s item
      (s.stackCount - min s.stackCount (item.stackLimit - ds.stackCount)) sp
      (by rw [Function.update_noteq hsd, Function.update_same]; exact frees)
      (by omega) (by omega)
    rw [Function.update_noteq hsd, Function.update_same,
      replace_anchor hsrc sp s item hs hitem] at e4
    simp only [hrem, if_true, e4, Function.update_noteq hds']
    congr 2
    funext j
    by_cases hjs : j = src
    · subst hjs
      rw [Function.update_same, Function.update_noteq hsd, Function.update_same]
    · rw [Function.update_noteq hjs]
      by_cases hjd : j = dst
      · subst hjd
        rw [Function.update_same, Function.update_same]
      · rw [Function.update_noteq hjd, Function.update_noteq hjs, Function.update_noteq hjd,
          Function.update_noteq hjs]
  · simp only [hrem, if_false, Function.update_noteq hds']

theorem merge_eq (h : Heap) (src dst : StoreId) (sp dp : GridPosition)
    (item : Item) (s ds : InventorySlot) (hsrc : (h src).GridInv) (hdst : (h dst).GridInv)
    (hs : (h src).cell? sp.x sp.y = some s) (hitem : s.item = some item)
    (hds : (h dst).cell? dp.x dp.y = some ds) (hditem : ds.item = some item)
    (hne : ¬ (src = dst ∧ sp = dp)) (hd : ds.stackCount < item.stackLimit)
    (hlim : item.stackLimit < 2147483648) :
    moveItem h (some src) sp (some dst) dp =
      some (.SUCCESS, mergedHeap h src sp dst dp item.size
        (ds.stackCount + min s.stackCount (item.stackLimit - ds.stackCount))
        (s.stackCount - min s.stackCount (item.stackLimit - ds.stackCount))) := by
  have hnov : ¬ ((decide (src = dst) && boxesOverlap sp dp item.size) = true) := by
    intro hov
    simp only [Bool.and_eq_true, decide_eq_true_eq] at hov
    obtain ⟨rfl, hbox⟩ := hov
    obtain ⟨x, y, h1, h2⟩ := common_of_boxesOverlap hbox
    exact hsrc.footprints_disjoint hs hitem hds hditem (fun e => hne ⟨rfl, e⟩) x y h1 h2
  have hnf : ¬ AreaFree (h dst) dp item.size := by
    intro hf
    obtain ⟨c, hc, he, _⟩ := hf dp.x dp.y (hdst.anchor_inRect hds hditem)
    rw [hds] at hc
    cases hc
    have := (hdst.count _ _ ds item hds hditem).1
    simp [InventorySlot.isEmpty, hditem] at he
    omega
  have hcond : item.id = item.id ∧ ds.stackCount < item.stackLimit := ⟨rfl, hd⟩
  unfold moveItem
  simp only [getSlot_eq hsrc.wf, hs, hitem, hnov, if_false]
  unfold moveAfterHold
  simp only [canPlaceItem_of_not_free hdst.wf item dp hnf, Option.isSome_none,
    Bool.false_eq_true, if_false]
  unfold mergeOrNoSpace
  simp only [getSlot_eq hdst.wf, hds, hditem, hcond, and_self, if_true]
  by_cases hsd : src = dst
  · subst hsd
    exact merge_same_store_eq h src sp dp item s ds hsrc hs hitem hds hditem
      (fun e => hne ⟨rfl, e⟩) hd hlim
  · exact merge_cross_store_eq h src dst sp dp item s ds hsrc hdst hs hitem hds hditem hsd hd
      hlim

theorem mergedHeap_cell (h : Heap) (src dst : StoreId) (sp dp : GridPosition) (size : ItemSize)
    (nd rem : Nat) (j : StoreId) (x y : Int) :
    (mergedHeap h src sp dst dp size nd rem j).cell? x y =
      ((h j).cell? x y).map fun c =>
        (if j = dst then withCount dp nd x y else fun c1 => c1)
          ((if j = src then sourceAfterMerge sp size rem x y else fun c1 => c1) c) := by
  unfold mergedHeap
  by_cases hjd : j = dst
  · subst hjd
    rw [Function.update_same, cell?_mapCells]
    by_cases hjs : j = src
    · subst hjs
      rw [Function.update_same, cell?_mapCells]
      cases (h j).cell? x y <;> simp
    · rw [Function.update_noteq hjs]
      cases (h j).cell? x y <;> simp [hjs]
  · rw [Function.update_noteq hjd]
    by_cases hjs : j = src
    · subst hjs
      rw [Function.update_same, cell?_mapCells]
      cases (h j).cell? x y <;> simp [hjd]
    · rw [Function.update_noteq hjs]
      cases (h j).cell? x y <;> simp [hjd, hjs]

/-- Merge for a footprint of any size: for stores satisfying the grid invariants, a source
anchor with count s at `sp` and a different destination anchor at `dp` holding the same item
with count d below the stack limit, the limit being below 2^31: `moveItem` returns `SUCCESS`;
with m = min(s, limit - d) the destination anchor holds d + m; the source anchor holds s - m
when m < s, and every cell of the source footprint is empty when m = s; no other cell of any
store changes. -/
theorem merge_into_stack (h : Heap) (src dst : StoreId) (sp dp : GridPosition)
    (item : Item) (s ds : InventorySlot) (hsrc : (h src).GridInv) (hdst : (h dst).GridInv)
    (hs : (h src).cell? sp.x sp.y = some s) (hitem : s.item = some item)
    (hds : (h dst).cell? dp.x dp.y = some ds) (hditem : ds.item = some item)
    (hne : ¬ (src = dst ∧ sp = dp)) (hd : ds.stackCount < item.stackLimit)
    (hlim : item.stackLimit < 2147483648) :
    ∃ h1, moveItem h (some src) sp (some dst) dp = some (.SUCCESS, h1) ∧
      (h1 dst).cell? dp.x dp.y =
        some { ds with
          stackCount := ds.stackCount + min s.stackCount (item.stackLimit - ds.stackCount) } ∧
      (min s.stackCount (item.stackLimit - ds.stackCount) < s.stackCount →
        (h1 src).cell? sp.x sp.y =
          some { s with
            stackCount :=
              s.stackCount - min s.stackCount (item.stackLimit - ds.stackCount) }) ∧
      (min s.stackCount (item.stackLimit - ds.stackCount) = s.stackCount →
        ∀ x y, inRect sp item.size x y →
          ∃ c, (h1 src).cell? x y = some c ∧ c.item = none ∧ c.stackCount = 0 ∧
            c.isOccupied = false) ∧
      (∀ j x y, ¬ (j = dst ∧ x = dp.x ∧ y = dp.y) → ¬ (j = src ∧ x = sp.x ∧ y = sp.y) →
        ¬ (j = src ∧ min s.stackCount (item.stackLimit - ds.stackCount) = s.stackCount ∧
          inRect sp item.size x y) →
        (h1 j).cell? x y = (h j).cell? x y) := by
  have hcs := hsrc.count _ _ s item hs hitem
  have hsame_out : src = dst → ¬ inRect sp item.size dp.x dp.y := by
    intro hsd hin
    subst hsd
    exact hsrc.footprints_disjoint hs hitem hds hditem (fun e => hne ⟨rfl, e⟩) _ _ hin
      (hsrc.anchor_inRect hds hditem)
  have hsame_ne : src = dst → ¬ (dp.x = sp.x ∧ dp.y = sp.y) := by
    rintro hsd ⟨e1, e2⟩
    apply hne
    refine ⟨hsd, ?_⟩
    cases sp; cases dp; simp_all
  refine ⟨_, merge_eq h src dst sp dp item s ds hsrc hdst hs hitem hds hditem hne hd hlim,
    ?_, ?_, ?_, ?_⟩
  · rw [mergedHeap_cell, hds]
    have e1 : (if dst = src then sourceAfterMerge sp item.size
        (s.stackCount - min s.stackCount (item.stackLimit - ds.stackCount)) dp.x dp.y
        else fun c1 => c1) ds = ds := by
      by_cases hsd : dst = src
      · rw [if_pos hsd]
        unfold sourceAfterMerge
        split
        · unfold withCount
          rw [if_neg (hsame_ne hsd.symm)]
        · unfold clearFn
          rw [if_neg (hsame_out hsd.symm)]
      · rw [if_neg hsd]
    simp only [Option.map_some', if_true, e1, withCount, and_self]
  · intro hlt
    have hrem : s.stackCount - min s.stackCount (item.stackLimit - ds.stackCount) > 0 := by
      omega
    rw [mergedHeap_cell, hs]
    have eS : sourceAfterMerge sp item.size
        (s.stackCount - min s.stackCount (item.stackLimit - ds.stackCount)) sp.x sp.y s =
        { s with
          stackCount := s.stackCount - min s.stackCount (item.stackLimit - ds.stackCount) } := by
      unfold sourceAfterMerge
      rw [if_pos hrem]
      unfold withCount
      rw [if_pos ⟨rfl, rfl⟩]
    have eD : ∀ c : InventorySlot, (if src = dst then withCount dp
        (ds.stackCount + min s.stackCount (item.stackLimit - ds.stackCount)) sp.x sp.y
        else fun c1 => c1) c = c := by
      intro c
      by_cases hsd : src = dst
      · rw [if_pos hsd]
        unfold withCount
        rw [if_neg fun e => hsame_ne hsd ⟨e.1.symm, e.2.symm⟩]
      · rw [if_neg hsd]
    simp only [Option.map_some', if_true, eS, eD]
  · intro heq x y hin
    have hrem : ¬ (s.stackCount - min s.stackCount (item.stackLimit - ds.stackCount) > 0) := by
      omega
    obtain ⟨c, hc⟩ := hsrc.footprint_cells hs hitem hin
    have eS : sourceAfterMerge sp item.size
        (s.stackCount - min s.stackCount (item.stackLimit - ds.stackCount)) x y c =
        setCleared c := by
      unfold sourceAfterMerge
      rw [if_neg hrem]
      unfold clearFn
      rw [if_pos hin]
    have eD : ∀ c1 : InventorySlot, (if src = dst then withCount dp
        (ds.stackCount + min s.stackCount (item.stackLimit - ds.stackCount)) x y
        else fun c2 => c2) c1 = c1 := by
      intro c1
      by_cases hsd : src = dst
      · rw [if_pos hsd]
        unfold withCount
        rw [if_neg]
        rintro ⟨rfl, rfl⟩
        exact hsame_out hsd hin
      · rw [if_neg hsd]
    refine ⟨setCleared c, ?_, rfl, rfl, rfl⟩
    rw [mergedHeap_cell, hc]
    simp only [Option.map_some', if_true, eS, eD]
  · intro j x y hnd hns hnc
    rw [mergedHeap_cell]
    cases hc : (h j).cell? x y with
    | none => rfl
    | some c =>
      simp only [Option.map_some', Option.some.injEq]
      have e1 : (if j = src then sourceAfterMerge sp item.size
          (s.stackCount - min s.stackCount (item.stackLimit - ds.stackCount)) x y
          else fun c1 => c1) c = c := by
        by_cases hjs : j = src
        · rw [if_pos hjs]
          unfold sourceAfterMerge
          split
          · unfold withCount
            rw [if_neg fun e => hns ⟨hjs, e⟩]
          · rename_i hrem
            have hm : min s.stackCount (item.stackLimit - ds.stackCount) = s.stackCount := by
              omega
            unfold clearFn
            rw [if_neg fun e => hnc ⟨hjs, hm, e⟩]
        · rw [if_neg hjs]
      rw [e1]
      by_cases hjd : j = dst
      · rw [if_pos hjd]
        unfold withCount
        rw [if_neg fun e => hnd ⟨hjd, e⟩]
      · rw [if_neg hjd]

theorem bundleStore_inv : bundleStore.GridInv := by
  have h0 : (Inventory.new 4 1).GridInv :=
    Inventory.GridInv.of_new_store (by decide) (by decide)
  have e1 : (Inventory.new 4 1).placeItem (some bundle) 1 ⟨0, 0⟩ =
      some (true, (Inventory.new 4 1).mapCells (occupyFn ⟨0, 0⟩ ⟨2, 1⟩ (some bundle) 1)) := rfl
  have e2 : ((Inventory.new 4 1).mapCells
      (occupyFn ⟨0, 0⟩ ⟨2, 1⟩ (some bundle) 1)).placeItem (some bundle) 1 ⟨2, 0⟩ =
      some (true, bundleStore) := rfl
  exact (h0.placeItem_preserves e1).placeItem_preserves e2

/-- A full merge clears the whole source footprint.  For a stackable item of more than one
cell, which the registry does not contain (a 2x1 item with limit 5, one at (0,0) and one at
(2,0) of a 4x1 store), `moveItem` from (0,0) to (2,0) returns `SUCCESS`, merges the whole
source stack (m = s = 1), and the covered cell (1,0) of the source footprint changes from
covered to empty. -/
theorem merge_clears_source_footprint :
    bundleStore.GridInv ∧
      (bundleStore.cell? 1 0).map (fun c => (c.item, c.stackCount, c.isOccupied)) =
        some (none, 0, true) ∧
      ∃ h1, moveItem bundleHeap (some 0) ⟨0, 0⟩ (some 0) ⟨2, 0⟩ = some (.SUCCESS, h1) ∧
        ((h1 0).cell? 2 0).map (fun c => (c.item, c.stackCount)) = some (some bundle, 2) ∧
        ((h1 0).cell? 1 0).map (fun c => (c.item, c.stackCount, c.isOccupied)) =
          some (none, 0, false) :=
  ⟨bundleStore_inv, by decide, _, rfl, by decide, by decide⟩

theorem scenarioBStore_inv : scenarioBStore.GridInv := by
  have h0 : (Inventory.new 3 1).GridInv :=
    Inventory.GridInv.of_new_store (by decide) (by decide)
  have e1 : (Inventory.new 3 1).placeItem (some chaosOrb) 5 ⟨0, 0⟩ =
      some (true, (Inventory.new 3 1).mapCells (occupyFn ⟨0, 0⟩ ⟨1, 1⟩ (some chaosOrb) 5)) :=
    rfl
  have e2 : ((Inventory.new 3 1).mapCells
      (occupyFn ⟨0, 0⟩ ⟨1, 1⟩ (some chaosOrb) 5)).placeItem (some chaosOrb) 10 ⟨1, 0⟩ =
      some (true, scenarioBStore) := rfl
  exact (h0.placeItem_preserves e1).placeItem_preserves e2

theorem merge_into_stack_witness :
    scenarioBStore.GridInv ∧
      (scenarioBHeap 0).cell? 0 0 = some (setAnchor (some chaosOrb) 5 (freshSlot 0 0)) ∧
      (scenarioBHeap 0).cell? 1 0 = some (setAnchor (some chaosOrb) 10 (freshSlot 1 0)) ∧
      ∃ h1, moveItem scenarioBHeap (some 0) ⟨0, 0⟩ (some 0) ⟨1, 0⟩ = some (.SUCCESS, h1) ∧
        (h1 0).cell? 1 0 = some (setAnchor (some chaosOrb) 15 (freshSlot 1 0)) ∧
        ∃ c, (h1 0).cell? 0 0 = some c ∧ c.item = none ∧ c.stackCount = 0 ∧
          c.isOccupied = false := by
  obtain ⟨h1, hm, hdest, _, hempty, _⟩ :=
    merge_into_stack scenarioBHeap 0 0 ⟨0, 0⟩ ⟨1, 0⟩ chaosOrb
      (setAnchor (some chaosOrb) 5 (freshSlot 0 0)) (setAnchor (some chaosOrb) 10 (freshSlot 1 0))
      scenarioBStore_inv scenarioBStore_inv (by decide) rfl (by decide) rfl (by decide)
      (by decide) (by decide)
  exact ⟨scenarioBStore_inv, by decide, by decide, h1, hm, hdest,
    hempty (by decide) 0 0 (by decide)⟩

/-! ### Scenario C: a merge capped by the stack limit -/

theorem areaFree_new {w h : Int} (hw : 0 ≤ w) (hh : 0 ≤ h) (pos : GridPosition)
    (size : ItemSize) (hx : 0 ≤ pos.x) (hy : 0 ≤ pos.y) (hxw : pos.x + size.width ≤ w)
    (hyh : pos.y + size.height ≤ h) : AreaFree (Inventory.new w h) pos size := by
  intro x y hxy
  have hv : (Inventory.new w h).isPositionValid ⟨x, y⟩ = true := by
    rw [isPositionValid_mk_iff]
    unfold inRect at hxy
    show 0 ≤ x ∧ x < w ∧ 0 ≤ y ∧ y < h
    omega
  obtain ⟨c, hc⟩ := (Inventory.WF.of_new hw hh).cell_of_valid hv
  refine ⟨c, hc, ?_, ?_⟩ <;> rw [cell?_new hc] <;> rfl

theorem cell?_new_of_inBounds {w h x y : Int} (hx : 0 ≤ x) (hxw : x < w) (hy : 0 ≤ y)
    (hyh : y < h) : (Inventory.new w h).cell? x y = some (freshSlot x y) := by
  have hv : (Inventory.new w h).isPositionValid ⟨x, y⟩ = true := by
    rw [isPositionValid_mk_iff]
    exact ⟨hx, hxw, hy, hyh⟩
  obtain ⟨c, hc⟩ := (Inventory.WF.of_new (by omega) (by omega)).cell_of_valid hv
  rw [hc, cell?_new hc]

/-- C11 (amended): Scenario C.  In an empty grid of at least 2x1 cells, with a 1x1 item `A`
of stack maximum 20: placing `A` with count 18 at (0,0) and `A` with count 5 at (1,0) both
succeed, and `moveItem` from (0,0) to (1,0) then returns `SUCCESS`, leaving (1,0) with 20
units of `A` and (0,0) with the remainder 3 (15 units are moved, not 2, and the remainder is
not 16). -/
theorem scenario_c_merge_fills_destination (dims : StoreId → Int × Int) (i : StoreId)
    (A : Item) (hw : 2 ≤ (dims i).1) (hh : 1 ≤ (dims i).2) (hsize : A.size = ⟨1, 1⟩)
    (hmax : A.stackLimit = 20) :
    ∃ h1 h2 h3,
      (freshHeap dims).placeItem i (some A) 18 ⟨0, 0⟩ = some (true, h1) ∧
      h1.placeItem i (some A) 5 ⟨1, 0⟩ = some (true, h2) ∧
      moveItem h2 (some i) ⟨0, 0⟩ (some i) ⟨1, 0⟩ = some (.SUCCESS, h3) ∧
      (h3 i).cell? 1 0 = some (setAnchor (some A) 20 (freshSlot 1 0)) ∧
      (h3 i).cell? 0 0 = some (setAnchor (some A) 3 (freshSlot 0 0)) := by
  have hsz := hsize
  have hlim := hmax
  have hinv0 : ((freshHeap dims) i).GridInv :=
    Inventory.GridInv.of_new_store (by omega) (by omega)
  have hfree0 : AreaFree ((freshHeap dims) i) ⟨0, 0⟩ A.size := by
    rw [hsz]
    exact areaFree_new (by omega) (by omega) _ _ (by decide) (by decide)
      (by show (0 : Int) + 1 ≤ _; omega) (by show (0 : Int) + 1 ≤ _; omega)
  have hfree0b : AreaFree ((freshHeap dims) i) ⟨1, 0⟩ A.size := by
    rw [hsz]
    exact areaFree_new (by omega) (by omega) _ _ (by decide) (by decide)
      (by show (1 : Int) + 1 ≤ _; omega) (by show (0 : Int) + 1 ≤ _; omega)
  have hp1 := heap_placeItem_ok hinv0.wf A 18 ⟨0, 0⟩ hfree0 (by decide) (by omega)
  have hinv1 := hinv0.occupy A 18 ⟨0, 0⟩ hfree0 (by decide) (by omega)
  have hdisj : ∀ x y, inRect ⟨1, 0⟩ A.size x y → ¬ inRect ⟨0, 0⟩ A.size x y := by
    intro x y h1 h2
    rw [hsz] at h1 h2
    unfold inRect at h1 h2
    change 1 ≤ x ∧ x < 1 + 1 ∧ 0 ≤ y ∧ y < 0 + 1 at h1
    change 0 ≤ x ∧ x < 0 + 1 ∧ 0 ≤ y ∧ y < 0 + 1 at h2
    omega
  have hfree1 := hfree0b.after_occupy ⟨0, 0⟩ A.size (some A) 18 hdisj
  have hp2 := heap_placeItem_ok
    (h := Function.update (freshHeap dims) i
      (((freshHeap dims) i).mapCells (occupyFn ⟨0, 0⟩ A.size (some A) 18))) (i := i)
    (by rw [Function.update_same]; exact hinv1.wf) A 5 ⟨1, 0⟩
    (by rw [Function.update_same]; exact hfree1) (by decide) (by omega)
  have hinv2 := hinv1.occupy A 5 ⟨1, 0⟩ hfree1 (by decide) (by omega)
  rw [Function.update_same, Function.update_idem] at hp2
  have hc0 : ((freshHeap dims) i).cell? 0 0 = some (freshSlot 0 0) :=
    cell?_new_of_inBounds (by decide) (by omega) (by decide) (by omega)
  have hc1 : ((freshHeap dims) i).cell? 1 0 = some (freshSlot 1 0) :=
    cell?_new_of_inBounds (by decide) (by omega) (by decide) (by omega)
  have hin00 : inRect ⟨0, 0⟩ A.size 0 0 := by rw [hsz]; decide
  have hin11 : inRect ⟨1, 0⟩ A.size 1 0 := by rw [hsz]; decide
  have hout01 : ¬ inRect ⟨0, 0⟩ A.size 1 0 := by rw [hsz]; decide
  have hout10 : ¬ inRect ⟨1, 0⟩ A.size 0 0 := by rw [hsz]; decide
  obtain ⟨h2, hh2⟩ : ∃ h2 : Heap, h2 = Function.update (freshHeap dims) i
      ((((freshHeap dims) i).mapCells (occupyFn ⟨0, 0⟩ A.size (some A) 18)).mapCells
        (occupyFn ⟨1, 0⟩ A.size (some A) 5)) := ⟨_, rfl⟩
  have e2 : h2 i = (((freshHeap dims) i).mapCells
      (occupyFn ⟨0, 0⟩ A.size (some A) 18)).mapCells (occupyFn ⟨1, 0⟩ A.size (some A) 5) := by
    rw [hh2, Function.update_same]
  have hs : (h2 i).cell? 0 0 = some (setAnchor (some A) 18 (freshSlot 0 0)) := by
    rw [e2, occupy_keep (cell?_mapCells_of_cell hc0) hout10]
    simp [occupyFn, hin00]
  have hds : (h2 i).cell? 1 0 = some (setAnchor (some A) 5 (freshSlot 1 0)) := by
    rw [e2, cell?_mapCells_of_cell (occupy_keep hc1 hout01)]
    simp [occupyFn, hin11]
  have hm := merge_eq h2 i i ⟨0, 0⟩ ⟨1, 0⟩ A _ _ (by rw [e2]; exact hinv2)
    (by rw [e2]; exact hinv2) hs rfl hds rfl (by simp)
    (by show 5 < A.stackLimit; omega) (by omega)
  rw [← hh2] at hp2
  refine ⟨_, h2, _, hp1, hp2, hm, ?_, ?_⟩
  · rw [mergedHeap_cell, hds]
    simp [setAnchor, withCount, sourceAfterMerge, hlim]
  · rw [mergedHeap_cell, hs]
    simp [setAnchor, withCount, sourceAfterMerge, hlim]

theorem scenario_c_merge_fills_destination_witness :
    (2 : Int) ≤ 12 ∧ (1 : Int) ≤ 5 ∧ chaosOrb.size = ⟨1, 1⟩ ∧ chaosOrb.stackLimit = 20 ∧
      ∃ h1 h2 h3,
        (freshHeap fun _ => (12, 5)).placeItem 0 (some chaosOrb) 18 ⟨0, 0⟩ = some (true, h1) ∧
        h1.placeItem 0 (some chaosOrb) 5 ⟨1, 0⟩ = some (true, h2) ∧
        moveItem h2 (some 0) ⟨0, 0⟩ (some 0) ⟨1, 0⟩ = some (.SUCCESS, h3) ∧
        (h3 0).cell? 1 0 = some (setAnchor (some chaosOrb) 20 (freshSlot 1 0)) ∧
        (h3 0).cell? 0 0 = some (setAnchor (some chaosOrb) 3 (freshSlot 0 0)) :=
  ⟨by decide, by decide, rfl, rfl,
    scenario_c_merge_fills_destination (fun _ => (12, 5)) 0 chaosOrb
      (by show (2 : Int) ≤ 12; decide) (by show (1 : Int) ≤ 5; decide) rfl rfl⟩

/-- Scenario C run on a 2x1 grid: the move returns `SUCCESS` and leaves 3 units at (0,0) and
20 at (1,0); the count left at (0,0) is not 16. -/
theorem scenario_c_remainder_is_three :
    ∃ h1 h2 h3,
      (freshHeap fun _ => (2, 1)).placeItem 0 (some chaosOrb) 18 ⟨0, 0⟩ = some (true, h1) ∧
      h1.placeItem 0 (some chaosOrb) 5 ⟨1, 0⟩ = some (true, h2) ∧
      moveItem h2 (some 0) ⟨0, 0⟩ (some 0) ⟨1, 0⟩ = some (.SUCCESS, h3) ∧
      ((h3 0).cell? 1 0).map (fun c => c.stackCount) = some 20 ∧
      ((h3 0).cell? 0 0).map (fun c => c.stackCount) = some 3 ∧
      ((h3 0).cell? 0 0).map (fun c => c.stackCount) ≠ some 16 :=
  ⟨_, _, _, rfl, rfl, rfl, by decide, by decide, by decide⟩

/-! ### Moves that do not fit: `NO_SPACE` and `ITEM_NOT_FOUND` -/

/-- When the moved item does not fit at the destination (its own footprint counted as free),
`moveItem` continues with the merge test on the heap it started from. -/
theorem moveItem_no_fit_eq (h : Heap) (src dst : StoreId) (sourcePos destPos : GridPosition)
    (s : InventorySlot) (item : Item) (hsrc : (h src).GridInv) (hdst : (h dst).GridInv)
    (hs : (h src).cell? sourcePos.x sourcePos.y = some s) (hitem : s.item = some item)
    (hfit : ¬ ∀ x y, inRect destPos item.size x y →
      ∃ c, (h dst).cell? x y = some c ∧
        ((c.isEmpty = true ∧ c.isOccupied = false) ∨
          (src = dst ∧ inRect sourcePos item.size x y))) :
    moveItem h (some src) sourcePos (some dst) destPos =
      mergeOrNoSpace h src sourcePos dst destPos item s.stackCount := by
  have hcnt := hsrc.count _ _ s item hs hitem
  have hwf1 : ((Function.update h src
      ((h src).mapCells (clearFn sourcePos item.size))) dst).WF := by
    by_cases hsd : dst = src
    · subst hsd
      rw [Function.update_same]
      exact hdst.wf.mapCells _ (clearFn_position _ _)
    · rw [Function.update_noteq hsd]
      exact hdst.wf
  unfold moveItem
  simp only [getSlot_eq hsrc.wf, hs, hitem]
  by_cases hov : (decide (src = dst) && boxesOverlap sourcePos destPos item.size) = true
  · have hnf : ¬ AreaFree ((Function.update h src
        ((h src).mapCells (clearFn sourcePos item.size))) dst) destPos item.size :=
      fun hf => hfit (fit_of_areaFree_after_hold hf)
    have hrem := heap_removeItem_ok hsrc.wf sourcePos s item hs hitem (by omega)
    have hback := heap_placeItem_ok
      (h := Function.update h src ((h src).mapCells (clearFn sourcePos item.size)))
      (i := src)
      (by rw [Function.update_same]; exact hsrc.wf.mapCells _ (clearFn_position _ _))
      item s.stackCount sourcePos
      (by rw [Function.update_same]; exact areaFree_after_clear hsrc _ s item hs hitem)
      (by omega) hcnt.2
    rw [Function.update_same, Function.update_idem,
      restore_anchor hsrc sourcePos s item hs hitem, Function.update_eq_self] at hback
    simp only [hov, if_true, hrem]
    unfold moveAfterHold
    simp only [canPlaceItem_of_not_free hwf1 item destPos hnf, Option.isSome_some,
      if_true, hback]
  · have hnf : ¬ AreaFree (h dst) destPos item.size := by
      intro hf
      apply hfit
      intro x y hxy
      obtain ⟨c, hc, he, ho⟩ := hf x y hxy
      exact ⟨c, hc, Or.inl ⟨he, ho⟩⟩
    simp only [hov, if_false]
    unfold moveAfterHold
    simp only [canPlaceItem_of_not_free hdst.wf item destPos hnf, Option.isSome_none,
      Bool.false_eq_true, if_false]

/-- C12: for stores satisfying the grid invariants, a source anchor at `sp` and a different
destination cell `dp` that anchors either an item with a different id, or an item with the
same id whose stack count already equals the stack maximum: `moveItem` returns `NO_SPACE`
and the heap is the one before the call, so no units are merged and both stacks keep their
counts. -/
theorem moveItem_full_or_foreign_destination (h : Heap) (src dst : StoreId)
    (sp dp : GridPosition) (s ds : InventorySlot) (item ditem : Item)
    (hsrc : (h src).GridInv) (hdst : (h dst).GridInv)
    (hs : (h src).cell? sp.x sp.y = some s) (hitem : s.item = some item)
    (hds : (h dst).cell? dp.x dp.y = some ds) (hditem : ds.item = some ditem)
    (hne : ¬ (src = dst ∧ sp = dp))
    (hcase : ditem.id ≠ item.id ∨ (ditem.id = item.id ∧ ds.stackCount = item.stackLimit)) :
    ∃ h1, moveItem h (some src) sp (some dst) dp = some (.NO_SPACE, h1) ∧ h1 = h ∧
      (h1 src).cell? sp.x sp.y = some s ∧ (h1 dst).cell? dp.x dp.y = some ds := by
  have hsz := hsrc.size _ _ s item hs hitem
  have hfit : ¬ ∀ x y, inRect dp item.size x y →
      ∃ c, (h dst).cell? x y = some c ∧
        ((c.isEmpty = true ∧ c.isOccupied = false) ∨
          (src = dst ∧ inRect sp item.size x y)) := by
    intro hf
    have hin : inRect dp item.size dp.x dp.y := by
      unfold inRect
      omega
    obtain ⟨c, hc, hcase1⟩ := hf dp.x dp.y hin
    rw [hds] at hc
    cases hc
    rcases hcase1 with ⟨he, _⟩ | ⟨rfl, hin2⟩
    · have := (hdst.count _ _ ds ditem hds hditem).1
      simp [InventorySlot.isEmpty, hditem] at he
      omega
    · obtain ⟨e1, e2⟩ := hsrc.item_in_footprint hs hitem hds hditem hin2
      apply hne
      refine ⟨rfl, ?_⟩
      cases sp
      cases dp
      simp_all
  refine ⟨h, ?_, rfl, hs, hds⟩
  rw [moveItem_no_fit_eq h src dst sp dp s item hsrc hdst hs hitem hfit]
  unfold mergeOrNoSpace
  simp only [getSlot_eq hdst.wf, hds, hditem]
  have hcond : ¬ (ditem.id = item.id ∧ ds.stackCount < item.stackLimit) := by
    rintro ⟨h1, h2⟩
    rcases hcase with h3 | ⟨_, h4⟩
    · exact h3 h1
    · omega
  rw [if_neg hcond]


theorem fullStackStore_inv : fullStackStore.GridInv := by
  have h0 : (Inventory.new 3 1).GridInv :=
    Inventory.GridInv.of_new_store (by decide) (by decide)
  have e1 : (Inventory.new 3 1).placeItem (some chaosOrb) 5 ⟨0, 0⟩ =
      some (true, (Inventory.new 3 1).mapCells (occupyFn ⟨0, 0⟩ ⟨1, 1⟩ (some chaosOrb) 5)) :=
    rfl
  have e2 : ((Inventory.new 3 1).mapCells
      (occupyFn ⟨0, 0⟩ ⟨1, 1⟩ (some chaosOrb) 5)).placeItem (some chaosOrb) 20 ⟨1, 0⟩ =
      some (true, fullStackStore) := rfl
  exact (h0.placeItem_preserves e1).placeItem_preserves e2

theorem moveItem_full_or_foreign_destination_witness :
    fullStackStore.GridInv ∧
      (fullStackHeap 0).cell? 0 0 = some (setAnchor (some chaosOrb) 5 (freshSlot 0 0)) ∧
      (fullStackHeap 0).cell? 1 0 = some (setAnchor (some chaosOrb) 20 (freshSlot 1 0)) ∧
      ∃ h1, moveItem fullStackHeap (some 0) ⟨0, 0⟩ (some 0) ⟨1, 0⟩ = some (.NO_SPACE, h1) ∧
        h1 = fullStackHeap ∧
        (h1 0).cell? 0 0 = some (setAnchor (some chaosOrb) 5 (freshSlot 0 0)) ∧
        (h1 0).cell? 1 0 = some (setAnchor (some chaosOrb) 20 (freshSlot 1 0)) :=
  ⟨fullStackStore_inv, by decide, by decide,
    moveItem_full_or_foreign_destination fullStackHeap 0 0 ⟨0, 0⟩ ⟨1, 0⟩
      (setAnchor (some chaosOrb) 5 (freshSlot 0 0)) (setAnchor (some chaosOrb) 20 (freshSlot 1 0))
      chaosOrb chaosOrb fullStackStore_inv fullStackStore_inv (by decide) rfl (by decide) rfl
      (by decide) (Or.inr ⟨rfl, rfl⟩)⟩

/-! ### Result codes of a move whose source is an anchor -/

theorem mergeStacks_result {h h1 : Heap} {src dst : StoreId} {sp dp : GridPosition}
    {item : Item} {n : Nat} {ds : InventorySlot} {r : OperationResult}
    (hm : mergeStacks h src sp dst dp item n ds = some (r, h1)) :
    r = .SUCCESS ∨ r = .NO_SPACE ∨ r = .CONCURRENT_MODIFICATION := by
  unfold mergeStacks at hm
  simp only at hm
  repeat' split at hm
  all_goals cases hm
  all_goals simp

theorem mergeOrNoSpace_result {h h1 : Heap} {src dst : StoreId} {sp dp : GridPosition}
    {item : Item} {n : Nat} {r : OperationResult}
    (hm : mergeOrNoSpace h src sp dst dp item n = some (r, h1)) :
    r = .SUCCESS ∨ r = .NO_SPACE ∨ r = .CONCURRENT_MODIFICATION := by
  unfold mergeOrNoSpace at hm
  repeat' split at hm
  all_goals first
    | exact mergeStacks_result hm
    | (cases hm; done)
    | (cases hm; simp)

theorem moveAfterHold_result {h h1 : Heap} {src dst : StoreId} {sp dp : GridPosition}
    {item : Item} {n : Nat} {t : Option InventorySlot} {r : OperationResult}
    (hm : moveAfterHold h src sp dst dp item n t = some (r, h1)) :
    r = .SUCCESS ∨ r = .NO_SPACE ∨ r = .CONCURRENT_MODIFICATION := by
  unfold moveAfterHold at hm
  cases t with
  | none =>
    simp only [Option.isSome_none, Bool.false_eq_true, if_false] at hm
    repeat' split at hm
    all_goals first
      | exact mergeOrNoSpace_result hm
      | (cases hm; done)
      | (cases hm; simp)
  | some slot =>
    simp only [Option.isSome_some, if_true] at hm
    repeat' split at hm
    all_goals first
      | exact mergeOrNoSpace_result hm
      | (cases hm; done)
      | (cases hm; simp)

/-- Once the source cell holds an item, `moveItem` returns `SUCCESS`, `NO_SPACE` or
`CONCURRENT_MODIFICATION`. -/
theorem moveItem_result_of_item {h h1 : Heap} {src dst : StoreId} {sp dp : GridPosition}
    {s : InventorySlot} {item : Item} {r : OperationResult} (hwf : (h src).WF)
    (hs : (h src).cell? sp.x sp.y = some s) (hitem : s.item = some item)
    (hm : moveItem h (some src) sp (some dst) dp = some (r, h1)) :
    r = .SUCCESS ∨ r = .NO_SPACE ∨ r = .CONCURRENT_MODIFICATION := by
  unfold moveItem at hm
  simp only [getSlot_eq hwf, hs, hitem] at hm
  repeat' split at hm
  all_goals first
    | exact moveAfterHold_result hm
    | (cases hm; done)
    | (cases hm; simp)

/-- C13 (amended): for stores satisfying the grid invariants and a source anchor at `sp`: when
the destination has no anchor at `dp` and the item's footprint anchored at `dp` lies wholly or
partly outside the destination grid, `moveItem` returns `NO_SPACE` (not `ITEM_NOT_FOUND`) and
the heap is the one before the call; for a source anchor no destination at all makes
`moveItem` return `ITEM_NOT_FOUND`. -/
theorem moveItem_out_of_bounds_destination (h : Heap) (src dst : StoreId)
    (sp dp : GridPosition) (s : InventorySlot) (item : Item)
    (hsrc : (h src).GridInv) (hdst : (h dst).GridInv)
    (hs : (h src).cell? sp.x sp.y = some s) (hitem : s.item = some item)
    (hnoanchor : ∀ ds, (h dst).cell? dp.x dp.y = some ds → ds.item = none)
    (hout : ∃ x y, inRect dp item.size x y ∧ ¬ (h dst).InBounds x y) :
    moveItem h (some src) sp (some dst) dp = some (.NO_SPACE, h) ∧
      ∀ q r h1, moveItem h (some src) sp (some dst) q = some (r, h1) →
        r ≠ .ITEM_NOT_FOUND := by
  constructor
  · have hfit : ¬ ∀ x y, inRect dp item.size x y →
        ∃ c, (h dst).cell? x y = some c ∧
          ((c.isEmpty = true ∧ c.isOccupied = false) ∨
            (src = dst ∧ inRect sp item.size x y)) := by
      intro hf
      obtain ⟨x, y, hin, hnb⟩ := hout
      obtain ⟨c, hc, _⟩ := hf x y hin
      apply hnb
      have hv := (isPositionValid_mk_iff _ _ _).mp (hdst.wf.valid_of_cell hc)
      exact hv
    rw [moveItem_no_fit_eq h src dst sp dp s item hsrc hdst hs hitem hfit]
    unfold mergeOrNoSpace
    rw [getSlot_eq hdst.wf]
    cases hds : (h dst).cell? dp.x dp.y with
    | none => rfl
    | some ds => simp only [hnoanchor ds hds]
  · intro q r h1 hm
    rcases moveItem_result_of_item hsrc.wf hs hitem hm with rfl | rfl | rfl <;> simp

theorem moveItem_out_of_bounds_destination_witness :
    (sampleHeap 0).GridInv ∧
      (sampleHeap 0).cell? 0 0 = some (setAnchor (some starkonja) 1 (freshSlot 0 0)) ∧
      (∀ ds, (sampleHeap 0).cell? 2 0 = some ds → ds.item = none) ∧
      (∃ x y, inRect ⟨2, 0⟩ starkonja.size x y ∧ ¬ (sampleHeap 0).InBounds x y) ∧
      moveItem sampleHeap (some 0) ⟨0, 0⟩ (some 0) ⟨2, 0⟩ = some (.NO_SPACE, sampleHeap) ∧
      ∀ q r h1, moveItem sampleHeap (some 0) ⟨0, 0⟩ (some 0) q = some (r, h1) →
        r ≠ .ITEM_NOT_FOUND :=
  have hno : ∀ ds, (sampleHeap 0).cell? 2 0 = some ds → ds.item = none := by
    intro ds hds
    have e : (sampleHeap 0).cell? 2 0 = some (freshSlot 2 0) := by decide
    rw [e] at hds
    cases hds
    rfl
  have hout : ∃ x y, inRect ⟨2, 0⟩ starkonja.size x y ∧ ¬ (sampleHeap 0).InBounds x y :=
    ⟨3, 0, by decide, by unfold Inventory.InBounds; decide⟩
  ⟨sampleHeap_inv 0, by decide, hno, hout,
    moveItem_out_of_bounds_destination sampleHeap 0 0 ⟨0, 0⟩ ⟨2, 0⟩
      (setAnchor (some starkonja) 1 (freshSlot 0 0)) starkonja (sampleHeap_inv 0)
      (sampleHeap_inv 0) (by decide) rfl hno hout⟩

/-- C13 as stated fails: store 0 holds a 2x2 item anchored at (0,0) and store 1 is an empty
3x2 grid, both satisfying the grid invariants; the footprint anchored at (2,1) of store 1
leaves the grid (cell (3,2) is outside) and (2,1) holds no anchor, yet `moveItem` returns
`NO_SPACE`, not `ITEM_NOT_FOUND`. -/
theorem moveItem_out_of_bounds_returns_no_space :
    (sampleHeap 0).GridInv ∧ (sampleHeap 1).GridInv ∧
      (sampleHeap 0).cell? 0 0 = some (setAnchor (some starkonja) 1 (freshSlot 0 0)) ∧
      (sampleHeap 1).cell? 2 1 = some (freshSlot 2 1) ∧
      inRect ⟨2, 1⟩ starkonja.size 3 2 ∧ ¬ (sampleHeap 1).InBounds 3 2 ∧
      (moveItem sampleHeap (some 0) ⟨0, 0⟩ (some 1) ⟨2, 1⟩).map (fun p => p.1) =
        some .NO_SPACE ∧
      (moveItem sampleHeap (some 0) ⟨0, 0⟩ (some 1) ⟨2, 1⟩).map (fun p => p.1) ≠
        some .ITEM_NOT_FOUND :=
  ⟨sampleHeap_inv 0, sampleHeap_inv 1, by decide, by decide, by decide,
    by unfold Inventory.InBounds; decide, by decide, by decide⟩

/-- Under the grid invariants a cell that is empty or covered holds no item reference. -/
theorem Inventory.GridInv.item_none_of_empty_or_covered {inv : Inventory} (hinv : inv.GridInv)
    {x y : Int} {s : InventorySlot} (hs : inv.cell? x y = some s)
    (he : s.isEmpty = true ∨ s.isOccupied = true) : s.item = none := by
  cases hit : s.item with
  | none => rfl
  | some it =>
    exfalso
    have hc := (hinv.count x y s it hs hit).1
    have hf := hinv.anchorFlag x y s it hs hit
    rcases he with he | ho
    · simp [InventorySlot.isEmpty, hit] at he
      omega
    · rw [hf] at ho
      cases ho

/-- C14: for present stores satisfying the grid invariants and every `dp`: `moveItem` returns
`ITEM_NOT_FOUND`, leaving the heap as it was, whenever `sp` is outside the source grid, or is
a cell that is empty, or is a covered (non-anchor) cell; and whenever `moveItem` returns
anything else, `sp` is an anchor cell (item reference, count of at least 1, not covered). -/
theorem moveItem_source_must_be_anchor (h : Heap) (hi : HeapInv h) (src dst : StoreId)
    (sp dp : GridPosition) :
    ((¬ (h src).InBounds sp.x sp.y ∨
        ∃ s, (h src).cell? sp.x sp.y = some s ∧ (s.isEmpty = true ∨ s.isOccupied = true)) →
      moveItem h (some src) sp (some dst) dp = some (.ITEM_NOT_FOUND, h)) ∧
    ∃ r h1, moveItem h (some src) sp (some dst) dp = some (r, h1) ∧
      (r ≠ .ITEM_NOT_FOUND →
        ∃ s it, (h src).cell? sp.x sp.y = some s ∧ s.item = some it ∧ 1 ≤ s.stackCount ∧
          s.isOccupied = false) := by
  have hsrc := hi src
  constructor
  · rintro (hout | ⟨s, hs, he⟩)
    · have hnone : (h src).cell? sp.x sp.y = none := by
        apply hsrc.wf.cell_none_of_invalid
        intro hv
        exact hout ((isPositionValid_mk_iff _ _ _).mp hv)
      unfold moveItem
      simp only [getSlot_eq hsrc.wf, hnone]
    · have hnone := hsrc.item_none_of_empty_or_covered hs he
      unfold moveItem
      simp only [getSlot_eq hsrc.wf, hs, hnone]
  · cases hm : moveItem h (some src) sp (some dst) dp with
    | none => exact absurd hm (moveItem_ne_none hi _ _ _ _)
    | some p =>
      obtain ⟨r, h1⟩ := p
      refine ⟨r, h1, rfl, fun hne => ?_⟩
      cases hs : (h src).cell? sp.x sp.y with
      | none =>
        exfalso
        unfold moveItem at hm
        simp only [getSlot_eq hsrc.wf, hs] at hm
        cases hm
        exact hne rfl
      | some s =>
        cases hit : s.item with
        | none =>
          exfalso
          unfold moveItem at hm
          simp only [getSlot_eq hsrc.wf, hs, hit] at hm
          cases hm
          exact hne rfl
        | some it =>
          exact ⟨s, it, rfl, hit, (hsrc.count _ _ s it hs hit).1,
            hsrc.anchorFlag _ _ s it hs hit⟩


theorem moveItem_source_must_be_anchor_witness :
    HeapInv sampleHeap ∧
      (moveItem sampleHeap (some 0) ⟨1, 1⟩ (some 1) ⟨0, 0⟩).map (fun p => p.1) =
        some .ITEM_NOT_FOUND ∧
      (moveItem sampleHeap (some 0) ⟨2, 0⟩ (some 1) ⟨0, 0⟩).map (fun p => p.1) =
        some .ITEM_NOT_FOUND ∧
      (moveItem sampleHeap (some 0) ⟨3, 0⟩ (some 1) ⟨0, 0⟩).map (fun p => p.1) =
        some .ITEM_NOT_FOUND := by
  have hcov := (moveItem_source_must_be_anchor sampleHeap sampleHeap_inv 0 1 ⟨1, 1⟩ ⟨0, 0⟩).1
    (Or.inr ⟨_, (by decide : (sampleHeap 0).cell? 1 1 = some (setCovered (freshSlot 1 1))),
      Or.inr rfl⟩)
  have hemp := (moveItem_source_must_be_anchor sampleHeap sampleHeap_inv 0 1 ⟨2, 0⟩ ⟨0, 0⟩).1
    (Or.inr ⟨_, (by decide : (sampleHeap 0).cell? 2 0 = some (freshSlot 2 0)), Or.inl rfl⟩)
  have hout := (moveItem_source_must_be_anchor sampleHeap sampleHeap_inv 0 1 ⟨3, 0⟩ ⟨0, 0⟩).1
    (Or.inl (by unfold Inventory.InBounds; decide))
  rw [hcov, hemp, hout]
  exact ⟨sampleHeap_inv, rfl, rfl, rfl⟩

/-! ### Splitting a stack -/

theorem toInt32_le (n : Nat) : toInt32 n ≤ (n : Int) := by
  unfold toInt32
  split <;> omega

/-- C15: on a present store with the class invariant, `splitStack` returns
`INVALID_STACK_SIZE` (heap unchanged) whenever `amount ≤ 0`, whatever is at `pos`, and
whenever `pos` holds an item and `amount` is at least its stack count; so the whole stack
cannot be split off, and a stack of count 1 cannot be split by any amount. -/
theorem splitStack_invalid_stack_size (h : Heap) (i : StoreId) (hwf : (h i).WF)
    (pos destPos : GridPosition) (amount : Int) :
    (amount ≤ 0 → splitStack h (some i) pos amount destPos = some (.INVALID_STACK_SIZE, h)) ∧
    (∀ s it, (h i).cell? pos.x pos.y = some s → s.item = some it →
      ((s.stackCount : Int) ≤ amount →
        splitStack h (some i) pos amount destPos = some (.INVALID_STACK_SIZE, h)) ∧
      splitStack h (some i) pos (s.stackCount : Int) destPos = some (.INVALID_STACK_SIZE, h) ∧
      (s.stackCount = 1 →
        splitStack h (some i) pos amount destPos = some (.INVALID_STACK_SIZE, h))) := by
  have hle : amount ≤ 0 →
      splitStack h (some i) pos amount destPos = some (.INVALID_STACK_SIZE, h) := by
    intro ha
    unfold splitStack
    simp only [ha, if_true]
  have hge : ∀ (a : Int) s it, (h i).cell? pos.x pos.y = some s → s.item = some it →
      (s.stackCount : Int) ≤ a →
      splitStack h (some i) pos a destPos = some (.INVALID_STACK_SIZE, h) := by
    intro a s it hs hit hc
    unfold splitStack
    by_cases ha : a ≤ 0
    · simp only [ha, if_true]
    · have hcast : toInt32 s.stackCount ≤ a := le_trans (toInt32_le _) hc
      simp only [ha, if_false, getSlot_eq hwf, hs, hit, hcast, if_true]
  refine ⟨hle, fun s it hs hit => ⟨hge amount s it hs hit, hge _ s it hs hit le_rfl, ?_⟩⟩
  intro h1
  by_cases ha : amount ≤ 0
  · exact hle ha
  · exact hge amount s it hs hit (by omega)

theorem splitStack_invalid_stack_size_witness :
    (sampleHeap 0).WF ∧
      (sampleHeap 0).cell? 0 0 = some (setAnchor (some starkonja) 1 (freshSlot 0 0)) ∧
      splitStack sampleHeap (some 0) ⟨0, 0⟩ 1 ⟨2, 0⟩ = some (.INVALID_STACK_SIZE, sampleHeap) ∧
      splitStack sampleHeap (some 0) ⟨0, 0⟩ 0 ⟨2, 0⟩ = some (.INVALID_STACK_SIZE, sampleHeap) :=
  ⟨(sampleHeap_inv 0).wf, by decide,
    ((splitStack_invalid_stack_size sampleHeap 0 (sampleHeap_inv 0).wf ⟨0, 0⟩ ⟨2, 0⟩ 1).2
      (setAnchor (some starkonja) 1 (freshSlot 0 0)) starkonja (by decide) rfl).2.2 rfl,
    (splitStack_invalid_stack_size sampleHeap 0 (sampleHeap_inv 0).wf ⟨0, 0⟩ ⟨2, 0⟩ 0).1
      (by decide)⟩

/-- The quantities of `splitStack` once both size checks have passed: the amount and the
remainder are non-zero counts below the original count. -/
theorem split_arith {c : Nat} {amount : Int} (h0 : ¬ amount ≤ 0)
    (h1 : ¬ toInt32 c ≤ amount) :
    toUInt32 amount ≠ 0 ∧ toUInt32 amount ≤ c ∧ toUInt32 ((c : Int) - amount) ≠ 0 ∧
      toUInt32 ((c : Int) - amount) ≤ c := by
  unfold toInt32 at h1
  unfold toUInt32
  split at h1 <;> omega

/-- A footprint that is free shares no cell with the footprint of an anchor. -/
theorem AreaFree.disjoint_anchor {inv : Inventory} {pos q : GridPosition} {size : ItemSize}
    (hfree : AreaFree inv q size) (hinv : inv.GridInv) {s : InventorySlot} {it : Item}
    (hs : inv.cell? pos.x pos.y = some s) (hit : s.item = some it) :
    ∀ x y, inRect pos it.size x y → ¬ inRect q size x y := by
  intro x y hin
  by_cases ha : x = pos.x ∧ y = pos.y
  · obtain ⟨rfl, rfl⟩ := ha
    exact hfree.not_item hinv hs hit
  · obtain ⟨c, hc, _, hocc⟩ := hinv.footprint _ _ s it hs hit x y hin ha
    exact hfree.not_covered hc hocc

theorem splitStack_no_fit_eq (h : Heap) (i : StoreId) (pos destPos : GridPosition)
    (amount : Int) (s : InventorySlot) (item : Item) (hinv : (h i).GridInv)
    (hs : (h i).cell? pos.x pos.y = some s) (hitem : s.item = some item)
    (h0 : ¬ amount ≤ 0) (h1 : ¬ toInt32 s.stackCount ≤ amount)
    (hnf : ¬ AreaFree (h i) destPos item.size) :
    splitStack h (some i) pos amount destPos = some (.NO_SPACE, h) := by
  unfold splitStack
  simp only [h0, if_false, getSlot_eq hinv.wf, hs, hitem, h1,
    canPlaceItem_of_not_free hinv.wf item destPos hnf]

theorem splitStack_fit_eq (h : Heap) (i : StoreId) (pos destPos : GridPosition)
    (amount : Int) (s : InventorySlot) (item : Item) (hinv : (h i).GridInv)
    (hs : (h i).cell? pos.x pos.y = some s) (hitem : s.item = some item)
    (h0 : ¬ amount ≤ 0) (h1 : ¬ toInt32 s.stackCount ≤ amount)
    (hfree : AreaFree (h i) destPos item.size) :
    splitStack h (some i) pos amount destPos =
      some (.SUCCESS, Function.update h i
        (((h i).mapCells (withCount pos (toUInt32 ((s.stackCount : Int) - amount)))).mapCells
          (occupyFn destPos item.size (some item) (toUInt32 amount)))) := by
  obtain ⟨ha0, hac, hr0, hrc⟩ := split_arith h0 h1
  have hcnt := hinv.count _ _ s item hs hitem
  have hdisj := hfree.disjoint_anchor hinv hs hitem
  have hwf1 := hinv.wf.mapCells (clearFn pos item.size) (clearFn_position _ _)
  have hrem := heap_removeItem_ok hinv.wf pos s item hs hitem (by omega)
  have hplace1 := heap_placeItem_ok
    (h := Function.update h i ((h i).mapCells (clearFn pos item.size))) (i := i)
    (by rw [Function.update_same]; exact hwf1) item (toUInt32 amount) destPos
    (by rw [Function.update_same]; exact hfree.after_clear pos item.size) ha0 (by omega)
  rw [Function.update_same, Function.update_idem] at hplace1
  have hwf2 := hwf1.mapCells (occupyFn destPos item.size (some item) (toUInt32 amount))
    (occupyFn_position _ _ _ _)
  have hfree2 := (areaFree_after_clear hinv pos s item hs hitem).after_occupy destPos item.size
    (some item) (toUInt32 amount) hdisj
  have hplace2 := heap_placeItem_ok
    (h := Function.update h i (((h i).mapCells (clearFn pos item.size)).mapCells
      (occupyFn destPos item.size (some item) (toUInt32 amount)))) (i := i)
    (by rw [Function.update_same]; exact hwf2) item (toUInt32 ((s.stackCount : Int) - amount))
    pos (by rw [Function.update_same]; exact hfree2) hr0 (by omega)
  rw [Function.update_same, Function.update_idem,
    occupy_occupy_comm _ destPos pos item.size item.size _ _ _ _
      (fun x y hd hp => hdisj x y hp hd),
    replace_anchor hinv pos s item hs hitem] at hplace2
  unfold splitStack
  simp only [h0, if_false, getSlot_eq hinv.wf, hs, hitem, h1,
    canPlaceItem_of_free hinv.wf item destPos hfree, hrem, hplace1, hplace2]

/-- Split for a footprint of any size: for a store satisfying the grid invariants, an anchor
at `pos` with count c below 2^31 and an amount with 1 ≤ amount ≤ c - 1: `canPlaceItem` for
the item at `destPos`, evaluated on the store before the call, returns a flag; when it is
false, which is the case as soon as the destination footprint shares a cell with the source
footprint, `splitStack` returns `NO_SPACE` and leaves the heap as it was; when it is true
`splitStack` returns `SUCCESS`, the destination anchor holds exactly `amount` of the same
item, every other cell of the destination footprint becomes a covered cell, the source
anchor holds exactly c - amount, and no other cell of any store changes. -/
theorem splitStack_spec (h : Heap) (i : StoreId) (pos destPos : GridPosition) (amount : Int)
    (s : InventorySlot) (item : Item) (hinv : (h i).GridInv)
    (hs : (h i).cell? pos.x pos.y = some s) (hitem : s.item = some item)
    (hc : s.stackCount < 2147483648) (ha1 : 1 ≤ amount)
    (ha2 : amount ≤ (s.stackCount : Int) - 1) :
    ∃ b, (h i).canPlaceItem item destPos = some b ∧
      (b = false → splitStack h (some i) pos amount destPos = some (.NO_SPACE, h)) ∧
      ((∃ x y, inRect pos item.size x y ∧ inRect destPos item.size x y) → b = false) ∧
      (b = true →
        ∃ h1, splitStack h (some i) pos amount destPos = some (.SUCCESS, h1) ∧
          (∃ c, (h1 i).cell? destPos.x destPos.y = some c ∧ c.item = some item ∧
            c.stackCount = amount.toNat ∧ c.isOccupied = false) ∧
          (h1 i).cell? pos.x pos.y =
            some { s with stackCount := s.stackCount - amount.toNat } ∧
          (∀ x y, inRect destPos item.size x y → ¬ (x = destPos.x ∧ y = destPos.y) →
            ∃ c, (h1 i).cell? x y = some c ∧ c.item = none ∧ c.stackCount = 0 ∧
              c.isOccupied = true) ∧
          (∀ x y, ¬ inRect destPos item.size x y → ¬ (x = pos.x ∧ y = pos.y) →
            (h1 i).cell? x y = (h i).cell? x y) ∧
          ∀ j, j ≠ i → h1 j = h j) := by
  have h0 : ¬ amount ≤ 0 := by omega
  have h1 : ¬ toInt32 s.stackCount ≤ amount := by
    rw [toInt32_of_lt hc]
    omega
  have ea : toUInt32 amount = amount.toNat := by
    unfold toUInt32
    omega
  have er : toUInt32 ((s.stackCount : Int) - amount) = s.stackCount - amount.toNat := by
    unfold toUInt32
    omega
  have hsz := hinv.size _ _ s item hs hitem
  by_cases hfree : AreaFree (h i) destPos item.size
  swap
  · refine ⟨false, canPlaceItem_of_not_free hinv.wf item destPos hfree,
      fun _ => splitStack_no_fit_eq h i pos destPos amount s item hinv hs hitem h0 h1 hfree,
      fun _ => rfl, fun hb => by cases hb⟩
  · have hdisj := hfree.disjoint_anchor hinv hs hitem
    have hposin : inRect pos item.size pos.x pos.y := hinv.anchor_inRect hs hitem
    have hdin : inRect destPos item.size destPos.x destPos.y := by
      unfold inRect
      omega
    refine ⟨true, canPlaceItem_of_free hinv.wf item destPos hfree, (fun hb => by cases hb),
      ?_, fun _ => ?_⟩
    · rintro ⟨x, y, hp, hd⟩
      exact absurd hd (hdisj x y hp)
    · refine ⟨_, splitStack_fit_eq h i pos destPos amount s item hinv hs hitem h0 h1 hfree,
        ?_, ?_, ?_, ?_, ?_⟩
      · obtain ⟨c0, hc0, _, ho0⟩ := hfree _ _ hdin
        have hne : ¬ (destPos.x = pos.x ∧ destPos.y = pos.y) := by
          rintro ⟨e1, e2⟩
          apply hdisj _ _ hposin
          rw [← e1, ← e2]
          exact hdin
        refine ⟨setAnchor (some item) amount.toNat c0, ?_, rfl, rfl, rfl⟩
        rw [Function.update_same, ea,
          cell?_mapCells_of_cell (cell?_mapCells_of_cell hc0)]
        simp [occupyFn, withCount, hdin, hne]
      · rw [Function.update_same, er,
          cell?_occupy_outside _ _ _ (hdisj _ _ hposin), cell?_mapCells_of_cell hs]
        simp [withCount]
      · intro x y hin hna
        obtain ⟨c0, hc0, _, _⟩ := hfree x y hin
        refine ⟨setCovered (withCount pos (s.stackCount - amount.toNat) x y c0), ?_, rfl, rfl,
          rfl⟩
        rw [Function.update_same, er,
          cell?_mapCells_of_cell (cell?_mapCells_of_cell hc0)]
        simp [occupyFn, hin, hna]
      · intro x y hout hnp
        rw [Function.update_same, cell?_occupy_outside _ _ _ hout, cell?_mapCells]
        cases (h i).cell? x y with
        | none => rfl
        | some c => simp [withCount, hnp]
      · intro j hj
        rw [Function.update_noteq hj]

theorem splitStack_spec_witness :
    scenarioBStore.GridInv ∧
      (scenarioBHeap 0).cell? 0 0 = some (setAnchor (some chaosOrb) 5 (freshSlot 0 0)) ∧
      (5 : Nat) < 2147483648 ∧ (1 : Int) ≤ 2 ∧ (2 : Int) ≤ ((5 : Nat) : Int) - 1 ∧
      ∃ h1, splitStack scenarioBHeap (some 0) ⟨0, 0⟩ 2 ⟨2, 0⟩ = some (.SUCCESS, h1) ∧
        (∃ c, (h1 0).cell? 2 0 = some c ∧ c.item = some chaosOrb ∧ c.stackCount = 2 ∧
          c.isOccupied = false) ∧
        (h1 0).cell? 0 0 = some (setAnchor (some chaosOrb) 3 (freshSlot 0 0)) := by
  obtain ⟨b, hb, _, _, htrue⟩ :=
    splitStack_spec scenarioBHeap 0 ⟨0, 0⟩ ⟨2, 0⟩ 2
      (setAnchor (some chaosOrb) 5 (freshSlot 0 0)) chaosOrb scenarioBStore_inv (by decide) rfl
      (by decide) (by decide) (by decide)
  have e : (scenarioBHeap 0).canPlaceItem chaosOrb ⟨2, 0⟩ = some true := by decide
  rw [e] at hb
  cases hb
  obtain ⟨h1, hm, hdest, hsrc, _⟩ := htrue rfl
  exact ⟨scenarioBStore_inv, by decide, by decide, by decide, by decide, h1, hm, hdest, hsrc⟩

theorem bundleStackStore_inv : bundleStackStore.GridInv := by
  have h0 : (Inventory.new 4 1).GridInv :=
    Inventory.GridInv.of_new_store (by decide) (by decide)
  have e1 : (Inventory.new 4 1).placeItem (some bundle) 3 ⟨0, 0⟩ =
      some (true, bundleStackStore) := rfl
  exact h0.placeItem_preserves e1

/-- A split marks the whole destination footprint.  For a stackable item of more than one
cell, which the registry does not contain (3 units of a 2x1 item with limit 5 at (0,0) of a
4x1 store), `splitStack` of 1 unit to (2,0) returns `SUCCESS` with 1 unit at (2,0) and 2
units at (0,0), and the cell (3,0) of the destination footprint changes from empty to
covered. -/
theorem splitStack_covers_destination_footprint :
    bundleStackStore.GridInv ∧
      (bundleStackHeap 0).cell? 0 0 = some (setAnchor (some bundle) 3 (freshSlot 0 0)) ∧
      ((bundleStackHeap 0).cell? 3 0).map (fun c => (c.item, c.stackCount, c.isOccupied)) =
        some (none, 0, false) ∧
      (bundleStackHeap 0).canPlaceItem bundle ⟨2, 0⟩ = some true ∧
      ∃ h1, splitStack bundleStackHeap (some 0) ⟨0, 0⟩ 1 ⟨2, 0⟩ = some (.SUCCESS, h1) ∧
        ((h1 0).cell? 2 0).map (fun c => (c.item, c.stackCount)) = some (some bundle, 1) ∧
        ((h1 0).cell? 0 0).map (fun c => (c.item, c.stackCount)) = some (some bundle, 2) ∧
        ((h1 0).cell? 3 0).map (fun c => (c.item, c.stackCount, c.isOccupied)) =
          some (none, 0, true) :=
  ⟨bundleStackStore_inv, by decide, by decide, by decide, _, rfl, by decide, by decide,
    by decide⟩

theorem bulkSingleStore_inv : bulkSingleStore.GridInv := by
  have h0 : (Inventory.new 2 1).GridInv :=
    Inventory.GridInv.of_new_store (by decide) (by decide)
  have e1 : (Inventory.new 2 1).placeItem (some bulkItem) 2500000000 ⟨0, 0⟩ =
      some (true, bulkSingleStore) := by decide
  exact h0.placeItem_preserves e1

/-- The bound on the count in `splitStack_fit_eq` cannot be dropped.  With 2500000000 units
of an item with limit 3000000000, which no item of the registry has, at (0,0) of a 2x1 store
and (1,0) free, `splitStack` of 1 unit to (1,0) returns `INVALID_STACK_SIZE`, because the
count is compared after its conversion to `int`. -/
theorem split_rejects_count_above_int_max :
    bulkSingleStore.GridInv ∧
      (bulkSingleHeap 0).cell? 0 0 =
        some (setAnchor (some bulkItem) 2500000000 (freshSlot 0 0)) ∧
      (bulkSingleHeap 0).canPlaceItem bulkItem ⟨1, 0⟩ = some true ∧
      (splitStack bulkSingleHeap (some 0) ⟨0, 0⟩ 1 ⟨1, 0⟩).map (fun p => p.1) =
        some .INVALID_STACK_SIZE :=
  ⟨bulkSingleStore_inv, by decide, by decide, by decide⟩

/-- C17: for every store satisfying the grid invariants and every `pos`, `amount` and
`destPos`: `splitStack` returns, and if the result is anything other than `SUCCESS` the heap
(hence the store, cell for cell) is identical to the one before the call. -/
theorem splitStack_failure_leaves_store (h : Heap) (i : StoreId) (hinv : (h i).GridInv)
    (pos destPos : GridPosition) (amount : Int) :
    ∃ r h1, splitStack h (some i) pos amount destPos = some (r, h1) ∧
      (r ≠ .SUCCESS → h1 = h ∧ ∀ x y, (h1 i).cell? x y = (h i).cell? x y) := by
  have hfail : ∀ r, splitStack h (some i) pos amount destPos = some (r, h) →
      ∃ r h1, splitStack h (some i) pos amount destPos = some (r, h1) ∧
        (r ≠ .SUCCESS → h1 = h ∧ ∀ x y, (h1 i).cell? x y = (h i).cell? x y) :=
    fun r hm => ⟨r, h, hm, fun _ => ⟨rfl, fun _ _ => rfl⟩⟩
  by_cases h0 : amount ≤ 0
  · apply hfail .INVALID_STACK_SIZE
    unfold splitStack
    simp only [h0, if_true]
  cases hs : (h i).cell? pos.x pos.y with
  | none =>
    apply hfail .ITEM_NOT_FOUND
    unfold splitStack
    simp only [h0, if_false, getSlot_eq hinv.wf, hs]
  | some s =>
    cases hitem : s.item with
    | none =>
      apply hfail .ITEM_NOT_FOUND
      unfold splitStack
      simp only [h0, if_false, getSlot_eq hinv.wf, hs, hitem]
    | some item =>
      by_cases h1 : toInt32 s.stackCount ≤ amount
      · apply hfail .INVALID_STACK_SIZE
        unfold splitStack
        simp only [h0, if_false, getSlot_eq hinv.wf, hs, hitem, h1, if_true]
      by_cases hfree : AreaFree (h i) destPos item.size
      · exact ⟨_, _, splitStack_fit_eq h i pos destPos amount s item hinv hs hitem h0 h1 hfree,
          fun hne => absurd rfl hne⟩
      · exact hfail .NO_SPACE
          (splitStack_no_fit_eq h i pos destPos amount s item hinv hs hitem h0 h1 hfree)

theorem splitStack_failure_leaves_store_witness :
    (scenarioBHeap 0).GridInv ∧
      ∃ r h1, splitStack scenarioBHeap (some 0) ⟨0, 0⟩ 2 ⟨1, 0⟩ = some (r, h1) ∧
        (r ≠ .SUCCESS →
          h1 = scenarioBHeap ∧ ∀ x y, (h1 0).cell? x y = (scenarioBHeap 0).cell? x y) :=
  ⟨scenarioBStore_inv,
    splitStack_failure_leaves_store scenarioBHeap 0 scenarioBStore_inv ⟨0, 0⟩ ⟨1, 0⟩ 2⟩

/-! ### The wire frame -/

/-- The four length bytes combined by shifts and bitwise or, as in `deserialize`, are the
big-endian value of the bytes. -/
theorem or_bytes {d1 d2 d3 d4 : Nat} (h1 : d1 < 256) (h2 : d2 < 256) (h3 : d3 < 256)
    (h4 : d4 < 256) :
    (((d1 <<< 24) % 4294967296) ||| ((d2 <<< 16) % 4294967296) |||
        ((d3 <<< 8) % 4294967296) ||| d4) % 4294967296 =
      d1 * 16777216 + d2 * 65536 + d3 * 256 + d4 := by
  have e1 : (d1 <<< 24) % 4294967296 = 2 ^ 24 * d1 := by
    rw [Nat.shiftLeft_eq, Nat.mod_eq_of_lt (by omega)]
    omega
  have e2 : (d2 <<< 16) % 4294967296 = d2 * 65536 := by
    rw [Nat.shiftLeft_eq, Nat.mod_eq_of_lt (by omega)]
  have e3 : (d3 <<< 8) % 4294967296 = d3 * 256 := by
    rw [Nat.shiftLeft_eq, Nat.mod_eq_of_lt (by omega)]
  rw [e1, e2, e3]
  have s1 : 2 ^ 24 * d1 ||| d2 * 65536 = 2 ^ 16 * (d1 * 256 + d2) := by
    rw [← Nat.mul_add_lt_is_or (by omega : d2 * 65536 < 2 ^ 24) d1]
    omega
  rw [s1]
  have s2 : 2 ^ 16 * (d1 * 256 + d2) ||| d3 * 256 = 2 ^ 8 * (d1 * 65536 + d2 * 256 + d3) := by
    rw [← Nat.mul_add_lt_is_or (by omega : d3 * 256 < 2 ^ 16) (d1 * 256 + d2)]
    omega
  rw [s2, ← Nat.mul_add_lt_is_or (by omega : d4 < 2 ^ 8) (d1 * 65536 + d2 * 256 + d3),
    Nat.mod_eq_of_lt (by omega)]
  omega

theorem and_255 (x : Nat) : x &&& 0xFF = x % 256 :=
  Nat.and_pow_two_sub_one_eq_mod x 8

theorem serialize_eq (m : NetworkMessage) :
    m.serialize =
      (m.type % 256) :: (bigEndian32 (m.payload.length % 4294967296) ++ m.payload) := by
  unfold NetworkMessage.serialize bigEndian32
  simp only [and_255, Nat.shiftRight_eq_div_pow, Nat.mod_mod]
  rfl

theorem beValue_bigEndian32 {n : Nat} (hn : n < 4294967296) : beValue (bigEndian32 n) = n := by
  unfold beValue bigEndian32
  simp only [List.foldl]
  omega

theorem isBytes_bigEndian32 (n : Nat) : IsBytes (bigEndian32 n) := by
  intro b hb
  unfold bigEndian32 at hb
  simp only [List.mem_cons, List.mem_singleton, List.not_mem_nil, or_false] at hb
  omega

/-- C18: for every message whose payload length n is below 2^32, `serialize` is the byte
holding the message type, then the four bytes of n in big-endian order (four byte values
whose big-endian value is n), then the n payload bytes unchanged, and nothing else: the
total length is 5 + n. -/
theorem serialize_layout (m : NetworkMessage) (ht : m.type < 256)
    (hn : m.payload.length < 4294967296) :
    m.serialize = [m.type] ++ bigEndian32 m.payload.length ++ m.payload ∧
      (bigEndian32 m.payload.length).length = 4 ∧
      IsBytes (bigEndian32 m.payload.length) ∧
      beValue (bigEndian32 m.payload.length) = m.payload.length ∧
      m.serialize.length = 5 + m.payload.length := by
  have e : m.serialize = [m.type] ++ bigEndian32 m.payload.length ++ m.payload := by
    rw [serialize_eq, Nat.mod_eq_of_lt ht, Nat.mod_eq_of_lt hn]
    rfl
  refine ⟨e, rfl, isBytes_bigEndian32 _, beValue_bigEndian32 hn, ?_⟩
  rw [e]
  simp only [List.length_append, List.length_cons, List.length_nil, bigEndian32]

theorem serialize_layout_witness :
    MessageType.MOVE_ITEM_REQUEST < 256 ∧ ([7, 8, 9] : List Nat).length < 4294967296 ∧
      NetworkMessage.serialize ⟨MessageType.MOVE_ITEM_REQUEST, [7, 8, 9]⟩ =
        [10, 0, 0, 0, 3, 7, 8, 9] := by
  have h := (serialize_layout ⟨MessageType.MOVE_ITEM_REQUEST, [7, 8, 9]⟩ (by decide)
    (by decide)).1
  exact ⟨by decide, by decide, h.trans (by decide)⟩

/-- C19: for every well-formed frame `b` (a byte buffer of length at least 5 whose length is
5 plus the big-endian value of bytes 1..4), `deserialize` returns a message and `serialize`
of that message is `b`, byte for byte. -/
theorem serialize_deserialize_frame (b : List Nat) (hb : IsBytes b) (hlen : 5 ≤ b.length)
    (hwf : b.length = 5 + beValue ((b.drop 1).take 4)) :
    ∃ m, NetworkMessage.deserialize b = some m ∧ m.serialize = b := by
  match b, hb, hlen, hwf with
  | d0 :: d1 :: d2 :: d3 :: d4 :: rest, hb, _, hwf =>
    have h0 : d0 < 256 := hb d0 (by simp)
    have h1 : d1 < 256 := hb d1 (by simp)
    have h2 : d2 < 256 := hb d2 (by simp)
    have h3 : d3 < 256 := hb d3 (by simp)
    have h4 : d4 < 256 := hb d4 (by simp)
    have hv : beValue (((d0 :: d1 :: d2 :: d3 :: d4 :: rest).drop 1).take 4) =
        d1 * 16777216 + d2 * 65536 + d3 * 256 + d4 := by
      simp only [List.drop_succ_cons, List.drop_zero, List.take_succ_cons, List.take_zero,
        beValue, List.foldl]
      omega
    rw [hv] at hwf
    simp only [List.length_cons] at hwf
    have hrest : rest.length = d1 * 16777216 + d2 * 65536 + d3 * 256 + d4 := by omega
    refine ⟨{ type := d0, payload := rest }, ?_, ?_⟩
    · unfold NetworkMessage.deserialize
      simp only [or_bytes h1 h2 h3 h4, List.length_cons]
      have hc1 : rest.length + 1 + 1 + 1 + 1 + 1 ≥
          (5 + (d1 * 16777216 + d2 * 65536 + d3 * 256 + d4)) % 4294967296 := by omega
      have hc2 : d1 * 16777216 + d2 * 65536 + d3 * 256 + d4 ≤ rest.length := by omega
      rw [if_pos hc1, if_pos hc2, ← hrest, List.take_length]
    · rw [serialize_eq, Nat.mod_eq_of_lt h0]
      show d0 :: (bigEndian32 (rest.length % 4294967296) ++ rest) = _
      have hbe : bigEndian32 (rest.length % 4294967296) = [d1, d2, d3, d4] := by
        unfold bigEndian32
        rw [hrest]
        have a1 : (d1 * 16777216 + d2 * 65536 + d3 * 256 + d4) % 4294967296 / 16777216 % 256 =
            d1 := by omega
        have a2 : (d1 * 16777216 + d2 * 65536 + d3 * 256 + d4) % 4294967296 / 65536 % 256 =
            d2 := by omega
        have a3 : (d1 * 16777216 + d2 * 65536 + d3 * 256 + d4) % 4294967296 / 256 % 256 =
            d3 := by omega
        have a4 : (d1 * 16777216 + d2 * 65536 + d3 * 256 + d4) % 4294967296 % 256 = d4 := by
          omega
        rw [a1, a2, a3, a4]
      rw [hbe]
      rfl

theorem serialize_deserialize_frame_witness :
    IsBytes [10, 0, 0, 0, 3, 7, 8, 9] ∧ 5 ≤ ([10, 0, 0, 0, 3, 7, 8, 9] : List Nat).length ∧
      ([10, 0, 0, 0, 3, 7, 8, 9] : List Nat).length =
        5 + beValue ((([10, 0, 0, 0, 3, 7, 8, 9] : List Nat).drop 1).take 4) ∧
      ∃ m, NetworkMessage.deserialize [10, 0, 0, 0, 3, 7, 8, 9] = some m ∧
        m.serialize = [10, 0, 0, 0, 3, 7, 8, 9] :=
  ⟨by decide, by decide, by decide,
    serialize_deserialize_frame [10, 0, 0, 0, 3, 7, 8, 9] (by decide) (by decide) (by decide)⟩

/-- C20 (amended): `deserialize` applied to a byte buffer shorter than 5 bytes returns the
default message (type `HEARTBEAT`, empty payload); applied to a buffer of at least 5 bytes
that is shorter than 5 + payloadLength, with payloadLength (big-endian value of bytes 1..4)
below 2^32 - 5, it returns the message with the buffer's type byte and an empty payload; in
both cases it reads nothing outside the buffer, and the result is the decode of the complete
frame made of the same type byte and a zero length, so the result alone does not tell the
short buffer from a complete frame. -/
theorem deserialize_short_buffer (b : List Nat) (hb : IsBytes b) :
    (b.length < 5 →
      NetworkMessage.deserialize b = some NetworkMessage.default ∧
      NetworkMessage.deserialize [MessageType.HEARTBEAT, 0, 0, 0, 0] =
        some NetworkMessage.default) ∧
    (5 ≤ b.length → b.length < 5 + beValue ((b.drop 1).take 4) →
      beValue ((b.drop 1).take 4) < 4294967291 →
      NetworkMessage.deserialize b = some { type := b.headD 0, payload := [] } ∧
      NetworkMessage.deserialize [b.headD 0, 0, 0, 0, 0] =
        some { type := b.headD 0, payload := [] }) := by
  constructor
  · intro hlen
    refine ⟨?_, rfl⟩
    match b, hlen with
    | [], _ => rfl
    | [_], _ => rfl
    | [_, _], _ => rfl
    | [_, _, _], _ => rfl
    | [_, _, _, _], _ => rfl
    | _ :: _ :: _ :: _ :: _ :: _, hlen =>
      simp only [List.length_cons] at hlen
      omega
  · intro hlen hshort hp
    match b, hb, hlen, hshort, hp with
    | d0 :: d1 :: d2 :: d3 :: d4 :: rest, hb, _, hshort, hp =>
      have h1 : d1 < 256 := hb d1 (by simp)
      have h2 : d2 < 256 := hb d2 (by simp)
      have h3 : d3 < 256 := hb d3 (by simp)
      have h4 : d4 < 256 := hb d4 (by simp)
      have hv : beValue (((d0 :: d1 :: d2 :: d3 :: d4 :: rest).drop 1).take 4) =
          d1 * 16777216 + d2 * 65536 + d3 * 256 + d4 := by
        simp only [List.drop_succ_cons, List.drop_zero, List.take_succ_cons, List.take_zero,
          beValue, List.foldl]
        omega
      rw [hv] at hshort hp
      simp only [List.length_cons] at hshort
      refine ⟨?_, rfl⟩
      unfold NetworkMessage.deserialize
      simp only [or_bytes h1 h2 h3 h4, List.length_cons, List.headD_cons]
      have hc1 : ¬ rest.length + 1 + 1 + 1 + 1 + 1 ≥
          (5 + (d1 * 16777216 + d2 * 65536 + d3 * 256 + d4)) % 4294967296 := by omega
      rw [if_neg hc1]

theorem deserialize_short_buffer_witness :
    IsBytes [10, 0, 0, 0, 3, 7] ∧ 5 ≤ ([10, 0, 0, 0, 3, 7] : List Nat).length ∧
      ([10, 0, 0, 0, 3, 7] : List Nat).length <
        5 + beValue ((([10, 0, 0, 0, 3, 7] : List Nat).drop 1).take 4) ∧
      beValue ((([10, 0, 0, 0, 3, 7] : List Nat).drop 1).take 4) < 4294967291 ∧
      NetworkMessage.deserialize [10, 0, 0, 0, 3, 7] = some { type := 10, payload := [] } ∧
      NetworkMessage.deserialize [10, 0, 0, 0, 0] = some { type := 10, payload := [] } :=
  ⟨by decide, by decide, by decide, by decide,
    (deserialize_short_buffer [10, 0, 0, 0, 3, 7] (by decide)).2 (by decide) (by decide)
      (by decide)⟩

/-- C20 as stated fails: the empty buffer and the 6-byte buffer `[10,0,0,0,3,7]`, which
announces 3 payload bytes and carries 1, decode to the same messages as the complete frames
`[100,0,0,0,0]` and `[10,0,0,0,0]`. -/
theorem deserialize_short_equals_complete :
    ([] : List Nat).length < 5 ∧
      ([100, 0, 0, 0, 0] : List Nat).length =
        5 + beValue ((([100, 0, 0, 0, 0] : List Nat).drop 1).take 4) ∧
      NetworkMessage.deserialize [] = NetworkMessage.deserialize [100, 0, 0, 0, 0] ∧
      ([10, 0, 0, 0, 3, 7] : List Nat).length <
        5 + beValue ((([10, 0, 0, 0, 3, 7] : List Nat).drop 1).take 4) ∧
      ([10, 0, 0, 0, 0] : List Nat).length =
        5 + beValue ((([10, 0, 0, 0, 0] : List Nat).drop 1).take 4) ∧
      NetworkMessage.deserialize [10, 0, 0, 0, 3, 7] =
        NetworkMessage.deserialize [10, 0, 0, 0, 0] :=
  ⟨by decide, by decide, by decide, by decide, by decide, by decide⟩

/-- A 5-byte buffer announcing 2^32 - 1 payload bytes: the sum `5 + payloadSize` wraps to 4,
the size test passes, and the payload range handed to `assign` ends beyond the buffer. -/
theorem deserialize_reads_past_end_on_wrap :
    NetworkMessage.deserialize [1, 255, 255, 255, 255] = none := by
  decide

/-! ### The rollback identity -/

/-- C27: for every store satisfying the grid invariants and every anchor `(item, n)` at `pos`:
`removeItem pos` returns the anchor slot, and `placeItem item n pos` on the store left by the
removal returns `true` and yields the original store (the same grid, cell for cell). -/
theorem removeItem_placeItem_restores (inv : Inventory) (hinv : inv.GridInv)
    (pos : GridPosition) (s : InventorySlot) (item : Item)
    (hs : inv.cell? pos.x pos.y = some s) (hitem : s.item = some item) :
    ∃ inv1, inv.removeItem pos = some (some s, inv1) ∧
      inv1.placeItem (some item) s.stackCount pos = some (true, inv) := by
  have hcnt := hinv.count _ _ s item hs hitem
  have hplace := placeItem_ok (hinv.wf.mapCells (clearFn pos item.size) (clearFn_position _ _))
    item s.stackCount pos (areaFree_after_clear hinv pos s item hs hitem) (by omega) hcnt.2
  rw [restore_anchor hinv pos s item hs hitem] at hplace
  exact ⟨_, removeItem_ok hinv.wf pos s item hs hitem (by omega), hplace⟩

theorem removeItem_placeItem_restores_witness :
    sampleStore.GridInv ∧
      sampleStore.cell? 0 0 = some (setAnchor (some starkonja) 1 (freshSlot 0 0)) ∧
      ∃ inv1, sampleStore.removeItem ⟨0, 0⟩ =
          some (some (setAnchor (some starkonja) 1 (freshSlot 0 0)), inv1) ∧
        inv1.placeItem (some starkonja) 1 ⟨0, 0⟩ = some (true, sampleStore) := by
  obtain ⟨inv1, h1, h2⟩ := removeItem_placeItem_restores sampleStore (sampleHeap_inv 0)
    ⟨0, 0⟩ (setAnchor (some starkonja) 1 (freshSlot 0 0)) starkonja (by decide) rfl
  exact ⟨sampleHeap_inv 0, by decide, inv1, h1, h2⟩

/-! ### The defensive result codes are not reached -/

/-- In the merge branch both removals find their anchor, so the branch ends in `SUCCESS` or
`NO_SPACE`. -/
theorem mergeStacks_codes {h : Heap} (hi : HeapInv h) (src dst : StoreId)
    (sp dp : GridPosition) (item ditem : Item) (s ds : InventorySlot)
    (hs : (h src).cell? sp.x sp.y = some s) (hitem : s.item = some item)
    (hds : (h dst).cell? dp.x dp.y = some ds) (hditem : ds.item = some ditem)
    (hne : ¬ (src = dst ∧ sp = dp)) {r : OperationResult} {h1 : Heap}
    (hm : mergeStacks h src sp dst dp item s.stackCount ds = some (r, h1)) :
    r = .SUCCESS ∨ r = .NO_SPACE := by
  have hcs := (hi src).count _ _ s item hs hitem
  have hcd := (hi dst).count _ _ ds ditem hds hditem
  have e1 := heap_removeItem_ok (hi src).wf sp s item hs hitem (by omega)
  have hds1 : ((Function.update h src ((h src).mapCells (clearFn sp item.size))) dst).cell?
      dp.x dp.y = some ds := by
    by_cases hsd : dst = src
    · subst hsd
      rw [Function.update_same]
      refine clear_keep hds fun hin => ?_
      exact (hi dst).footprints_disjoint hs hitem hds hditem (fun e => hne ⟨rfl, e⟩) _ _ hin
        ((hi dst).anchor_inRect hds hditem)
    · rw [Function.update_noteq hsd]
      exact hds
  have hwf1 : ((Function.update h src ((h src).mapCells (clearFn sp item.size))) dst).WF := by
    by_cases hsd : dst = src
    · subst hsd
      rw [Function.update_same]
      exact (hi dst).wf.mapCells _ (clearFn_position _ _)
    · rw [Function.update_noteq hsd]
      exact (hi dst).wf
  have e2 := heap_removeItem_ok hwf1 dp ds ditem hds1 hditem (by omega)
  unfold mergeStacks at hm
  simp only [e1, e2] at hm
  repeat' split at hm
  all_goals cases hm
  all_goals simp

theorem mergeOrNoSpace_codes {h : Heap} (hi : HeapInv h) (src dst : StoreId)
    (sp dp : GridPosition) (item : Item) (s : InventorySlot)
    (hs : (h src).cell? sp.x sp.y = some s) (hitem : s.item = some item)
    (hne : ¬ (src = dst ∧ sp = dp)) {r : OperationResult} {h1 : Heap}
    (hm : mergeOrNoSpace h src sp dst dp item s.stackCount = some (r, h1)) :
    r = .SUCCESS ∨ r = .NO_SPACE := by
  unfold mergeOrNoSpace at hm
  rw [getSlot_eq (hi dst).wf] at hm
  cases hds : (h dst).cell? dp.x dp.y with
  | none =>
    simp only [hds] at hm
    cases hm
    simp
  | some ds =>
    cases hditem : ds.item with
    | none =>
      simp only [hds, hditem] at hm
      cases hm
      simp
    | some ditem =>
      simp only [hds, hditem] at hm
      split at hm
      · exact mergeStacks_codes hi src dst sp dp item ditem s ds hs hitem hds hditem hne hm
      · cases hm
        simp

/-- For stores satisfying the grid invariants `moveItem` returns `SUCCESS`, `ITEM_NOT_FOUND`
or `NO_SPACE`. -/
theorem moveItem_codes {h : Heap} (hi : HeapInv h) (src dst : StoreId) (sp dp : GridPosition) :
    ∃ r h1, moveItem h (some src) sp (some dst) dp = some (r, h1) ∧
      (r = .SUCCESS ∨ r = .ITEM_NOT_FOUND ∨ r = .NO_SPACE) := by
  cases hs : (h src).cell? sp.x sp.y with
  | none =>
    refine ⟨.ITEM_NOT_FOUND, h, ?_, by simp⟩
    unfold moveItem
    simp only [getSlot_eq (hi src).wf, hs]
  | some s =>
    cases hitem : s.item with
    | none =>
      refine ⟨.ITEM_NOT_FOUND, h, ?_, by simp⟩
      unfold moveItem
      simp only [getSlot_eq (hi src).wf, hs, hitem]
    | some item =>
      by_cases hfit : ∀ x y, inRect dp item.size x y →
          ∃ c, (h dst).cell? x y = some c ∧
            ((c.isEmpty = true ∧ c.isOccupied = false) ∨
              (src = dst ∧ inRect sp item.size x y))
      · exact ⟨_, _, moveItem_direct_eq h src dst sp dp s item (hi src) (hi dst) hs hitem hfit,
          by simp⟩
      · have hne : ¬ (src = dst ∧ sp = dp) := by
          rintro ⟨rfl, rfl⟩
          apply hfit
          intro x y hxy
          obtain ⟨c, hc⟩ := (hi src).footprint_cells hs hitem hxy
          exact ⟨c, hc, Or.inr ⟨rfl, hxy⟩⟩
        have heq := moveItem_no_fit_eq h src dst sp dp s item (hi src) (hi dst) hs hitem hfit
        cases hm : mergeOrNoSpace h src sp dst dp item s.stackCount with
        | none => exact absurd hm (mergeOrNoSpace_ne_none hi _ _ _ _ _ _)
        | some p =>
          obtain ⟨r, h1⟩ := p
          refine ⟨r, h1, heq.trans hm, ?_⟩
          rcases mergeOrNoSpace_codes hi src dst sp dp item s hs hitem hne hm with e | e
          · exact Or.inl e
          · exact Or.inr (Or.inr e)

/-- For a store satisfying the grid invariants `splitStack` returns `SUCCESS`,
`ITEM_NOT_FOUND`, `NO_SPACE` or `INVALID_STACK_SIZE`. -/
theorem splitStack_codes {h : Heap} {i : StoreId} (hinv : (h i).GridInv)
    (pos destPos : GridPosition) (amount : Int) :
    ∃ r h1, splitStack h (some i) pos amount destPos = some (r, h1) ∧
      (r = .SUCCESS ∨ r = .ITEM_NOT_FOUND ∨ r = .NO_SPACE ∨ r = .INVALID_STACK_SIZE) := by
  by_cases h0 : amount ≤ 0
  · refine ⟨.INVALID_STACK_SIZE, h, ?_, by simp⟩
    unfold splitStack
    simp only [h0, if_true]
  cases hs : (h i).cell? pos.x pos.y with
  | none =>
    refine ⟨.ITEM_NOT_FOUND, h, ?_, by simp⟩
    unfold splitStack
    simp only [h0, if_false, getSlot_eq hinv.wf, hs]
  | some s =>
    cases hitem : s.item with
    | none =>
      refine ⟨.ITEM_NOT_FOUND, h, ?_, by simp⟩
      unfold splitStack
      simp only [h0, if_false, getSlot_eq hinv.wf, hs, hitem]
    | some item =>
      by_cases h1 : toInt32 s.stackCount ≤ amount
      · refine ⟨.INVALID_STACK_SIZE, h, ?_, by simp⟩
        unfold splitStack
        simp only [h0, if_false, getSlot_eq hinv.wf, hs, hitem, h1, if_true]
      by_cases hfree : AreaFree (h i) destPos item.size
      · exact ⟨_, _, splitStack_fit_eq h i pos destPos amount s item hinv hs hitem h0 h1 hfree,
          by simp⟩
      · exact ⟨_, _,
          splitStack_no_fit_eq h i pos destPos amount s item hinv hs hitem h0 h1 hfree,
          by simp⟩

/-- C29: for present stores satisfying the grid invariants, `moveItem` and `splitStack`
return, and the result is one of `SUCCESS`, `ITEM_NOT_FOUND`, `NO_SPACE` (and, for
`splitStack`, `INVALID_STACK_SIZE`); it is never `CONCURRENT_MODIFICATION`, `INVALID_SOURCE`
or `INVALID_DESTINATION`. -/
theorem manager_result_codes (h : Heap) (hi : HeapInv h) (src dst i : StoreId)
    (sp dp pos destPos : GridPosition) (amount : Int) :
    (∃ r h1, moveItem h (some src) sp (some dst) dp = some (r, h1) ∧
      (r = .SUCCESS ∨ r = .ITEM_NOT_FOUND ∨ r = .NO_SPACE) ∧
      r ≠ .CONCURRENT_MODIFICATION ∧ r ≠ .INVALID_SOURCE ∧ r ≠ .INVALID_DESTINATION) ∧
    (∃ r h1, splitStack h (some i) pos amount destPos = some (r, h1) ∧
      (r = .SUCCESS ∨ r = .ITEM_NOT_FOUND ∨ r = .NO_SPACE ∨ r = .INVALID_STACK_SIZE) ∧
      r ≠ .CONCURRENT_MODIFICATION ∧ r ≠ .INVALID_SOURCE ∧ r ≠ .INVALID_DESTINATION) := by
  constructor
  · obtain ⟨r, h1, hm, hr⟩ := moveItem_codes hi src dst sp dp
    refine ⟨r, h1, hm, hr, ?_⟩
    rcases hr with e | e | e <;> subst e <;> simp
  · obtain ⟨r, h1, hm, hr⟩ := splitStack_codes (hi i) pos destPos amount
    refine ⟨r, h1, hm, hr, ?_⟩
    rcases hr with e | e | e | e <;> subst e <;> simp

theorem manager_result_codes_witness :
    HeapInv scenarioBHeap ∧
      (∃ r h1, moveItem scenarioBHeap (some 0) ⟨0, 0⟩ (some 1) ⟨1, 0⟩ = some (r, h1) ∧
        r ≠ .CONCURRENT_MODIFICATION) ∧
      ∃ r h1, splitStack scenarioBHeap (some 0) ⟨1, 0⟩ 4 ⟨2, 0⟩ = some (r, h1) ∧
        r ≠ .CONCURRENT_MODIFICATION := by
  obtain ⟨⟨r, h1, hm, _, hc, _⟩, ⟨r2, h2, hm2, _, hc2, _⟩⟩ :=
    manager_result_codes scenarioBHeap (fun _ => scenarioBStore_inv) 0 1 0 ⟨0, 0⟩ ⟨1, 0⟩
      ⟨1, 0⟩ ⟨2, 0⟩ 4
  exact ⟨fun _ => scenarioBStore_inv, ⟨r, h1, hm, hc⟩, r2, h2, hm2, hc2⟩

/-! ### Decoding what was encoded, and reads outside the buffer -/

/-- C30: for every message whose type is a byte value and whose payload length is below
2^32 - 5, `deserialize` of `serialize` of the message returns a message with the same type
and the same payload bytes. -/
theorem deserialize_serialize (m : NetworkMessage) (ht : m.type < 256)
    (hn : m.payload.length < 4294967291) :
    NetworkMessage.deserialize m.serialize = some m ∧
      ∃ m1, NetworkMessage.deserialize m.serialize = some m1 ∧ m1.type = m.type ∧
        m1.payload = m.payload := by
  have hmain : NetworkMessage.deserialize m.serialize = some m := by
    rw [serialize_eq, Nat.mod_eq_of_lt ht,
      Nat.mod_eq_of_lt (by omega : m.payload.length < 4294967296)]
    unfold bigEndian32
    show NetworkMessage.deserialize (m.type :: (m.payload.length / 16777216 % 256) ::
      (m.payload.length / 65536 % 256) :: (m.payload.length / 256 % 256) ::
      (m.payload.length % 256) :: m.payload) = some m
    unfold NetworkMessage.deserialize
    simp only [or_bytes (Nat.mod_lt _ (by decide : 256 > 0))
      (Nat.mod_lt _ (by decide : 256 > 0)) (Nat.mod_lt _ (by decide : 256 > 0))
      (Nat.mod_lt _ (by decide : 256 > 0)), List.length_cons]
    have hval : m.payload.length / 16777216 % 256 * 16777216 +
        m.payload.length / 65536 % 256 * 65536 + m.payload.length / 256 % 256 * 256 +
        m.payload.length % 256 = m.payload.length := by omega
    rw [hval]
    have hc1 : m.payload.length + 1 + 1 + 1 + 1 + 1 ≥
        (5 + m.payload.length) % 4294967296 := by omega
    rw [if_pos hc1, if_pos le_rfl, List.take_length]
  exact ⟨hmain, m, hmain, rfl, rfl⟩

theorem deserialize_serialize_witness :
    MessageType.OPERATION_RESULT < 256 ∧ ([0] : List Nat).length < 4294967291 ∧
      NetworkMessage.deserialize
          (NetworkMessage.serialize ⟨MessageType.OPERATION_RESULT, [0]⟩) =
        some ⟨MessageType.OPERATION_RESULT, [0]⟩ :=
  ⟨by decide, by decide,
    (deserialize_serialize ⟨MessageType.OPERATION_RESULT, [0]⟩ (by decide) (by decide)).1⟩

/-- On byte buffers `deserialize` reads outside the buffer exactly when the buffer has at
least 5 bytes, the announced payload length is at least 2^32 - 5 and the buffer is shorter
than 5 plus that length. -/
theorem deserialize_eq_none_iff (b : List Nat) (hb : IsBytes b) :
    NetworkMessage.deserialize b = none ↔
      5 ≤ b.length ∧ 4294967291 ≤ beValue ((b.drop 1).take 4) ∧
        b.length < 5 + beValue ((b.drop 1).take 4) := by
  match b, hb with
  | [], _ => simp [NetworkMessage.deserialize]
  | [_], _ => simp [NetworkMessage.deserialize]
  | [_, _], _ => simp [NetworkMessage.deserialize]
  | [_, _, _], _ => simp [NetworkMessage.deserialize]
  | [_, _, _, _], _ => simp [NetworkMessage.deserialize]
  | d0 :: d1 :: d2 :: d3 :: d4 :: rest, hb =>
    have h1 : d1 < 256 := hb d1 (by simp)
    have h2 : d2 < 256 := hb d2 (by simp)
    have h3 : d3 < 256 := hb d3 (by simp)
    have h4 : d4 < 256 := hb d4 (by simp)
    have hv : beValue (((d0 :: d1 :: d2 :: d3 :: d4 :: rest).drop 1).take 4) =
        d1 * 16777216 + d2 * 65536 + d3 * 256 + d4 := by
      simp only [List.drop_succ_cons, List.drop_zero, List.take_succ_cons, List.take_zero,
        beValue, List.foldl]
      omega
    rw [hv]
    unfold NetworkMessage.deserialize
    simp only [or_bytes h1 h2 h3 h4, List.length_cons]
    split
    · split
      · constructor
        · intro hn
          cases hn
        · omega
      · constructor
        · intro _
          omega
        · intro _
          rfl
    · constructor
      · intro hn
        cases hn
      · omega

/-- C28 fails on a header that announces 2^32 - 1 payload bytes: for the 5-byte buffer
`[1,255,255,255,255]` the sum `5 + payloadSize` computed modulo 2^32 is 4, the size test
`5 ≥ 4` passes although `5 ≥ 5 + 4294967295` does not hold, and the payload range handed to
`assign` ends beyond the buffer. -/
theorem deserialize_wrap_reads_outside_buffer :
    IsBytes [1, 255, 255, 255, 255] ∧
      beValue ((([1, 255, 255, 255, 255] : List Nat).drop 1).take 4) = 4294967295 ∧
      (5 + 4294967295) % 4294967296 = 4 ∧
      ¬ (([1, 255, 255, 255, 255] : List Nat).length ≥ 5 + 4294967295) ∧
      NetworkMessage.deserialize [1, 255, 255, 255, 255] = none :=
  ⟨by decide, by decide, by decide, by decide, by decide⟩

/-! ### Snapshots of a store -/

theorem getAllItems_row (inv : Inventory) (y : Int) (xs : List Int)
    (hcells : ∀ x ∈ xs, ∃ s, inv.cell? x y = some s) (items : List InventorySlot) :
    xs.foldlM (fun items1 x =>
        match inv.cell? x y with
        | none => none
        | some slot => some (if !slot.isEmpty then items1 ++ [slot] else items1)) items =
      some (items ++ (xs.map fun x => (⟨x, y⟩ : GridPosition)).filterMap fun pos =>
        match inv.cell? pos.x pos.y with
        | some slot => if !slot.isEmpty then some slot else none
        | none => none) := by
  induction xs generalizing items with
  | nil => simp
  | cons x xs ih =>
    obtain ⟨s, hs⟩ := hcells x (List.mem_cons_self _ _)
    rw [List.foldlM_cons]
    simp only [hs, Option.bind_eq_bind, Option.some_bind]
    rw [ih (fun x1 hx1 => hcells x1 (List.mem_cons_of_mem _ hx1))]
    simp only [List.map_cons, List.filterMap_cons, hs]
    by_cases he : s.isEmpty = true
    · simp [he]
    · simp [he]

theorem getAllItems_eq {inv : Inventory} (hwf : inv.WF) :
    inv.getAllItems = some inv.anchorSlots := by
  unfold Inventory.getAllItems Inventory.anchorSlots scanOrder
  have hrow : ∀ y ∈ loopRange 0 inv.height_, ∀ x ∈ loopRange 0 inv.width_,
      ∃ s, inv.cell? x y = some s := by
    intro y hy x hx
    rw [mem_loopRange] at hx hy
    apply hwf.cell_of_valid
    rw [isPositionValid_mk_iff]
    omega
  generalize loopRange 0 inv.height_ = ys at hrow
  suffices h : ∀ (items : List InventorySlot),
      ys.foldlM (fun items y =>
        (loopRange 0 inv.width_).foldlM (fun items1 x =>
          match inv.cell? x y with
          | none => none
          | some slot => some (if !slot.isEmpty then items1 ++ [slot] else items1)) items)
        items =
      some (items ++ (ys.flatMap fun y =>
        (loopRange 0 inv.width_).map fun x => (⟨x, y⟩ : GridPosition)).filterMap fun pos =>
          match inv.cell? pos.x pos.y with
          | some slot => if !slot.isEmpty then some slot else none
          | none => none) by
    simpa using h []
  induction ys with
  | nil => intro items; simp
  | cons y ys ih =>
    intro items
    rw [List.foldlM_cons, getAllItems_row inv y _ (hrow y (List.mem_cons_self _ _))]
    simp only [Option.bind_eq_bind, Option.some_bind]
    rw [ih (fun y1 hy1 => hrow y1 (List.mem_cons_of_mem _ hy1))]
    simp [List.flatMap_cons, List.filterMap_append]

/-! ### Maps held as lists of entries -/

theorem mapFind_mapAssign_same {K V : Type} [DecidableEq K] (m : List (K × V)) (k : K)
    (v : V) : mapFind (mapAssign m k v) k = some v := by
  induction m with
  | nil => simp [mapAssign, mapFind]
  | cons p r ih =>
    obtain ⟨k1, v1⟩ := p
    unfold mapAssign
    by_cases h : k1 = k
    · simp [h, mapFind]
    · simp [h, mapFind, ih]

theorem mapFind_mapAssign_ne {K V : Type} [DecidableEq K] (m : List (K × V)) {k k2 : K}
    (v : V) (hne : k2 ≠ k) : mapFind (mapAssign m k v) k2 = mapFind m k2 := by
  induction m with
  | nil =>
    have : ¬ k = k2 := fun e => hne e.symm
    simp [mapAssign, mapFind, this]
  | cons p r ih =>
    obtain ⟨k1, v1⟩ := p
    unfold mapAssign
    by_cases h : k1 = k
    · subst h
      have : ¬ k1 = k2 := fun e => hne e.symm
      simp [mapFind, this]
    · simp only [h, if_false, mapFind, ih]

theorem mapFind_sessionAssign_same (m : List (Int × ClientSession)) (k : Int)
    (v : ClientSession) : mapFind (sessionAssign m k v) k = some v := by
  induction m with
  | nil => simp [sessionAssign, mapFind]
  | cons p r ih =>
    obtain ⟨k1, v1⟩ := p
    unfold sessionAssign
    by_cases h1 : k < k1
    · simp [h1, mapFind]
    · by_cases h2 : k = k1
      · simp [h1, h2, mapFind]
      · have h3 : ¬ k1 = k := fun e => h2 e.symm
        simp [h1, h2, h3, mapFind, ih]

theorem mapFind_sessionAssign_ne (m : List (Int × ClientSession)) {k k2 : Int}
    (v : ClientSession) (hne : k2 ≠ k) :
    mapFind (sessionAssign m k v) k2 = mapFind m k2 := by
  have hne2 : ¬ k = k2 := fun e => hne e.symm
  induction m with
  | nil => simp [sessionAssign, mapFind, hne2]
  | cons p r ih =>
    obtain ⟨k1, v1⟩ := p
    unfold sessionAssign
    by_cases h1 : k < k1
    · simp [h1, mapFind, hne2]
    · by_cases h2 : k = k1
      · subst h2
        simp [mapFind, hne2]
      · simp only [h1, h2, if_false, mapFind, ih]

theorem mapFind_mapErase_same {K V : Type} [DecidableEq K] (m : List (K × V)) (k : K) :
    mapFind (mapErase m k) k = none := by
  induction m with
  | nil => rfl
  | cons p r ih =>
    obtain ⟨k1, v1⟩ := p
    unfold mapErase at ih ⊢
    by_cases h : k1 = k
    · simp [List.filter_cons, h, ih]
    · simp [List.filter_cons, h, mapFind, ih]

theorem mapFind_mapErase_ne {K V : Type} [DecidableEq K] (m : List (K × V)) {k k2 : K}
    (hne : k2 ≠ k) : mapFind (mapErase m k) k2 = mapFind m k2 := by
  induction m with
  | nil => rfl
  | cons p r ih =>
    obtain ⟨k1, v1⟩ := p
    unfold mapErase at ih ⊢
    by_cases h : k1 = k
    · subst h
      have : ¬ k1 = k2 := fun e => hne e.symm
      simp [List.filter_cons, mapFind, this, ih]
    · simp only [List.filter_cons, h, decide_False, Bool.not_false, if_true, mapFind, ih]

/-! ### Login requests -/

theorem serializeInventory_ne_none {inv : Inventory} (hwf : inv.WF) :
    ∃ data, serializeInventory (some inv) = some data := by
  unfold serializeInventory
  simp only [getAllItems_eq hwf]
  exact ⟨_, rfl⟩

theorem stashSyncMessage_ne_none (mgr : InventoryManager) (hwf : ∀ i, (mgr.heap i).WF)
    (i : Int) : ∃ m, stashSyncMessage mgr i = some m := by
  unfold stashSyncMessage
  cases mgr.getSharedStash i with
  | none => exact ⟨_, rfl⟩
  | some stash =>
    obtain ⟨data, hd⟩ := serializeInventory_ne_none (hwf stash)
    simp only [hd]
    exact ⟨_, rfl⟩

theorem getOrCreatePersonalInventory_wf (mgr : InventoryManager)
    (hwf : ∀ i, (mgr.heap i).WF) (username : List Nat) (i : StoreId) :
    ((mgr.getOrCreatePersonalInventory username).2.heap i).WF := by
  unfold InventoryManager.getOrCreatePersonalInventory
  cases mapFind mgr.personalInventories_ username with
  | some ptr => exact hwf i
  | none =>
    show ((Function.update mgr.heap mgr.nextStore (Inventory.new 12 5)) i).WF
    by_cases hi : i = mgr.nextStore
    · subst hi
      rw [Function.update_same]
      exact Inventory.WF.of_new (by decide) (by decide)
    · rw [Function.update_noteq hi]
      exact hwf i

/-- An accepted login: the state and the first reply. -/
theorem handleLoginRequest_accept (srv : ServerImpl)
    (hwf : ∀ i, (srv.inventoryManager.heap i).WF) (c : Int) (session : ClientSession)
    (hlive : mapFind srv.clients c = some session) (msg : NetworkMessage)
    (hvalid : ¬ (msg.payload.isEmpty = true ∨ msg.payload.length > 32))
    (hfree : (srv.clients.any fun p =>
      decide (p.2.username_ = msg.payload) && decide (p.1 ≠ c)) = false) :
    ∃ rest, handleLoginRequest srv c msg =
      some ({ clients := sessionAssign srv.clients c { session with username_ := msg.payload }
              usernameToSocket := mapAssign srv.usernameToSocket msg.payload c
              inventoryManager :=
                (srv.inventoryManager.getOrCreatePersonalInventory msg.payload).2 },
        (c, { type := MessageType.LOGIN_RESPONSE, payload := [LoginResult.SUCCESS] }) ::
          rest) := by
  have hwf1 := getOrCreatePersonalInventory_wf srv.inventoryManager hwf msg.payload
  obtain ⟨data, hd⟩ := serializeInventory_ne_none
    (hwf1 (srv.inventoryManager.getOrCreatePersonalInventory msg.payload).1)
  obtain ⟨s0, h0⟩ := stashSyncMessage_ne_none _ hwf1 0
  obtain ⟨s1, h1⟩ := stashSyncMessage_ne_none _ hwf1 1
  obtain ⟨s2, h2⟩ := stashSyncMessage_ne_none _ hwf1 2
  unfold handleLoginRequest
  simp only [hvalid, if_false, hfree, Bool.false_eq_true, hlive, hd, h0, h1, h2]
  exact ⟨_, rfl⟩

theorem any_eq_false_of_no_other (clients : List (Int × ClientSession)) (u : List Nat)
    (c : Int) (h : ¬ ∃ c1 s1, (c1, s1) ∈ clients ∧ c1 ≠ c ∧ s1.username_ = u) :
    (clients.any fun p => decide (p.2.username_ = u) && decide (p.1 ≠ c)) = false := by
  rw [Bool.eq_false_iff]
  intro hany
  rw [List.any_eq_true] at hany
  obtain ⟨⟨c1, s1⟩, hmem, hp⟩ := hany
  simp only [Bool.and_eq_true, decide_eq_true_eq] at hp
  exact h ⟨c1, s1, hmem, hp.2, hp.1⟩

theorem disconnect_keeps_other_entries (srv : ServerImpl) (c : Int) (u1 : List Nat) (c1 : Int)
    (h : mapFind (disconnectClientNoLock srv c).usernameToSocket u1 = some c1) :
    mapFind srv.usernameToSocket u1 = some c1 := by
  unfold disconnectClientNoLock at h
  simp only at h
  split at h
  · rename_i hne
    by_cases hu : u1 = (match mapFind srv.clients c with
        | some session => session.username_
        | none => [])
    · rw [hu, mapFind_mapErase_same] at h
      cases h
    · rw [mapFind_mapErase_ne _ hu] at h
      exact h
  · exact h

/-- C22: on a login request carrying the identity `u` on a live connection `c` of a server
whose stores are well formed: if `u` is empty or longer than 32 bytes the only reply is
`LOGIN_REJECTED` with reason `INVALID_USERNAME`; otherwise, if another live connection holds
`u`, the only reply is `LOGIN_REJECTED` with reason `USERNAME_ALREADY_CONNECTED`; in both
cases the state afterwards is the one left by `disconnectClientNoLock`, in which `c` has no
session, the reverse index has no entry it did not have before, and the manager (stores and
personal-store map) is unchanged.  Otherwise the first reply is `LOGIN_RESPONSE` with
`SUCCESS`, the session of `c` holds `u`, the reverse index maps `u` to `c`, and the manager is
unchanged when `u` already has a personal store, while otherwise `u` is mapped to a newly
allocated empty 12x5 store and every store allocated before is unchanged. -/
theorem login_request_outcome (srv : ServerImpl) (hmgr : srv.inventoryManager.WF) (c : Int)
    (session : ClientSession) (hlive : mapFind srv.clients c = some session) (u : List Nat) :
    ((u = [] ∨ u.length > 32) →
      handleLoginRequest srv c ⟨MessageType.LOGIN_REQUEST, u⟩ =
        some (disconnectClientNoLock srv c,
          [(c, ⟨MessageType.LOGIN_REJECTED, [LoginResult.INVALID_USERNAME]⟩)])) ∧
    (¬ (u = [] ∨ u.length > 32) →
      (∃ c1 s1, (c1, s1) ∈ srv.clients ∧ c1 ≠ c ∧ s1.username_ = u) →
      handleLoginRequest srv c ⟨MessageType.LOGIN_REQUEST, u⟩ =
        some (disconnectClientNoLock srv c,
          [(c, ⟨MessageType.LOGIN_REJECTED, [LoginResult.USERNAME_ALREADY_CONNECTED]⟩)])) ∧
    ((disconnectClientNoLock srv c).inventoryManager = srv.inventoryManager ∧
      mapFind (disconnectClientNoLock srv c).clients c = none ∧
      ∀ u1 c1, mapFind (disconnectClientNoLock srv c).usernameToSocket u1 = some c1 →
        mapFind srv.usernameToSocket u1 = some c1) ∧
    (¬ (u = [] ∨ u.length > 32) →
      ¬ (∃ c1 s1, (c1, s1) ∈ srv.clients ∧ c1 ≠ c ∧ s1.username_ = u) →
      ∃ srv1 rest,
        handleLoginRequest srv c ⟨MessageType.LOGIN_REQUEST, u⟩ =
          some (srv1, (c, ⟨MessageType.LOGIN_RESPONSE, [LoginResult.SUCCESS]⟩) :: rest) ∧
        mapFind srv1.clients c = some { session with username_ := u } ∧
        mapFind srv1.usernameToSocket u = some c ∧
        (∀ id, mapFind srv.inventoryManager.personalInventories_ u = some id →
          srv1.inventoryManager = srv.inventoryManager) ∧
        (mapFind srv.inventoryManager.personalInventories_ u = none →
          mapFind srv1.inventoryManager.personalInventories_ u =
            some srv.inventoryManager.nextStore ∧
          srv1.inventoryManager.heap srv.inventoryManager.nextStore = Inventory.new 12 5 ∧
          (∀ j, j < srv.inventoryManager.nextStore →
            srv1.inventoryManager.heap j = srv.inventoryManager.heap j) ∧
          ∀ u1, u1 ≠ u →
            mapFind srv1.inventoryManager.personalInventories_ u1 =
              mapFind srv.inventoryManager.personalInventories_ u1)) := by
  have hempty : (u.isEmpty = true) ↔ u = [] := by
    cases u <;> simp
  refine ⟨?_, ?_, ⟨rfl, ?_, disconnect_keeps_other_entries srv c⟩, ?_⟩
  · intro hbad
    have hbad1 : u.isEmpty = true ∨ u.length > 32 := by
      rcases hbad with h | h
      · exact Or.inl (hempty.mpr h)
      · exact Or.inr h
    unfold handleLoginRequest
    simp only [hbad1, if_true]
    rfl
  · intro hok hother
    have hok1 : ¬ (u.isEmpty = true ∨ u.length > 32) := by
      rw [hempty]
      exact hok
    have hany : (srv.clients.any fun p =>
        decide (p.2.username_ = u) && decide (p.1 ≠ c)) = true := by
      rw [List.any_eq_true]
      obtain ⟨c1, s1, hmem, hne, hu⟩ := hother
      exact ⟨(c1, s1), hmem, by simp [hne, hu]⟩
    unfold handleLoginRequest
    simp only [hok1, if_false, hany, if_true]
    rfl
  · unfold disconnectClientNoLock
    exact mapFind_mapErase_same _ _
  · intro hok hnone
    have hok1 : ¬ (u.isEmpty = true ∨ u.length > 32) := by
      rw [hempty]
      exact hok
    obtain ⟨rest, heq⟩ := handleLoginRequest_accept srv hmgr.stores c session hlive
      ⟨MessageType.LOGIN_REQUEST, u⟩ hok1 (any_eq_false_of_no_other _ _ _ hnone)
    refine ⟨_, rest, heq, mapFind_sessionAssign_same _ _ _, mapFind_mapAssign_same _ _ _, ?_, ?_⟩
    · intro id hid
      show (srv.inventoryManager.getOrCreatePersonalInventory u).2 = srv.inventoryManager
      unfold InventoryManager.getOrCreatePersonalInventory
      rw [hid]
    · intro habsent
      have e : (srv.inventoryManager.getOrCreatePersonalInventory u).2 =
          { heap := Function.update srv.inventoryManager.heap srv.inventoryManager.nextStore
              (Inventory.new 12 5)
            nextStore := srv.inventoryManager.nextStore + 1
            personalInventories_ :=
              mapAssign srv.inventoryManager.personalInventories_ u
                srv.inventoryManager.nextStore } := by
        unfold InventoryManager.getOrCreatePersonalInventory
        rw [habsent]
      show mapFind (srv.inventoryManager.getOrCreatePersonalInventory u).2.personalInventories_ u
          = _ ∧
        (srv.inventoryManager.getOrCreatePersonalInventory u).2.heap _ = _ ∧
        (∀ j, j < srv.inventoryManager.nextStore →
          (srv.inventoryManager.getOrCreatePersonalInventory u).2.heap j = _) ∧
        ∀ u1, u1 ≠ u →
          mapFind (srv.inventoryManager.getOrCreatePersonalInventory u).2.personalInventories_ u1
            = _
      rw [e]
      refine ⟨mapFind_mapAssign_same _ _ _, Function.update_same _ _ _, ?_, ?_⟩
      · intro j hj
        exact Function.update_noteq (Nat.ne_of_lt hj) _ _
      · intro u1 hu1
        exact mapFind_mapAssign_ne _ _ hu1

theorem InventoryManager.new_wf : InventoryManager.new.WF where
  stores := by
    intro i
    show (if i < 3 then Inventory.new 12 12 else Inventory.new 0 0).WF
    split
    · exact Inventory.WF.of_new (by decide) (by decide)
    · exact Inventory.WF.of_new (by decide) (by decide)
  stashes := by decide
  allocated := by
    intro u id h
    cases h

theorem login_request_outcome_witness :
    InventoryManager.new.WF ∧
      mapFind (acceptClient ServerImpl.new 5).clients 5 = some ⟨5, []⟩ ∧
      ∃ srv1 rest,
        handleLoginRequest (acceptClient ServerImpl.new 5) 5 ⟨MessageType.LOGIN_REQUEST, [97]⟩ =
          some (srv1, (5, ⟨MessageType.LOGIN_RESPONSE, [LoginResult.SUCCESS]⟩) :: rest) ∧
        mapFind srv1.clients 5 = some ⟨5, [97]⟩ ∧
        mapFind srv1.usernameToSocket [97] = some 5 ∧
        mapFind srv1.inventoryManager.personalInventories_ [97] = some 3 ∧
        srv1.inventoryManager.heap 3 = Inventory.new 12 5 := by
  obtain ⟨srv1, rest, h1, h2, h3, _, h5⟩ :=
    (login_request_outcome (acceptClient ServerImpl.new 5) InventoryManager.new_wf 5 ⟨5, []⟩
      (by decide) [97]).2.2.2 (by decide)
      (by
        rintro ⟨c1, s1, hmem, hne, _⟩
        have hmem1 : (c1, s1) ∈ [((5 : Int), (⟨5, []⟩ : ClientSession))] := hmem
        simp only [List.mem_singleton, Prod.mk.injEq] at hmem1
        exact hne hmem1.1)
  obtain ⟨h6, h7, _, _⟩ := h5 (by decide)
  exact ⟨InventoryManager.new_wf, by decide, srv1, rest, h1, h2, h3, h6, h7⟩

/-! ### The reverse index after a second login on the same connection -/

/-- C23 fails when an authenticated connection logs in again under another identity: after
`acceptClient` of socket 5, a login request `a` (byte 97) and a login request `b` (byte 98)
on that socket, both accepted, the session of socket 5 holds `b` while the reverse index
still maps `a` to socket 5; after the disconnection of socket 5 the connection is gone and
the entry for `a` is still there. -/
theorem relogin_leaves_stale_entry :
    ∃ srv1 out1 srv2 out2,
      handleLoginRequest (acceptClient ServerImpl.new 5) 5 ⟨MessageType.LOGIN_REQUEST, [97]⟩ =
        some (srv1, out1) ∧
      handleLoginRequest srv1 5 ⟨MessageType.LOGIN_REQUEST, [98]⟩ = some (srv2, out2) ∧
      out1.head? = some (5, ⟨MessageType.LOGIN_RESPONSE, [LoginResult.SUCCESS]⟩) ∧
      out2.head? = some (5, ⟨MessageType.LOGIN_RESPONSE, [LoginResult.SUCCESS]⟩) ∧
      mapFind srv2.clients 5 = some ⟨5, [98]⟩ ∧
      mapFind srv2.usernameToSocket [98] = some 5 ∧
      mapFind srv2.usernameToSocket [97] = some 5 ∧
      mapFind (disconnectClientNoLock srv2 5).clients 5 = none ∧
      mapFind (disconnectClientNoLock srv2 5).usernameToSocket [97] = some 5 := by
  obtain ⟨rest1, h1⟩ := handleLoginRequest_accept (acceptClient ServerImpl.new 5)
    InventoryManager.new_wf.stores 5 ⟨5, []⟩ (by decide) ⟨MessageType.LOGIN_REQUEST, [97]⟩
    (by decide) (by decide)
  obtain ⟨rest2, h2⟩ := handleLoginRequest_accept
    { clients := sessionAssign (acceptClient ServerImpl.new 5).clients 5 ⟨5, [97]⟩
      usernameToSocket := mapAssign (acceptClient ServerImpl.new 5).usernameToSocket [97] 5
      inventoryManager :=
        ((acceptClient ServerImpl.new 5).inventoryManager.getOrCreatePersonalInventory [97]).2 }
    (getOrCreatePersonalInventory_wf _ InventoryManager.new_wf.stores [97]) 5 ⟨5, [97]⟩
    (by decide) ⟨MessageType.LOGIN_REQUEST, [98]⟩ (by decide) (by decide)
  exact ⟨_, _, _, _, h1, h2, rfl, rfl, by decide, by decide, by decide, by decide, by decide⟩

/-! ### Split-stack requests that are too short -/

/-- A split-stack request with fewer than 8 payload bytes is dropped: no store changes and
nothing is sent. -/
theorem handleSplitStackRequest_short (srv : ServerImpl) (c : Int) (msg : NetworkMessage)
    (hlen : msg.payload.length < 8) : handleSplitStackRequest srv c msg = some (srv, []) := by
  unfold handleSplitStackRequest
  simp only [hlen, if_true]

/-- A split-stack request with exactly 8 payload bytes from an authenticated connection
passes the size test and reads `payload[8]`, one byte beyond the end of the payload. -/
theorem handleSplitStackRequest_eight_bytes (srv : ServerImpl) (c : Int)
    (session : ClientSession) (hlive : mapFind srv.clients c = some session)
    (hauth : session.username_ ≠ []) (msg : NetworkMessage) (hlen : msg.payload.length = 8) :
    payloadAt msg.payload 8 = none ∧ handleSplitStackRequest srv c msg = none := by
  have h8 : payloadAt msg.payload 8 = none := by
    unfold payloadAt
    rw [List.getElem?_eq_none_iff]
    omega
  refine ⟨h8, ?_⟩
  have hne : session.username_.isEmpty = false := by
    cases hu : session.username_ with
    | nil => exact absurd hu hauth
    | cons _ _ => rfl
  unfold handleSplitStackRequest
  have hlt : ¬ msg.payload.length < 8 := by omega
  simp only [hlt, if_false, hlive, hne, Bool.false_eq_true, h8]
  split <;> first | rfl | simp_all

/-- C26 fails on a payload of exactly 8 bytes, one byte short of the 9-byte layout: sent by
the authenticated connection 5, the request is not dropped; it passes the test
`payload.size() < 8` and the handler reads `payload[8]`, which is beyond the end of the
payload. -/
theorem split_request_of_eight_bytes_reads_past_end :
    ([0, 0, 0, 0, 0, 0, 1, 1] : List Nat).length < 9 ∧
      mapFind loggedInServer.clients 5 = some ⟨5, [97]⟩ ∧
      payloadAt [0, 0, 0, 0, 0, 0, 1, 1] 8 = none ∧
      handleSplitStackRequest loggedInServer 5
        ⟨MessageType.SPLIT_STACK_REQUEST, [0, 0, 0, 0, 0, 0, 1, 1]⟩ = none :=
  ⟨by decide, by decide,
    handleSplitStackRequest_eight_bytes loggedInServer 5 ⟨5, [97]⟩ (by decide) (by decide)
      ⟨MessageType.SPLIT_STACK_REQUEST, [0, 0, 0, 0, 0, 0, 1, 1]⟩ rfl⟩

/-! ### The listener loop of the client -/

theorem listenerRounds_fixed {st : ListenerState} (h : listenerRound st = some st) (n : Nat) :
    listenerRounds n st = some st := by
  induction n with
  | zero => rfl
  | succ n ih =>
    unfold listenerRounds
    rw [h]
    exact ih

/-- C24 fails when a read ends inside a frame after its fifth byte: the well-formed frame
`[10,0,0,0,3,7,8,9]` arrives as the reads `[10,0,0,0,3,7]` and `[8,9]`.  The first round
buffers 6 bytes; from then on every round finds at least 5 bytes buffered, so it does not
call `recv`, and finds the frame incomplete, so it extracts nothing: after any number of
rounds the second read is still pending and no message has been passed on. -/
theorem listener_stalls_inside_frame :
    NetworkMessage.deserialize ([10, 0, 0, 0, 3, 7] ++ [8, 9]) = some ⟨10, [7, 8, 9]⟩ ∧
      listenerRound ⟨true, [], [[10, 0, 0, 0, 3, 7], [8, 9]], []⟩ =
        some ⟨true, [10, 0, 0, 0, 3, 7], [[8, 9]], []⟩ ∧
      listenerRound ⟨true, [10, 0, 0, 0, 3, 7], [[8, 9]], []⟩ =
        some ⟨true, [10, 0, 0, 0, 3, 7], [[8, 9]], []⟩ ∧
      ∀ n, listenerRounds (n + 1) ⟨true, [], [[10, 0, 0, 0, 3, 7], [8, 9]], []⟩ =
        some ⟨true, [10, 0, 0, 0, 3, 7], [[8, 9]], []⟩ := by
  have h0 : listenerRound ⟨true, [], [[10, 0, 0, 0, 3, 7], [8, 9]], []⟩ =
      some ⟨true, [10, 0, 0, 0, 3, 7], [[8, 9]], []⟩ := by decide
  have h1 : listenerRound ⟨true, [10, 0, 0, 0, 3, 7], [[8, 9]], []⟩ =
      some ⟨true, [10, 0, 0, 0, 3, 7], [[8, 9]], []⟩ := by decide
  refine ⟨by decide, h0, h1, fun n => ?_⟩
  unfold listenerRounds
  rw [h0]
  exact listenerRounds_fixed h1 n

/-- The same frame cut after its fourth byte is passed on by the second round. -/
theorem listener_passes_frame_cut_in_header :
    listenerRounds 2 ⟨true, [], [[10, 0, 0, 0], [3, 7, 8, 9]], []⟩ =
      some ⟨true, [], [], [⟨10, [7, 8, 9]⟩]⟩ := by
  decide

/-! ### First fit -/

theorem pairwise_loopRange (start len : Int) : (loopRange start len).Pairwise (· < ·) := by
  unfold loopRange
  rw [List.pairwise_map]
  exact (List.pairwise_lt_range _).imp (by intro a b hab; omega)

theorem mem_scanOrder {inv : Inventory} {pos : GridPosition} :
    pos ∈ scanOrder inv ↔ inv.InBounds pos.x pos.y := by
  unfold scanOrder Inventory.InBounds
  simp only [List.mem_flatMap, List.mem_map, mem_loopRange]
  constructor
  · rintro ⟨y, hy, x, hx, rfl⟩
    show 0 ≤ x ∧ x < inv.width_ ∧ 0 ≤ y ∧ y < inv.height_
    omega
  · rintro ⟨h1, h2, h3, h4⟩
    exact ⟨pos.y, ⟨h3, by omega⟩, pos.x, ⟨h1, by omega⟩, rfl⟩

theorem scanOrder_pairwise (inv : Inventory) :
    (scanOrder inv).Pairwise fun a b => a.y < b.y ∨ (a.y = b.y ∧ a.x < b.x) := by
  unfold scanOrder
  rw [List.pairwise_flatMap]
  constructor
  · intro y _
    rw [List.pairwise_map]
    exact (pairwise_loopRange 0 inv.width_).imp (by intro a b hab; exact Or.inr ⟨rfl, hab⟩)
  · refine (pairwise_loopRange 0 inv.height_).imp ?_
    intro y1 y2 hy a ha b hb
    simp only [List.mem_map] at ha hb
    obtain ⟨_, _, rfl⟩ := ha
    obtain ⟨_, _, rfl⟩ := hb
    exact Or.inl hy

theorem giveItemScan_none (h : Heap) (i : StoreId) (item : Item)
    (count : Nat) (l : List GridPosition)
    (hno : ∀ q ∈ l, (h i).canPlaceItem item q = some false) :
    giveItemScan h i item count l = some (none, h) := by
  induction l with
  | nil => rfl
  | cons q r ih =>
    unfold giveItemScan
    simp only [hno q (List.mem_cons_self _ _)]
    exact ih fun q1 hq1 => hno q1 (List.mem_cons_of_mem _ hq1)

theorem giveItemScan_first (h : Heap) (i : StoreId) (hwf : (h i).WF) (item : Item)
    (count : Nat) (h0 : count ≠ 0) (hlim : count ≤ item.stackLimit)
    (pre : List GridPosition) (pos : GridPosition) (post : List GridPosition)
    (hpre : ∀ q ∈ pre, (h i).canPlaceItem item q = some false)
    (hpos : (h i).canPlaceItem item pos = some true) :
    giveItemScan h i item count (pre ++ pos :: post) =
      some (some pos,
        Function.update h i ((h i).mapCells (occupyFn pos item.size (some item) count))) := by
  induction pre with
  | nil =>
    have hfree : AreaFree (h i) pos item.size := by
      by_contra hnf
      rw [canPlaceItem_of_not_free hwf item pos hnf] at hpos
      cases hpos
    show giveItemScan h i item count (pos :: post) = _
    unfold giveItemScan
    simp only [hpos, heap_placeItem_ok hwf item count pos hfree h0 hlim]
  | cons q r ih =>
    show giveItemScan h i item count (q :: (r ++ pos :: post)) = _
    unfold giveItemScan
    simp only [hpre q (List.mem_cons_self _ _)]
    exact ih fun q1 hq1 => hpre q1 (List.mem_cons_of_mem _ hq1)

/-- A list either has no element with the property or splits at the first such element. -/
theorem first_split {α : Type} (p : α → Prop) (l : List α) :
    (∀ q ∈ l, ¬ p q) ∨ ∃ pre pos post, l = pre ++ pos :: post ∧ (∀ q ∈ pre, ¬ p q) ∧ p pos := by
  induction l with
  | nil => exact Or.inl (by simp)
  | cons a r ih =>
    by_cases ha : p a
    · exact Or.inr ⟨[], a, r, rfl, by simp, ha⟩
    · rcases ih with hnone | ⟨pre, pos, post, rfl, hpre, hpos⟩
      · left
        intro q hq
        rcases List.mem_cons.mp hq with rfl | hq
        · exact ha
        · exact hnone q hq
      · right
        refine ⟨a :: pre, pos, post, rfl, ?_, hpos⟩
        intro q hq
        rcases List.mem_cons.mp hq with rfl | hq
        · exact ha
        · exact hpre q hq

theorem canPlaceItem_false_of_ne_true {inv : Inventory} (hwf : inv.WF) (item : Item)
    (pos : GridPosition) (h : ¬ inv.canPlaceItem item pos = some true) :
    inv.canPlaceItem item pos = some false := by
  by_cases hfree : AreaFree inv pos item.size
  · exact absurd (canPlaceItem_of_free hwf item pos hfree) h
  · exact canPlaceItem_of_not_free hwf item pos hfree

/-- C25: `giveItem` returns `false` and leaves the server as it was when the item id is not
in the registry or the identity has no personal store.  For a registered item, an existing
personal store with the class invariant and a count between 1 and the item's stack limit:
if `canPlaceItem` is false at every position of the grid, `giveItem` returns `false` and
leaves the server as it was; and if `pos` is a position of the grid at which `canPlaceItem`
is true while it is false at every position of an earlier row and at every earlier position
of the same row, `giveItem` returns `true`, the store is the old one with the stack placed at
`pos` (anchor with the item and the count at `pos`, every cell outside the footprint
unchanged), and no other store and no other part of the server changes. -/
theorem giveItem_first_fit (srv : ServerImpl) (registry : ItemRegistry) (username : List Nat)
    (itemId count : Nat) :
    (registry.getItem itemId = none →
      giveItem srv registry username itemId count = some (false, srv, [])) ∧
    (srv.inventoryManager.getPersonalInventory username = none →
      giveItem srv registry username itemId count = some (false, srv, [])) ∧
    ∀ item i, registry.getItem itemId = some item →
      srv.inventoryManager.getPersonalInventory username = some i →
      (srv.inventoryManager.heap i).WF → 1 ≤ count → count ≤ item.stackLimit →
      ((∀ x y, (srv.inventoryManager.heap i).InBounds x y →
          (srv.inventoryManager.heap i).canPlaceItem item ⟨x, y⟩ = some false) →
        giveItem srv registry username itemId count = some (false, srv, [])) ∧
      ∀ pos : GridPosition, (srv.inventoryManager.heap i).InBounds pos.x pos.y →
        (srv.inventoryManager.heap i).canPlaceItem item pos = some true →
        (∀ x y, (srv.inventoryManager.heap i).InBounds x y →
          (y < pos.y ∨ (y = pos.y ∧ x < pos.x)) →
          (srv.inventoryManager.heap i).canPlaceItem item ⟨x, y⟩ = some false) →
        ∃ srv1 out, giveItem srv registry username itemId count = some (true, srv1, out) ∧
          srv1.clients = srv.clients ∧ srv1.usernameToSocket = srv.usernameToSocket ∧
          srv1.inventoryManager.personalInventories_ =
            srv.inventoryManager.personalInventories_ ∧
          srv1.inventoryManager.heap i =
            (srv.inventoryManager.heap i).mapCells (occupyFn pos item.size (some item) count) ∧
          (∀ j, j ≠ i → srv1.inventoryManager.heap j = srv.inventoryManager.heap j) ∧
          (∀ x y, ¬ inRect pos item.size x y →
            (srv1.inventoryManager.heap i).cell? x y =
              (srv.inventoryManager.heap i).cell? x y) := by
  refine ⟨?_, ?_, ?_⟩
  · intro hreg
    unfold giveItem
    simp only [hreg]
  · intro hper
    unfold giveItem
    cases registry.getItem itemId with
    | none => rfl
    | some item => simp only [hper]
  · intro item i hreg hper hwf h1 hlim
    constructor
    · intro hno
      unfold giveItem
      simp only [hreg, hper]
      rw [giveItemScan_none _ i item count _ (fun q hq => hno q.x q.y (mem_scanOrder.mp hq))]
    · intro pos hin hpos hfirst
      have hmem : pos ∈ scanOrder (srv.inventoryManager.heap i) := mem_scanOrder.mpr hin
      rcases first_split (fun q => (srv.inventoryManager.heap i).canPlaceItem item q = some true)
          (scanOrder (srv.inventoryManager.heap i)) with hnone | ⟨pre, p, post, hsplit, hpre, hp⟩
      · exact absurd hpos (hnone pos hmem)
      · have hpw := scanOrder_pairwise (srv.inventoryManager.heap i)
        rw [hsplit] at hpw hmem
        have hpin : (srv.inventoryManager.heap i).InBounds p.x p.y := by
          apply mem_scanOrder.mp
          rw [hsplit]
          simp
        have hp_eq : p = pos := by
          rw [List.pairwise_append] at hpw
          obtain ⟨_, hpost, _⟩ := hpw
          rw [List.pairwise_cons] at hpost
          rcases List.mem_append.mp hmem with hm | hm
          · exact absurd hpos (hpre pos hm)
          · rcases List.mem_cons.mp hm with e | hm
            · exact e.symm
            · have hlt := hpost.1 pos hm
              have hf := hfirst p.x p.y hpin hlt
              rw [hp] at hf
              cases hf
        subst hp_eq
        have hscan := giveItemScan_first srv.inventoryManager.heap i hwf item count (by omega)
          hlim pre p post
          (fun q hq => canPlaceItem_false_of_ne_true hwf item q (hpre q hq)) hp
        have hwf1 : ((Function.update srv.inventoryManager.heap i
            ((srv.inventoryManager.heap i).mapCells
              (occupyFn p item.size (some item) count))) i).WF := by
          rw [Function.update_same]
          exact hwf.mapCells _ (occupyFn_position _ _ _ _)
        obtain ⟨data, hdata⟩ := serializeInventory_ne_none hwf1
        unfold giveItem
        simp only [hreg, hper, hsplit] at hscan ⊢
        simp only [hscan]
        cases hsock : mapFind srv.usernameToSocket username with
        | none =>
          refine ⟨_, _, rfl, rfl, rfl, rfl, ?_, ?_, ?_⟩
          · exact Function.update_same _ _ _
          · intro j hj
            exact Function.update_noteq hj _ _
          · intro x y hout
            show ((Function.update srv.inventoryManager.heap i _) i).cell? x y = _
            rw [Function.update_same, cell?_occupy_outside _ _ _ hout]
        | some socket =>
          simp only [hdata]
          refine ⟨_, _, rfl, rfl, rfl, rfl, ?_, ?_, ?_⟩
          · exact Function.update_same _ _ _
          · intro j hj
            exact Function.update_noteq hj _ _
          · intro x y hout
            show ((Function.update srv.inventoryManager.heap i _) i).cell? x y = _
            rw [Function.update_same, cell?_occupy_outside _ _ _ hout]

theorem giveItem_first_fit_witness :
    catalogRegistry.getItem 1 = some chaosOrb ∧
      loggedInServer.inventoryManager.getPersonalInventory [97] = some 3 ∧
      (loggedInServer.inventoryManager.heap 3).WF ∧ 1 ≤ 5 ∧ 5 ≤ chaosOrb.stackLimit ∧
      (loggedInServer.inventoryManager.heap 3).canPlaceItem chaosOrb ⟨0, 0⟩ = some true ∧
      ∃ srv1 out,
        giveItem loggedInServer catalogRegistry [97] 1 5 =
          some (true, srv1, out) ∧
        srv1.inventoryManager.heap 3 =
          (loggedInServer.inventoryManager.heap 3).mapCells
            (occupyFn ⟨0, 0⟩ chaosOrb.size (some chaosOrb) 5) := by
  have hwf : (loggedInServer.inventoryManager.heap 3).WF :=
    getOrCreatePersonalInventory_wf _ InventoryManager.new_wf.stores [97] 3
  have hcan : (loggedInServer.inventoryManager.heap 3).canPlaceItem chaosOrb ⟨0, 0⟩ =
      some true := by decide
  obtain ⟨srv1, out, hg, _, _, _, hheap, _⟩ :=
    ((giveItem_first_fit loggedInServer catalogRegistry [97] 1 5).2.2 chaosOrb 3
      (by decide) (by decide) hwf (by decide) (by decide)).2 ⟨0, 0⟩
      (by unfold Inventory.InBounds; decide) hcan
      (by
        intro x y hin hlt
        unfold Inventory.InBounds at hin
        exfalso
        change y < 0 ∨ (y = 0 ∧ x < 0) at hlt
        omega)
  exact ⟨by decide, by decide, hwf, by decide, by decide, hcan, srv1, out, hg, hheap⟩

/-! ### The snapshot of a store and its decoding by the client -/

theorem pushUInt32_eq (v : Nat) (hv : v < 4294967296) : pushUInt32 v = bigEndian32 v := by
  unfold pushUInt32 bigEndian32
  simp only [and_255, Nat.shiftRight_eq_div_pow, Nat.mod_mod, Nat.mod_eq_of_lt hv]

theorem readUInt32_bigEndian32 {v : Nat} (hv : v < 4294967296) :
    readUInt32 (v / 16777216 % 256) (v / 65536 % 256) (v / 256 % 256) (v % 256) = v := by
  unfold readUInt32
  rw [or_bytes (Nat.mod_lt _ (by decide)) (Nat.mod_lt _ (by decide))
    (Nat.mod_lt _ (by decide)) (Nat.mod_lt _ (by decide))]
  omega

theorem toUInt8_of_byte {i : Int} (h : 0 ≤ i ∧ i < 256) :
    toUInt8 i = i.toNat ∧ ((i.toNat : Nat) : Int) = i := by
  unfold toUInt8
  omega

theorem bytesToString_stringBytes (name : String) (h : ∀ c ∈ name.data, c.toNat < 256) :
    bytesToString (stringBytes name) = name := by
  unfold bytesToString stringBytes
  rw [List.map_map]
  have hid : name.data.map (Char.ofNat ∘ fun c => c.toNat % 256) = name.data := by
    conv_rhs => rw [← List.map_id name.data]
    apply List.map_congr_left
    intro c hc
    simp only [Function.comp, id]
    rw [Nat.mod_eq_of_lt (h c hc), Char.ofNat_toNat]
  rw [hid]

theorem stringBytes_length (name : String) : (stringBytes name).length = name.length := by
  unfold stringBytes
  rw [List.length_map]
  rfl

theorem serializeSlot_eq {s : InventorySlot} {it : Item} (hit : s.item = some it)
    (hfit : FitsRecord s it) : serializeSlot s = slotRecord s it := by
  unfold serializeSlot slotRecord
  simp only [hit, (toUInt8_of_byte hfit.x).1, (toUInt8_of_byte hfit.y).1,
    (toUInt8_of_byte hfit.width).1, (toUInt8_of_byte hfit.height).1,
    pushUInt32_eq _ hfit.id, pushUInt32_eq _ hfit.count, pushUInt32_eq _ hfit.limit,
    Nat.mod_eq_of_lt (by have := hfit.nameLength; omega : it.name.length < 256)]

theorem parseSyncItems_step (n x y i0 i1 i2 i3 c0 c1 c2 c3 w h l0 l1 l2 l3 : Nat)
    (nm rest : List Nat) (items : List InventorySlot) :
    parseSyncItems (n + 1)
        (x :: y :: i0 :: i1 :: i2 :: i3 :: c0 :: c1 :: c2 :: c3 :: nm.length ::
          (nm ++ w :: h :: l0 :: l1 :: l2 :: l3 :: rest)) items =
      parseSyncItems n rest
        (items ++
          [{ item := some { id := readUInt32 i0 i1 i2 i3, name := bytesToString nm
                            size := ⟨(w : Int), (h : Int)⟩
                            stackLimit := readUInt32 l0 l1 l2 l3, imagePath := "" }
             stackCount := readUInt32 c0 c1 c2 c3
             position := ⟨(x : Int), (y : Int)⟩, isOccupied := false }]) := by
  have hlen : ¬ (nm ++ w :: h :: l0 :: l1 :: l2 :: l3 :: rest).length < nm.length := by
    rw [List.length_append]
    omega
  conv_lhs => unfold parseSyncItems
  simp only [hlen, if_false, List.take_left, List.drop_left]

/-- Decoding one record: the loop of `updateFromSyncData` consumes exactly the record of the
slot and appends the synced slot. -/
theorem parseSyncItems_record (n : Nat) (s : InventorySlot) (it : Item) (rest : List Nat)
    (items : List InventorySlot) (hit : s.item = some it) (hfit : FitsRecord s it) :
    parseSyncItems (n + 1) (slotRecord s it ++ rest) items =
      parseSyncItems n rest (items ++ [syncedSlot s]) := by
  have hslot : syncedSlot s =
      { item := some { id := it.id, name := it.name, size := it.size,
                       stackLimit := it.stackLimit, imagePath := "" }
        stackCount := s.stackCount, position := s.position, isOccupied := false } := by
    unfold syncedSlot
    rw [hit]
    rfl
  unfold slotRecord bigEndian32
  simp only [List.cons_append, List.nil_append, List.append_assoc]
  rw [← stringBytes_length it.name, parseSyncItems_step, hslot,
    bytesToString_stringBytes _ hfit.nameBytes,
    readUInt32_bigEndian32 hfit.id, readUInt32_bigEndian32 hfit.count,
    readUInt32_bigEndian32 hfit.limit, (toUInt8_of_byte hfit.x).2, (toUInt8_of_byte hfit.y).2,
    (toUInt8_of_byte hfit.width).2, (toUInt8_of_byte hfit.height).2]

theorem parseSyncItems_all (items : List InventorySlot)
    (hgood : ∀ s ∈ items, ∃ it, s.item = some it ∧ FitsRecord s it)
    (acc : List InventorySlot) :
    parseSyncItems items.length (items.map slotRecord?).flatten acc =
      (true, acc ++ items.map syncedSlot) := by
  induction items generalizing acc with
  | nil => simp [parseSyncItems]
  | cons s r ih =>
    obtain ⟨it, hit, hfit⟩ := hgood s (List.mem_cons_self _ _)
    have hrec : slotRecord? s = slotRecord s it := by
      unfold slotRecord?
      rw [hit]
    rw [List.map_cons, List.flatten_cons, hrec, List.length_cons,
      parseSyncItems_record _ s it _ acc hit hfit,
      ih (fun s1 hs1 => hgood s1 (List.mem_cons_of_mem _ hs1))]
    simp

theorem mem_anchorSlots {inv : Inventory} {s : InventorySlot} :
    s ∈ inv.anchorSlots ↔
      ∃ x y, inv.InBounds x y ∧ inv.cell? x y = some s ∧ s.isEmpty = false := by
  unfold Inventory.anchorSlots
  rw [List.mem_filterMap]
  constructor
  · rintro ⟨pos, hpos, hf⟩
    refine ⟨pos.x, pos.y, mem_scanOrder.mp hpos, ?_⟩
    cases hc : inv.cell? pos.x pos.y with
    | none => simp [hc] at hf
    | some c =>
      rw [hc] at hf
      by_cases he : c.isEmpty = true
      · simp [he] at hf
      · simp only [he, Bool.not_eq_true] at hf
        simp only [Bool.not_false, if_true, Option.some.injEq] at hf
        subst hf
        exact ⟨rfl, by simpa using he⟩
  · rintro ⟨x, y, hin, hc, he⟩
    refine ⟨⟨x, y⟩, mem_scanOrder.mpr hin, ?_⟩
    simp [hc, he]

theorem fitsRecord_of_anchor {inv : Inventory} (hinv : inv.GridInv) (hw : inv.width_ < 256)
    (hh : inv.height_ < 256)
    (hitems : ∀ x y s it, inv.cell? x y = some s → s.item = some it →
      it.id < 4294967296 ∧ it.stackLimit < 4294967296 ∧ it.name.length ≤ 255 ∧
        ∀ c ∈ it.name.data, c.toNat < 256)
    {s : InventorySlot} (hs : s ∈ inv.anchorSlots) :
    ∃ it, s.item = some it ∧ FitsRecord s it := by
  obtain ⟨x, y, hin, hc, he⟩ := mem_anchorSlots.mp hs
  cases hit : s.item with
  | none => simp [InventorySlot.isEmpty, hit] at he
  | some it =>
    obtain ⟨h1, h2, h3, h4⟩ := hitems x y s it hc hit
    have hpos := hinv.wf.pos x y s hc
    have hsz := hinv.size x y s it hc hit
    have hinside := hinv.inside x y s it hc hit
    have hcnt := hinv.count x y s it hc hit
    unfold Inventory.InBounds at hin
    refine ⟨it, rfl, ⟨?_, ?_, h1, by omega, h3, h4, by omega, by omega, h2⟩⟩
    · rw [hpos]
      show 0 ≤ x ∧ x < 256
      omega
    · rw [hpos]
      show 0 ≤ y ∧ y < 256
      omega

theorem itemCount_bytes {n : Nat} (hn : n < 65536) :
    ((((n % 65536) >>> 8 &&& 0xFF) % 256) <<< 8 ||| ((n % 65536) &&& 0xFF) % 256) % 65536 =
      n := by
  simp only [and_255, Nat.shiftRight_eq_div_pow, Nat.mod_mod, Nat.mod_eq_of_lt hn,
    Nat.shiftLeft_eq]
  have e : n / 2 ^ 8 % 256 * 2 ^ 8 = 2 ^ 8 * (n / 2 ^ 8 % 256) := Nat.mul_comm _ _
  rw [e, ← Nat.mul_add_lt_is_or (Nat.mod_lt _ (by decide)) (n / 2 ^ 8 % 256)]
  omega

/-- C21: for every store satisfying the grid invariants whose width and height are below
256 and whose items have an id and a stack limit below 2^32 and a name of at most 255
one-byte characters, with fewer than 65536 anchors: `getAllItems` returns the anchor slots;
the snapshot produced by `serializeInventory` is the width byte, the height byte, the
number of anchors as two bytes big-endian and one record
`[x][y][itemId:4][stackCount:4][nameLength][name][footprintW][footprintH][stackMax:4]` per
anchor in that order; and `updateFromSyncData` applied to it returns `true` and leaves in
`items_` exactly that sequence of slots (position, count, and id, name, footprint and stack
limit of the item).  The anchor slots are the non-empty cells of the grid, each once. -/
theorem sync_snapshot_roundtrip (inv : Inventory) (hinv : inv.GridInv)
    (hw : inv.width_ < 256) (hh : inv.height_ < 256)
    (hitems : ∀ x y s it, inv.cell? x y = some s → s.item = some it →
      it.id < 4294967296 ∧ it.stackLimit < 4294967296 ∧ it.name.length ≤ 255 ∧
        ∀ c ∈ it.name.data, c.toNat < 256)
    (hcount : inv.anchorSlots.length < 65536) (c : ClientInventory) :
    inv.getAllItems = some inv.anchorSlots ∧
      serializeInventory (some inv) =
        some ([inv.width_.toNat, inv.height_.toNat, inv.anchorSlots.length / 256 % 256,
            inv.anchorSlots.length % 256] ++ (inv.anchorSlots.map slotRecord?).flatten) ∧
      c.updateFromSyncData
          ([inv.width_.toNat, inv.height_.toNat, inv.anchorSlots.length / 256 % 256,
            inv.anchorSlots.length % 256] ++ (inv.anchorSlots.map slotRecord?).flatten) =
        (true, { c with items_ := inv.anchorSlots.map syncedSlot }) ∧
      (∀ s, s ∈ inv.anchorSlots ↔
        ∃ x y, inv.InBounds x y ∧ inv.cell? x y = some s ∧ s.isEmpty = false) ∧
      inv.anchorSlots.Nodup := by
  have hgood : ∀ s ∈ inv.anchorSlots, ∃ it, s.item = some it ∧ FitsRecord s it :=
    fun s hs => fitsRecord_of_anchor hinv hw hh hitems hs
  have hrecords : inv.anchorSlots.map serializeSlot = inv.anchorSlots.map slotRecord? := by
    apply List.map_congr_left
    intro s hs
    obtain ⟨it, hit, hfit⟩ := hgood s hs
    rw [serializeSlot_eq hit hfit]
    unfold slotRecord?
    rw [hit]
  refine ⟨getAllItems_eq hinv.wf, ?_, ?_, fun s => mem_anchorSlots, ?_⟩
  · unfold serializeInventory
    simp only [getAllItems_eq hinv.wf, hrecords,
      (toUInt8_of_byte ⟨hinv.wf.width_nonneg, hw⟩).1,
      (toUInt8_of_byte ⟨hinv.wf.height_nonneg, hh⟩).1, and_255, Nat.shiftRight_eq_div_pow,
      Nat.mod_mod, Nat.mod_eq_of_lt hcount]
  · unfold ClientInventory.updateFromSyncData
    simp only [List.cons_append, List.nil_append]
    have hn : ((inv.anchorSlots.length / 256 % 256) <<< 8 |||
        inv.anchorSlots.length % 256) % 65536 = inv.anchorSlots.length := by
      have := itemCount_bytes hcount
      simp only [and_255, Nat.shiftRight_eq_div_pow, Nat.mod_mod,
        Nat.mod_eq_of_lt hcount] at this
      exact this
    simp only [hn, parseSyncItems_all _ hgood, List.nil_append]
  · unfold Inventory.anchorSlots
    have hnd : (scanOrder inv).Nodup :=
      (scanOrder_pairwise inv).imp (by
        intro a b hab heq
        subst heq
        omega)
    refine hnd.filterMap ?_
    intro p q s hp hq
    cases hcp : inv.cell? p.x p.y with
    | none => simp [hcp] at hp
    | some cp =>
      cases hcq : inv.cell? q.x q.y with
      | none => simp [hcq] at hq
      | some cq =>
        rw [hcp] at hp
        rw [hcq] at hq
        have e1 : cp = s := by
          by_cases he : cp.isEmpty = true
          · simp [he] at hp
          · simpa [he] using hp
        have e2 : cq = s := by
          by_cases he : cq.isEmpty = true
          · simp [he] at hq
          · simpa [he] using hq
        have h1 := hinv.wf.pos _ _ _ hcp
        have h2 := hinv.wf.pos _ _ _ hcq
        rw [e1] at h1
        rw [e2] at h2
        cases p
        cases q
        simp_all

theorem sampleStore_items (x y : Int) (s : InventorySlot) (it : Item)
    (hs : sampleStore.cell? x y = some s) (hit : s.item = some it) : it = starkonja := by
  rcases @occupy_item_cases (Inventory.new 3 2) ⟨0, 0⟩ starkonja 1 x y s it hs hit with
    ⟨_, _, _, heq, _, _⟩ | ⟨_, hold⟩
  · exact heq
  · rw [cell?_new hold] at hit
    cases hit

theorem sync_snapshot_roundtrip_witness :
    sampleStore.GridInv ∧ sampleStore.width_ < 256 ∧ sampleStore.height_ < 256 ∧
      sampleStore.anchorSlots = [setAnchor (some starkonja) 1 (freshSlot 0 0)] ∧
      serializeInventory (some sampleStore) =
        some [3, 2, 0, 1, 0, 0, 0, 0, 0, 8, 0, 0, 0, 1, 9, 83, 116, 97, 114, 107, 111, 110, 106,
          97, 2, 2, 0, 0, 0, 1] ∧
      ClientInventory.updateFromSyncData ⟨3, 2, []⟩
          [3, 2, 0, 1, 0, 0, 0, 0, 0, 8, 0, 0, 0, 1, 9, 83, 116, 97, 114, 107, 111, 110, 106,
            97, 2, 2, 0, 0, 0, 1] =
        (true, ⟨3, 2, [setAnchor (some starkonja) 1 (freshSlot 0 0)]⟩) := by
  have hitems : ∀ x y s it, sampleStore.cell? x y = some s → s.item = some it →
      it.id < 4294967296 ∧ it.stackLimit < 4294967296 ∧ it.name.length ≤ 255 ∧
        ∀ c ∈ it.name.data, c.toNat < 256 := by
    intro x y s it hs hit
    rw [sampleStore_items x y s it hs hit]
    decide
  have hslots : sampleStore.anchorSlots = [setAnchor (some starkonja) 1 (freshSlot 0 0)] := by
    decide
  obtain ⟨_, hser, hupd, _, _⟩ := sync_snapshot_roundtrip sampleStore (sampleHeap_inv 0)
    (by decide) (by decide) hitems (by rw [hslots]; decide) ⟨3, 2, []⟩
  rw [hslots] at hser hupd
  exact ⟨sampleHeap_inv 0, by decide, by decide, hslots, hser.trans (by decide),
    hupd.trans (by decide)⟩

/-! ### Units of an item id, and moves on catalog items -/

theorem mapFind_mem {K V : Type} [DecidableEq K] {m : List (K × V)} {k : K} {v : V}
    (h : mapFind m k = some v) : (k, v) ∈ m := by
  induction m with
  | nil => cases h
  | cons e r ih =>
    obtain ⟨k1, v1⟩ := e
    unfold mapFind at h
    by_cases hk : k1 = k
    · rw [if_pos hk] at h
      cases h
      subst hk
      exact List.mem_cons_self _ _
    · rw [if_neg hk] at h
      exact List.mem_cons_of_mem _ (ih h)

/-- Every item definition registered by `ItemRegistry::initialize` is stored under its own
id, has a footprint of at least 1x1 and a stack limit below 2^31, and occupies a single cell
whenever it stacks (limit above 1). -/
theorem catalogRegistry_items (id : Nat) (item : Item)
    (h : catalogRegistry.getItem id = some item) :
    item.id = id ∧ 1 ≤ item.size.width ∧ 1 ≤ item.size.height ∧
      item.stackLimit < 2147483648 ∧ (1 < item.stackLimit → item.size = ⟨1, 1⟩) := by
  have hall : ∀ e ∈ catalogRegistry.items_, e.2.id = e.1 ∧ 1 ≤ e.2.size.width ∧
      1 ≤ e.2.size.height ∧ e.2.stackLimit < 2147483648 ∧
      (1 < e.2.stackLimit → e.2.size = ⟨1, 1⟩) := by
    decide
  exact hall _ (mapFind_mem h)

/-- Stores whose item references all are definitions of one registry satisfy `SameCatalog`:
the registry holds one definition per id. -/
theorem sameCatalog_of_registry (r : ItemRegistry) (a b : Inventory)
    (ha : ∀ x y s it, a.cell? x y = some s → s.item = some it → r.getItem it.id = some it)
    (hb : ∀ x y s it, b.cell? x y = some s → s.item = some it → r.getItem it.id = some it) :
    SameCatalog a b := by
  intro x y x1 y1 s s1 ia ib hs hia hs1 hib hid
  have h1 := ha x y s ia hs hia
  have h2 := hb x1 y1 s1 ib hs1 hib
  rw [hid, h2] at h1
  cases h1
  rfl

end inventory
